import Mathlib

/-! DOLFIN: `OpenMpAssembler` and `UnitCubeMesh`.

A shallow embedding of `dolfin/fem/OpenMpAssembler.cpp` and
`dolfin/generation/UnitCubeMesh.cpp`.

Conventions of the embedding.

* `double` values are elements of an arbitrary commutative additive monoid `R`
  (exact arithmetic); vertex coordinates are rationals.
* A raw buffer (`uint*`, `double*`) is a function from offsets to values.
* `uint` is 32 bit and `std::size_t` is 64 bit; arithmetic that can wrap is
  written with an explicit `%`.
* A C++ exception (`error`, `dolfin_error`), a failed `assert` and a null
  dereference end a run with `Outcome.raised`, which keeps the state reached.
* The OpenMP loop over the cells of a colour is run by one worker in
  `assemble_cells`, and by a team of workers whose steps interleave, the adds to
  the shared tensor being unsynchronized, in `assemble_cells_workers`.
-/

namespace dolfin

/-! ## Data model of the assembler -/

/-- The global tensor seen through its entries: the value at a global multi-index
(`[]` for a scalar, `[i]` for a vector, `[i, j]` for a matrix). -/
abbrev GenericTensor (R : Type) := List Nat → R

/-- A local (element) tensor, the flat row-major `double*` block a kernel fills. -/
abbrev LocalTensor (R : Type) := Nat → R

/-- A `MeshFunction<uint>`: the dimension it is defined on, its size and its values. -/
structure MeshFunction where
  dim : Nat
  size : Nat
  values : Nat → Nat

/-- The test `domains && domains->size() > 0` on a possibly null mesh function. -/
def MeshFunction.supplied : Option MeshFunction → Bool
  | none => false
  | some d => decide (d.size > 0)

/-- The mesh as the assembler reads it. -/
structure Mesh where
  /-- The topological dimension, `mesh.topology().dim()`. -/
  dim : Nat
  num_cells : Nat
  num_facets : Nat
  /-- The facet - cell connectivity: `facet->entities(D)`. -/
  facet_cells : Nat → List Nat
  /-- The local index of a facet in a cell: `Cell(mesh, c).index(facet)`. -/
  local_facet : Nat → Nat → Nat
  /-- The ordered pair `facet->adjacent_cells(facet_orientation)`. -/
  adjacent_cells : Option MeshFunction → Nat → Nat × Nat
  /-- The flag `mesh.ordered()`. -/
  ordered : Bool
  /-- The mesh data array "num colored cells" after `mesh.color("vertex")`. -/
  num_colored_cells : List Nat
  /-- The mesh data arrays "colored cells", one per colour, null when absent. -/
  colored_cells : Nat → Option (List Nat)
  /-- The mesh function "exterior facets", null when absent. -/
  exterior_facets : Option MeshFunction
  /-- The mesh function "facet orientation", null when absent. -/
  facet_orientation : Option MeshFunction
  /-- The mesh function "exterior facet domains", null when absent. -/
  exterior_facet_domains : Option MeshFunction

/-- Modelled from the spec: `facet->interior()`, true for a facet with two adjacent cells. -/
def Mesh.interior (mesh : Mesh) (facet : Nat) : Bool :=
  decide ((mesh.facet_cells facet).length = 2)

/-- Modelled from the spec: the dof map (`GenericDofMap`, not part of these sources) gives
per cell the array of local-to-global dofs; its local dimension on a cell is the length of
that array. -/
structure GenericDofMap where
  cell_dofs : Nat → List Nat

/-- Modelled from the spec: `local_dimension(cell)`, the number of dofs of the cell. -/
def GenericDofMap.local_dimension (dm : GenericDofMap) (cell : Nat) : Nat :=
  (dm.cell_dofs cell).length

/-- Modelled from the spec: `tabulate_dofs(dofs, cell, index)` writes the local-to-global dofs
of the cell into the buffer `dofs`; a pointer `buf + offset` is the pair `buf`, `offset`. -/
def GenericDofMap.tabulate_dofs (dm : GenericDofMap) (buf : Nat → Nat) (offset cell : Nat) :
    Nat → Nat :=
  fun j =>
    if offset ≤ j ∧ j < offset + dm.local_dimension cell then
      (dm.cell_dofs cell).getD (j - offset) 0
    else buf j

/-- A cell kernel after `ufc.update_new(cell)`: the local tensor it tabulates on a cell. -/
abbrev CellIntegral (R : Type) := Nat → LocalTensor R

/-- An exterior-facet kernel: the local tensor for a cell and a local facet. -/
abbrev ExteriorFacetIntegral (R : Type) := Nat → Nat → LocalTensor R

/-- An interior-facet kernel: the macro tensor for two cells and their local facets. -/
abbrev InteriorFacetIntegral (R : Type) := Nat → Nat → Nat → Nat → LocalTensor R

/-- The form together with its `UFC` data: one, possibly null, integral per registered
index of each kind (`num_cell_integrals` is the length of `cell_integrals`, and so on). -/
structure Form (R : Type) where
  mesh : Mesh
  rank : Nat
  /-- The dof map of argument `i`: `a.function_space(i)->dofmap()`. -/
  dofmap : Nat → GenericDofMap
  /-- The number of coefficients, `a.coefficients().size()`. -/
  num_coefficients : Nat
  /-- Whether `AssemblerTools::check(a)` accepts the form. -/
  check_ok : Bool
  cell_integrals : List (Option (CellIntegral R))
  exterior_facet_integrals : List (Option (ExteriorFacetIntegral R))
  interior_facet_integrals : List (Option (InteriorFacetIntegral R))

/-- The calls to collaborators, in the order in which they happen. -/
inductive Event
  | check
  | gather (i : Nat)
  | init_global_tensor
  | tabulate_cell (cell : Nat)
  | tabulate_exterior_facet (cell local_facet : Nat)
  | tabulate_interior_facet (cell0 cell1 local_facet0 local_facet1 : Nat)
  | add
  | set_value (position : Nat)
  | apply
  deriving DecidableEq, Repr

/-- What a pass reads and writes: the global tensor `A`, the buffer behind the `values`
pointer (`none` for a null pointer), the scratch buffers `ufc.dofs` and `ufc.macro_dofs`,
and the log of collaborator calls. -/
structure AssemblyState (R : Type) where
  A : GenericTensor R
  values : Option (List R)
  dofs : Nat → Nat → Nat
  macro_dofs : Nat → Nat → Nat
  log : List Event

/-- The ways a run ends early. -/
inductive AssemblyError
  | form_check
  | sub_domains_not_handled
  | facet_orientation_dimension
  | assertion_failed
  | null_integral
  deriving DecidableEq, Repr

/-- The end of a run: normal return, or an error raised in the state reached so far. -/
inductive Outcome (R : Type)
  | done (s : AssemblyState R)
  | raised (e : AssemblyError) (s : AssemblyState R)

/-- The state a run ended in. -/
def Outcome.state {R : Type} : Outcome R → AssemblyState R
  | .done s => s
  | .raised _ s => s

/-- The error a run ended with, if any. -/
def Outcome.error {R : Type} : Outcome R → Option AssemblyError
  | .done _ => none
  | .raised e _ => some e

/-- Sequencing: continue with `f` after a normal return, keep a raised error. -/
def Outcome.andThen {R : Type} (o : Outcome R) (f : AssemblyState R → Outcome R) : Outcome R :=
  match o with
  | .done s => f s
  | .raised e s => .raised e s

/-- Appends an event to the log. -/
def AssemblyState.record {R : Type} (s : AssemblyState R) (e : Event) : AssemblyState R :=
  { s with log := s.log ++ [e] }

/-- The `uint` difference `a - b`, which wraps modulo `2 ^ 32`. -/
def uint_sub (a b : Nat) : Nat := (a % 2 ^ 32 + 2 ^ 32 - b % 2 ^ 32) % 2 ^ 32

/-! ## The global tensor accumulator -/

section Accumulator
variable {R : Type} [AddCommMonoid R]

/-- Modelled from the spec: the global multi-indices a block addresses through the dof
arrays `dofs` (one per argument), in the row-major order of the block. -/
def global_indices : List (List Nat) → List (List Nat)
  | [] => [[]]
  | d :: ds => d.flatMap (fun g => (global_indices ds).map (fun t => g :: t))

/-- Modelled from the spec: the entries of a block paired with their global multi-indices. -/
def scatter (block : LocalTensor R) (dofs : List (List Nat)) : List (List Nat × R) :=
  (global_indices dofs).enum.map (fun e => (e.2, block e.1))

/-- Modelled from the spec: what a block adds to the entry `idx` of the global tensor. -/
def contribution (block : LocalTensor R) (dofs : List (List Nat)) : GenericTensor R :=
  fun idx => (((scatter block dofs).filter (fun e => decide (e.1 = idx))).map Prod.snd).sum

/-- Modelled from the spec: `GenericTensor::add`, the additive scatter of a dense block keyed
by the global indices of each argument. -/
def GenericTensor.add (A : GenericTensor R) (block : LocalTensor R) (dofs : List (List Nat)) :
    GenericTensor R :=
  fun idx => A idx + contribution block dofs idx

/-- The dof arrays read by `A.add(block, num_rows, rows)`: the first `num_rows i` entries of
each of the `rank` raw buffers. -/
def rows_of (rank : Nat) (num_rows : Nat → Nat) (rows : Nat → Nat → Nat) : List (List Nat) :=
  (List.range rank).map (fun i => (List.range (num_rows i)).map (rows i))

/-- Modelled from the spec: `AssemblerTools::init_global_tensor`; the tensor is rebuilt when
the sparsity is reset, zeroed when values are not added, and kept otherwise. -/
def init_global_tensor (A : GenericTensor R) (reset_sparsity add_values : Bool) :
    GenericTensor R :=
  if reset_sparsity || !add_values then (fun _ => 0) else A

end Accumulator

/-! ## `OpenMpAssembler::assemble_cells` -/

section Cells
variable {R : Type} [AddCommMonoid R]

/-- The dof arrays of a cell, `dofs[i] = &(dof_maps[i]->cell_dofs(index))` for `i < rank`. -/
def cell_dofs (a : Form R) (index : Nat) : List (List Nat) :=
  (List.range a.rank).map (fun i => (a.dofmap i).cell_dofs index)

/-- The body of the loop over the cells of one colour (lines 152-172). -/
def assemble_cells_body (a : Form R) (integral : Option (CellIntegral R))
    (colored_cells : List Nat) (cell_index : Nat) (s : AssemblyState R) : Outcome R :=
  let index := colored_cells.getD cell_index 0
  let dofs := cell_dofs a index
  match integral with
  | none => .raised .null_integral s
  | some k =>
    let A_local := k index
    let s1 := s.record (.tabulate_cell index)
    if s1.values.isSome && a.rank == 0 then
      .done ({ s1 with
        values := s1.values.map (fun (v : List R) => v.set cell_index (A_local 0)) }.record
        (.set_value cell_index))
    else
      .done ({ s1 with A := s1.A.add A_local dofs }.record .add)

/-- The loop `for (cell_index = 0; cell_index < num_cells; ++cell_index)` over the cells of
one colour as one worker runs it: the iterations one after another, `order` listing the
values of `cell_index` (`0, ..., num_cells - 1` in the loop over colours below). -/
def assemble_cells_color (a : Form R) (integral : Option (CellIntegral R))
    (colored_cells : List Nat) (order : List Nat) (s : AssemblyState R) : Outcome R :=
  order.foldl
    (fun o cell_index => o.andThen (assemble_cells_body a integral colored_cells cell_index))
    (.done s)

/-- The body of the loop over colours (lines 140-174), run by one worker. -/
def assemble_cells_color_step (a : Form R) (integral : Option (CellIntegral R)) (color : Nat)
    (s : AssemblyState R) : Outcome R :=
  match a.mesh.colored_cells color with
  | none => .raised .assertion_failed s
  | some colored_cells =>
    let num_cells := colored_cells.length
    assemble_cells_color a integral colored_cells (List.range num_cells) s

/-- The function `OpenMpAssembler::assemble_cells` run by a single thread (`num_threads`
is 1): every iteration of the loop over the cells of a colour ends before the next begins. -/
def assemble_cells (a : Form R) (domains : Option MeshFunction) (s : AssemblyState R) :
    Outcome R :=
  if a.cell_integrals.length = 0 then .done s
  else if MeshFunction.supplied domains then .raised .sub_domains_not_handled s
  else
    let integral := a.cell_integrals.getD 0 none
    let num_colors := a.mesh.num_colored_cells.length
    (List.range num_colors).foldl
      (fun o color => o.andThen (assemble_cells_color_step a integral color))
      (.done s)

/-! ### The loop over the cells of one colour run by a team of workers

`#pragma omp parallel for schedule(guided, 20) firstprivate(ufc, dofs)` (line 149) hands the
iterations of the loop over the cells of one colour to the workers of the team, in chunks of
consecutive iterations. The objects `ufc` and `dofs` are private to each worker; the
tensor `A` and the buffer `values` are shared, and nothing in the loop body synchronizes the
calls `A.add(ufc.A.get(), dofs)` of different workers. -/

/-- A worker inside the parallel loop: the iterations (values of `cell_index`) it has still
to run, in order; the entries that its current call of `A.add` has still to add, each
with its global multi-index; and the value it has read from the shared tensor for the first
of these entries and not yet written back, if any. -/
structure Worker (R : Type) where
  iterations : List Nat
  entries : List (List Nat × R)
  loaded : Option R

/-- A worker at the start of the loop, with the iterations handed to it. -/
def Worker.start (iterations : List Nat) : Worker R :=
  { iterations := iterations, entries := [], loaded := none }

/-- A worker that has run all its iterations to the end. -/
def Worker.finished (w : Worker R) : Bool :=
  w.iterations.isEmpty && w.entries.isEmpty

/-- Modelled from the spec: one step of a call of `GenericTensor::add` (not part of these
sources) that has still to add the entry `e` and then the entries `rest`, on the shared
tensor `A`. The accumulator has no internal locking: the entries are added one by one, and
the addition to one entry is a read of the entry followed by a write of the sum. The step
reads the entry when the worker holds no value (`loaded` is `none`), and otherwise writes
back the value read plus the entry. -/
def add_step (A : GenericTensor R) (e : List Nat × R) (rest : List (List Nat × R))
    (loaded : Option R) : GenericTensor R × List (List Nat × R) × Option R :=
  match loaded with
  | none => (A, e :: rest, some (A e.1))
  | some r => (fun idx => if idx = e.1 then r + e.2 else A idx, rest, none)

/-- One step of a worker on the shared state. A worker inside a call of `A.add` takes the
next step of the call; a worker between two calls starts its next iteration (lines 152-172
up to the call of `A.add`, or to the end in the dual-output mode, which writes
`(*values)[cell_index]`); a worker with nothing left stays as it is. -/
def worker_step (a : Form R) (k : CellIntegral R) (colored_cells : List Nat) (w : Worker R)
    (s : AssemblyState R) : Worker R × AssemblyState R :=
  match w.entries with
  | e :: rest =>
    let r := add_step s.A e rest w.loaded
    ({ w with entries := r.2.1, loaded := r.2.2 }, { s with A := r.1 })
  | [] =>
    match w.iterations with
    | [] => (w, s)
    | cell_index :: rest =>
      let index := colored_cells.getD cell_index 0
      let dofs := cell_dofs a index
      let A_local := k index
      let s1 := s.record (.tabulate_cell index)
      if s1.values.isSome && a.rank == 0 then
        ({ iterations := rest, entries := [], loaded := none },
          { s1 with
            values := s1.values.map (fun (v : List R) => v.set cell_index (A_local 0)) }.record
            (.set_value cell_index))
      else
        ({ iterations := rest, entries := scatter A_local dofs, loaded := none },
          s1.record .add)

/-- One step of the team: the worker `p` takes a step. -/
def team_step (a : Form R) (k : CellIntegral R) (colored_cells : List Nat)
    (st : List (Worker R) × AssemblyState R) (p : Nat) : List (Worker R) × AssemblyState R :=
  match st.1[p]? with
  | none => st
  | some w =>
    ((st.1.set p (worker_step a k colored_cells w st.2).1),
      (worker_step a k colored_cells w st.2).2)

/-- An execution of the parallel loop of one colour: `assignment` lists, for each worker
of the team, the iterations handed to it, in the order in which it runs them; `steps` lists
the workers in the order in which they take their steps. -/
structure Execution where
  assignment : List (List Nat)
  steps : List Nat

/-- The loop over the cells of one colour run by a team of workers along `exec`. The result
is `none` when `exec` is not an execution of the loop: some iteration is not handed out
exactly once, or the steps end before every worker has run its iterations to the end (the
loop ends at its barrier, when all iterations have been run). -/
def assemble_cells_color_workers (a : Form R) (integral : Option (CellIntegral R))
    (colored_cells : List Nat) (exec : Execution) (s : AssemblyState R) :
    Option (Outcome R) :=
  let num_cells := colored_cells.length
  if exec.assignment.flatten.Perm (List.range num_cells) then
    match integral with
    | none => some (if num_cells = 0 then .done s else .raised .null_integral s)
    | some k =>
      let st := exec.steps.foldl (team_step a k colored_cells)
        (exec.assignment.map Worker.start, s)
      if st.1.all Worker.finished then some (.done st.2) else none
  else none

/-- The body of the loop over colours (lines 140-174), the parallel loop of the colour run
along `exec color`; a colour is started only after the colour before it has ended. -/
def assemble_cells_color_step_workers (exec : Nat → Execution) (a : Form R)
    (integral : Option (CellIntegral R)) (o : Option (Outcome R)) (color : Nat) :
    Option (Outcome R) :=
  match o with
  | some (.done s) =>
    match a.mesh.colored_cells color with
    | none => some (.raised .assertion_failed s)
    | some colored_cells =>
      assemble_cells_color_workers a integral colored_cells (exec color) s
  | _ => o

/-- The function `OpenMpAssembler::assemble_cells` run by a team of workers, the parallel
loop of each colour along `exec color`. -/
def assemble_cells_workers (exec : Nat → Execution) (a : Form R)
    (domains : Option MeshFunction) (s : AssemblyState R) : Option (Outcome R) :=
  if a.cell_integrals.length = 0 then some (.done s)
  else if MeshFunction.supplied domains then some (.raised .sub_domains_not_handled s)
  else
    let integral := a.cell_integrals.getD 0 none
    let num_colors := a.mesh.num_colored_cells.length
    (List.range num_colors).foldl (assemble_cells_color_step_workers exec a integral)
      (some (.done s))

end Cells

/-! ## `OpenMpAssembler::assemble_exterior_facets` -/

section Facets
variable {R : Type} [AddCommMonoid R]

/-- The lines "Get integral for sub domain (if any)" of both facet loops: `none` stands for
`continue`, and `some i` for going on with the value `i` in the variable `integral`. -/
def select_integral {K : Type} (integrals : List (Option K)) (domains : Option MeshFunction)
    (facet : Nat) (integral : Option K) : Option (Option K) :=
  match domains with
  | none => some integral
  | some d =>
    if d.size > 0 then
      let domain := d.values facet
      if domain < integrals.length then some (integrals.getD domain none) else none
    else some integral

/-- The test "Only consider exterior facets" (line 210), true when the facet is skipped. -/
def not_exterior (mesh : Mesh) (facet : Nat) : Bool :=
  decide ((mesh.facet_cells facet).length = 2) ||
    (match mesh.exterior_facets with
     | none => false
     | some exterior_facets => decide (exterior_facets.values facet = 0))

/-- The body of the loop over facets of `assemble_exterior_facets` (lines 209-250), on the
variable `integral` carried by the loop and the state. -/
def exterior_facet_body (a : Form R) (domains : Option MeshFunction) (facet : Nat)
    (integral : Option (ExteriorFacetIntegral R)) (s : AssemblyState R) :
    Option (ExteriorFacetIntegral R) × Outcome R :=
  let mesh := a.mesh
  if not_exterior mesh facet then (integral, .done s)
  else
    match select_integral a.exterior_facet_integrals domains facet integral with
    | none => (integral, .done s)
    | some none => (none, .done s)
    | some (some k) =>
      if (mesh.facet_cells facet).length ≠ 1 then (some k, .raised .assertion_failed s)
      else
        let mesh_cell := (mesh.facet_cells facet).getD 0 0
        let local_facet := mesh.local_facet mesh_cell facet
        let local_dimensions := fun i => (a.dofmap i).local_dimension mesh_cell
        let dofs := fun i =>
          if i < a.rank then (a.dofmap i).tabulate_dofs (s.dofs i) 0 mesh_cell else s.dofs i
        let A_local := k mesh_cell local_facet
        let s1 := { s with dofs := dofs }.record (.tabulate_exterior_facet mesh_cell local_facet)
        (some k, .done ({ s1 with
          A := s1.A.add A_local (rows_of a.rank local_dimensions dofs) }.record .add))

/-- One iteration of a facet loop, skipped once an error has been raised. -/
def facet_step {K : Type}
    (body : Nat → Option K → AssemblyState R → Option K × Outcome R)
    (st : Option K × Outcome R) (facet : Nat) : Option K × Outcome R :=
  match st.2 with
  | .done s => body facet st.1 s
  | .raised e s => (st.1, .raised e s)

/-- The function `OpenMpAssembler::assemble_exterior_facets`. -/
def assemble_exterior_facets (a : Form R) (domains : Option MeshFunction)
    (s : AssemblyState R) : Outcome R :=
  if a.exterior_facet_integrals.length = 0 then .done s
  else
    let mesh := a.mesh
    let integral := a.exterior_facet_integrals.getD 0 none
    if !mesh.ordered then .raised .assertion_failed s
    else
      ((List.range mesh.num_facets).foldl (facet_step (exterior_facet_body a domains))
        (integral, .done s)).2

/-! ## `OpenMpAssembler::assemble_interior_facets` -/

/-- The loop "Tabulate dofs for each dimension on macro element" (lines 321-326). -/
def tabulate_macro_dofs (a : Form R) (cell0 cell1 : Nat) (macro_dofs : Nat → Nat → Nat) :
    Nat → Nat → Nat :=
  fun i =>
    if i < a.rank then
      let offset := (a.dofmap i).local_dimension cell0
      (a.dofmap i).tabulate_dofs ((a.dofmap i).tabulate_dofs (macro_dofs i) 0 cell0) offset cell1
    else macro_dofs i

/-- Modelled from the spec: `ufc.macro_local_dimensions`, the size of the concatenated dof
space of both cells, set by `ufc.update(cell0, local_facet0, cell1, local_facet1)`. -/
def macro_local_dimensions (a : Form R) (cell0 cell1 : Nat) : Nat → Nat :=
  fun i => (a.dofmap i).local_dimension cell0 + (a.dofmap i).local_dimension cell1

/-- The body of the loop over facets of `assemble_interior_facets` (lines 287-335). -/
def interior_facet_body (a : Form R) (domains : Option MeshFunction) (facet : Nat)
    (integral : Option (InteriorFacetIntegral R)) (s : AssemblyState R) :
    Option (InteriorFacetIntegral R) × Outcome R :=
  let mesh := a.mesh
  if !mesh.interior facet then (integral, .done s)
  else
    match select_integral a.interior_facet_integrals domains facet integral with
    | none => (integral, .done s)
    | some none => (none, .done s)
    | some (some k) =>
      let cells := mesh.adjacent_cells mesh.facet_orientation facet
      let cell0 := cells.1
      let cell1 := cells.2
      let local_facet0 := mesh.local_facet cell0 facet
      let local_facet1 := mesh.local_facet cell1 facet
      let macro_dofs := tabulate_macro_dofs a cell0 cell1 s.macro_dofs
      let macro_A := k cell0 cell1 local_facet0 local_facet1
      let s1 := { s with macro_dofs := macro_dofs }.record
        (.tabulate_interior_facet cell0 cell1 local_facet0 local_facet1)
      (some k, .done ({ s1 with
        A := s1.A.add macro_A
          (rows_of a.rank (macro_local_dimensions a cell0 cell1) macro_dofs) }.record .add))

/-- The test of the facet orientation (line 279), true when the error is raised. -/
def facet_orientation_rejected (mesh : Mesh) : Bool :=
  match mesh.facet_orientation with
  | none => false
  | some facet_orientation => decide (facet_orientation.dim ≠ uint_sub mesh.dim 1)

/-- The function `OpenMpAssembler::assemble_interior_facets`. -/
def assemble_interior_facets (a : Form R) (domains : Option MeshFunction)
    (s : AssemblyState R) : Outcome R :=
  if a.interior_facet_integrals.length = 0 then .done s
  else
    let mesh := a.mesh
    let integral := a.interior_facet_integrals.getD 0 none
    if !mesh.ordered then .raised .assertion_failed s
    else if facet_orientation_rejected mesh then .raised .facet_orientation_dimension s
    else
      ((List.range mesh.num_facets).foldl (facet_step (interior_facet_body a domains))
        (integral, .done s)).2

/-! ## `OpenMpAssembler::assemble` -/

/-- The loop "Gather off-process coefficients" (lines 75-77). -/
def gather_coefficients (a : Form R) (s : AssemblyState R) : AssemblyState R :=
  (List.range a.num_coefficients).foldl (fun s1 i => s1.record (.gather i)) s

/-- The state in which the passes of `assemble` start on the tensor `A`: no `values`
buffer, and the scratch buffers of the fresh `UFC` object. -/
def initial_state (A : GenericTensor R) : AssemblyState R :=
  { A := A, values := none, dofs := fun _ _ => 0, macro_dofs := fun _ _ => 0, log := [] }

/-- The state after "Check form", "Gather off-process coefficients" and "Initialize global
tensor" (lines 68-80), when the form is accepted. -/
def initialized_state (A : GenericTensor R) (a : Form R) (reset_sparsity add_values : Bool) :
    AssemblyState R :=
  let s1 := gather_coefficients a ((initial_state A).record .check)
  { s1 with A := init_global_tensor s1.A reset_sparsity add_values }.record .init_global_tensor

/-- The function `OpenMpAssembler::assemble` with explicit sub-domain markers (lines 52-93),
the cell pass run by one worker. -/
def assemble (A : GenericTensor R) (a : Form R)
    (cell_domains exterior_facet_domains interior_facet_domains : Option MeshFunction)
    (reset_sparsity add_values : Bool) : Outcome R :=
  if !a.check_ok then .raised .form_check ((initial_state A).record .check)
  else
    (((assemble_cells a cell_domains (initialized_state A a reset_sparsity add_values)).andThen
      (assemble_exterior_facets a exterior_facet_domains)).andThen
      (assemble_interior_facets a interior_facet_domains)).andThen
      (fun s => .done (s.record .apply))

/-- The function `OpenMpAssembler::assemble` without markers (lines 39-50): the boundary
indicators are taken from the mesh data. -/
def assemble_form (A : GenericTensor R) (a : Form R) (reset_sparsity add_values : Bool) :
    Outcome R :=
  assemble A a none a.mesh.exterior_facet_domains none reset_sparsity add_values

end Facets

/-! ## `UnitCubeMesh::UnitCubeMesh` -/

/-- The value of a `std::size_t` expression: arithmetic wraps modulo `2 ^ 64`. -/
def size_t (n : Nat) : Nat := n % 2 ^ 64

/-- The mesh under construction, as the calls to `MeshEditor` leave it: the declared
counts and the `add_vertex` and `add_cell` calls in the order in which they were made. -/
structure MeshEditor where
  /-- The argument of `init_vertices`. -/
  num_vertices : Nat
  /-- The argument of `init_cells`. -/
  num_cells : Nat
  /-- The calls `add_vertex(v, x)`: the index `v` and the coordinates `x`. -/
  vertices : List (Nat × List ℚ)
  /-- The calls `add_cell(c, cells)`: the index `c` and the four vertex indices. -/
  cells : List (Nat × List Nat)

/-- The mesh `Mesh()` before any editing. -/
def MeshEditor.empty : MeshEditor :=
  { num_vertices := 0, num_cells := 0, vertices := [], cells := [] }

/-- The call `editor.init_vertices(n)`. -/
def MeshEditor.init_vertices (e : MeshEditor) (n : Nat) : MeshEditor :=
  { e with num_vertices := n }

/-- The call `editor.init_cells(n)`. -/
def MeshEditor.init_cells (e : MeshEditor) (n : Nat) : MeshEditor :=
  { e with num_cells := n }

/-- The call `editor.add_vertex(v, x)`. -/
def MeshEditor.add_vertex (e : MeshEditor) (v : Nat) (x : List ℚ) : MeshEditor :=
  { e with vertices := e.vertices ++ [(v, x)] }

/-- The call `editor.add_cell(c, cells)`. -/
def MeshEditor.add_cell (e : MeshEditor) (c : Nat) (cells : List Nat) : MeshEditor :=
  { e with cells := e.cells ++ [(c, cells)] }

/-- The innermost statement of "Create vertices" (lines 72-74), on the editor and the
counter `vertex`. -/
def vertex_body (nx : Nat) (x1 x2 : ℚ) (st : MeshEditor × Nat) (ix : Nat) : MeshEditor × Nat :=
  let x0 := (ix : ℚ) / (nx : ℚ)
  (st.1.add_vertex st.2 [x0, x1, x2], size_t (st.2 + 1))

/-- The loop over `ix` of "Create vertices" (lines 69-75), for one `iy`; a loop
`for (i = 0; i <= n; i++)` runs over `List.range (n + 1)`. -/
def vertex_row (nx ny : Nat) (x2 : ℚ) (st : MeshEditor × Nat) (iy : Nat) : MeshEditor × Nat :=
  let x1 := (iy : ℚ) / (ny : ℚ)
  (List.range (nx + 1)).foldl (vertex_body nx x1 x2) st

/-- The loop over `iy` of "Create vertices" (lines 66-76), for one `iz`. -/
def vertex_plane (nx ny nz : Nat) (st : MeshEditor × Nat) (iz : Nat) : MeshEditor × Nat :=
  let x2 := (iz : ℚ) / (nz : ℚ)
  (List.range (ny + 1)).foldl (vertex_row nx ny x2) st

/-- The loops "Create vertices" (lines 64-77). -/
def create_vertices (nx ny nz : Nat) (st : MeshEditor × Nat) : MeshEditor × Nat :=
  (List.range (nz + 1)).foldl (vertex_plane nx ny nz) st

/-- The six tetrahedra of the box with lowest corner `v0`, each in the order in which its
vertices are stored in `cells[0..3]` (lines 90-116). -/
def box_cells (nx ny v0 : Nat) : List (List Nat) :=
  let v1 := size_t (v0 + 1)
  let v2 := size_t (v0 + (nx + 1))
  let v3 := size_t (v1 + (nx + 1))
  let v4 := size_t (v0 + (nx + 1) * (ny + 1))
  let v5 := size_t (v1 + (nx + 1) * (ny + 1))
  let v6 := size_t (v2 + (nx + 1) * (ny + 1))
  let v7 := size_t (v3 + (nx + 1) * (ny + 1))
  [[v0, v1, v3, v7], [v0, v1, v7, v5], [v0, v5, v7, v4],
   [v0, v3, v2, v7], [v0, v6, v4, v7], [v0, v2, v6, v7]]

/-- The corner indices `v0, ..., v7` of the box with lowest corner `v0` (lines 90-97). -/
def box_corners (nx ny v0 : Nat) : List Nat :=
  let v1 := size_t (v0 + 1)
  let v2 := size_t (v0 + (nx + 1))
  let v3 := size_t (v1 + (nx + 1))
  let v4 := size_t (v0 + (nx + 1) * (ny + 1))
  let v5 := size_t (v1 + (nx + 1) * (ny + 1))
  let v6 := size_t (v2 + (nx + 1) * (ny + 1))
  let v7 := size_t (v3 + (nx + 1) * (ny + 1))
  [v0, v1, v2, v3, v4, v5, v6, v7]

/-- The statement `editor.add_cell(cell++, cells)`. -/
def add_next_cell (st : MeshEditor × Nat) (cells : List Nat) : MeshEditor × Nat :=
  (st.1.add_cell st.2 cells, size_t (st.2 + 1))

/-- The body of the innermost loop of "Create tetrahedra" (lines 90-116), on the editor and
the counter `cell`. -/
def cell_body (nx ny iz iy : Nat) (st : MeshEditor × Nat) (ix : Nat) : MeshEditor × Nat :=
  let v0 := size_t (iz * (nx + 1) * (ny + 1) + iy * (nx + 1) + ix)
  (box_cells nx ny v0).foldl add_next_cell st

/-- The loop over `ix` of "Create tetrahedra" (lines 88-117), for one `iy`. -/
def cell_row (nx ny iz : Nat) (st : MeshEditor × Nat) (iy : Nat) : MeshEditor × Nat :=
  (List.range nx).foldl (cell_body nx ny iz iy) st

/-- The loop over `iy` of "Create tetrahedra" (lines 86-118), for one `iz`. -/
def cell_plane (nx ny : Nat) (st : MeshEditor × Nat) (iz : Nat) : MeshEditor × Nat :=
  (List.range ny).foldl (cell_row nx ny iz) st

/-- The loops "Create tetrahedra" (lines 84-119). -/
def create_cells (nx ny nz : Nat) (st : MeshEditor × Nat) : MeshEditor × Nat :=
  (List.range nz).foldl (cell_plane nx ny) st

/-- How the constructor ends: the mesh was received from another process, an error was
raised on the mesh built so far, or the mesh was built (and broadcast or not). -/
inductive UnitCubeOutcome
  | received
  | error (mesh : MeshEditor)
  | built (mesh : MeshEditor) (broadcast : Bool)

/-- The statements from "Open mesh for editing" to "Close mesh editor" (lines 54-122). -/
def build_mesh (nx ny nz : Nat) : MeshEditor :=
  let editor := MeshEditor.empty
  let editor := editor.init_vertices (size_t ((nx + 1) * (ny + 1) * (nz + 1)))
  let editor := (create_vertices nx ny nz (editor, 0)).1
  let editor := editor.init_cells (size_t (6 * nx * ny * nz))
  let editor := (create_cells nx ny nz (editor, 0)).1
  editor

/-- The constructor `UnitCubeMesh::UnitCubeMesh(nx, ny, nz)`; `is_receiver` and
`is_broadcaster` are the answers of `MPI`. -/
def UnitCubeMesh (nx ny nz : Nat) (is_receiver is_broadcaster : Bool) : UnitCubeOutcome :=
  if is_receiver then .received
  else if nx < 1 ∨ ny < 1 ∨ nz < 1 then .error MeshEditor.empty
  else .built (build_mesh nx ny nz) is_broadcaster

/-! ## Notions used to state the properties of the cell pass -/

section CellNotions
variable {R : Type} [AddCommMonoid R]

/-- What the cell `index` is to add to the global tensor: the local tensor of the kernel `k`
on the cell, scattered through the local-to-global dof arrays of the cell, one array for each
of the `rank` arguments of the form. -/
def cell_contribution (a : Form R) (k : CellIntegral R) (index : Nat) : GenericTensor R :=
  contribution (k index) ((List.range a.rank).map (fun i => (a.dofmap i).cell_dofs index))

/-- The entries of the global tensor that the cell `index` addresses: the global
multi-indices made of one global dof of the cell for each argument of the form. -/
def cell_entries (a : Form R) (index : Nat) : List (List Nat) :=
  global_indices ((List.range a.rank).map (fun i => (a.dofmap i).cell_dofs index))

/-- No two cells of a colour class that are run by different workers address a common
entry of the global tensor. -/
def race_free (a : Form R) (exec : Nat → Execution) : Prop :=
  ∀ color, color < a.mesh.num_colored_cells.length →
    ∀ cells ∈ a.mesh.colored_cells color,
      (exec color).assignment.Pairwise (fun l1 l2 =>
        ∀ i ∈ l1, ∀ j ∈ l2, ∀ idx ∈ cell_entries a (cells.getD i 0),
          idx ∉ cell_entries a (cells.getD j 0))

/-- Every colour class is handed out to the workers in full, each iteration once. -/
def valid_assignment (mesh : Mesh) (exec : Nat → Execution) : Prop :=
  ∀ color, color < mesh.num_colored_cells.length →
    ∀ cells ∈ mesh.colored_cells color,
      (exec color).assignment.flatten.Perm (List.range cells.length)

/-- What a list of entries, each with its global multi-index, adds to the tensor. -/
def entries_tensor (l : List (List Nat × R)) : GenericTensor R :=
  fun idx => ((l.filter (fun e => decide (e.1 = idx))).map Prod.snd).sum

/-- What a worker has still to add to the tensor: the entries left of its current call of
`A.add`, and the contributions of the iterations it has not started (none in the
dual-output mode `dual`). -/
def Worker.pending (a : Form R) (k : CellIntegral R) (cells : List Nat) (dual : Bool)
    (w : Worker R) : GenericTensor R :=
  entries_tensor w.entries +
    (w.iterations.map
      (fun ci => if dual then 0 else cell_contribution a k (cells.getD ci 0))).sum

/-- The entries of the tensor that a worker may still address. -/
def Worker.touched (a : Form R) (cells : List Nat) (w : Worker R) : List (List Nat) :=
  w.entries.map Prod.fst ++ w.iterations.flatMap (fun ci => cell_entries a (cells.getD ci 0))

/-- The number of steps that a worker needs at most to run what it has left to the end: two
for each entry left of its current call of `A.add`, less one when it has read the first
of them, and for each iteration not started one step and two for each entry of the cell. -/
def Worker.work (a : Form R) (cells : List Nat) (w : Worker R) : Nat :=
  (2 * w.entries.length - (if w.loaded.isSome then 1 else 0)) +
    (w.iterations.map (fun ci => 1 + 2 * (cell_entries a (cells.getD ci 0)).length)).sum

/-- Steps that run a colour class to the end, for the assignment `assignment` of its
iterations: the workers run one after the other, each as many steps as it needs at most. -/
def enough_steps (a : Form R) (cells : List Nat) (assignment : List (List Nat)) : List Nat :=
  (List.range assignment.length).flatMap
    (fun p => List.replicate
      ((Worker.start (assignment.getD p []) : Worker R).work a cells) p)

/-- The execution of the cell pass with the assignments `assign` (one for each colour) in
which the workers of each colour run one after the other. -/
def one_after_the_other (a : Form R) (assign : Nat → List (List Nat)) : Nat → Execution :=
  fun color =>
    { assignment := assign color,
      steps := enough_steps a ((a.mesh.colored_cells color).getD []) (assign color) }

/-- What holds of a team at every step of a race-free execution: the tensor together with
what the workers have still to add is the fixed tensor `T`; a value that a worker has read
and not yet written back is the current value of the entry; no two workers may still
address a common entry; and the buffer is where it was (`present`). -/
def team_invariant (a : Form R) (k : CellIntegral R) (cells : List Nat) (present : Bool)
    (T : GenericTensor R) (st : List (Worker R) × AssemblyState R) : Prop :=
  st.2.A + (st.1.map (Worker.pending a k cells (present && a.rank == 0))).sum = T ∧
  (∀ (p : Nat) (w : Worker R) (r : R), st.1[p]? = some w → w.loaded = some r →
    ∃ e rest, w.entries = e :: rest ∧ r = st.2.A e.1) ∧
  (∀ (p q : Nat) (w1 w2 : Worker R), p ≠ q → st.1[p]? = some w1 → st.1[q]? = some w2 →
    ∀ idx ∈ w1.touched a cells, idx ∉ w2.touched a cells) ∧
  st.2.values.isSome = present

/-- The test `values && form_rank == 0` of the cell loop. -/
def buffered (a : Form R) (s : AssemblyState R) : Bool :=
  s.values.isSome && a.rank == 0

/-- The colour classes stored on the mesh, in the order of the colours. -/
def stored_classes (mesh : Mesh) : List (Option (List Nat)) :=
  (List.range mesh.num_colored_cells.length).map mesh.colored_cells

/-- Two runs end alike: with the same error or both normally, with the same global tensor,
and both with or both without a `values` buffer. -/
def same_tensor (o1 o2 : Outcome R) : Prop :=
  o1.error = o2.error ∧ o1.state.A = o2.state.A ∧
    o1.state.values.isSome = o2.state.values.isSome

end CellNotions

/-! ## Notions used to state the properties of the facet passes -/

section FacetNotions
variable {R : Type} [AddCommMonoid R]

/-- The sub-domain a facet belongs to: its marker when a non-empty marker array is
supplied, the default 0 otherwise. -/
def marker_of (domains : Option MeshFunction) (facet : Nat) : Nat :=
  match domains with
  | none => 0
  | some d => if d.size > 0 then d.values facet else 0

/-- The kernel registered for the sub-domain of a facet: none when the marker is not below
the number of registered integrals, or when the integral at the marker is null. -/
def registered_kernel {K : Type} (integrals : List (Option K)) (domains : Option MeshFunction)
    (facet : Nat) : Option K :=
  (integrals[marker_of domains facet]?).join

/-- What a facet is to add in the exterior-facet pass: nothing when the facet is not
eligible or has no registered kernel, and otherwise the local tensor of its registered kernel
on its adjacent cell, scattered through the dof arrays of that cell. -/
def exterior_facet_contribution (a : Form R) (domains : Option MeshFunction) (facet : Nat) :
    GenericTensor R :=
  if not_exterior a.mesh facet then 0
  else
    match registered_kernel a.exterior_facet_integrals domains facet with
    | none => 0
    | some k =>
      let cell := (a.mesh.facet_cells facet).getD 0 0
      contribution (k cell (a.mesh.local_facet cell facet)) (cell_dofs a cell)

/-- The dof arrays of the macro element of two cells: for each argument, the dofs of the
first cell followed by the dofs of the second. -/
def macro_cell_dofs (a : Form R) (cell0 cell1 : Nat) : List (List Nat) :=
  (List.range a.rank).map
    (fun i => (a.dofmap i).cell_dofs cell0 ++ (a.dofmap i).cell_dofs cell1)

/-- What a facet is to add in the interior-facet pass: nothing when the facet is not
interior or has no registered kernel, and otherwise the macro tensor of its registered kernel
on its two adjacent cells, scattered through the dof arrays of the macro element. -/
def interior_facet_contribution (a : Form R) (domains : Option MeshFunction) (facet : Nat) :
    GenericTensor R :=
  if (a.mesh.facet_cells facet).length ≠ 2 then 0
  else
    match registered_kernel a.interior_facet_integrals domains facet with
    | none => 0
    | some k =>
      let cells := a.mesh.adjacent_cells a.mesh.facet_orientation facet
      contribution
        (k cells.1 cells.2 (a.mesh.local_facet cells.1 facet) (a.mesh.local_facet cells.2 facet))
        (macro_cell_dofs a cells.1 cells.2)

end FacetNotions

/-! ## Notions used to state the properties of `UnitCubeMesh` -/

/-- The counter `vertex` equals the number `c` of vertices added, which carry the indices
`0, ..., c - 1` in this order. -/
def vertices_numbered (c : Nat) (st : MeshEditor × Nat) : Prop :=
  st.2 = c ∧ st.1.vertices.map Prod.fst = List.range c

/-- The counter `cell` equals the number `c` of cells added, which carry the indices
`0, ..., c - 1` in this order. -/
def cells_numbered (c : Nat) (st : MeshEditor × Nat) : Prop :=
  st.2 = c ∧ st.1.cells.map Prod.fst = List.range c

/-- What the vertex loops leave alone: the cells and the declared counts. -/
def vertex_frame (st : MeshEditor × Nat) : List (Nat × List Nat) × Nat × Nat :=
  (st.1.cells, st.1.num_vertices, st.1.num_cells)

/-- What the cell loops leave alone: the vertices and the declared counts. -/
def cell_frame (st : MeshEditor × Nat) : List (Nat × List ℚ) × Nat × Nat :=
  (st.1.vertices, st.1.num_vertices, st.1.num_cells)

/-- The four vertex indices of a cell are strictly increasing in the order in which they
are stored: `cells[0] < cells[1] < cells[2] < cells[3]`. -/
def stored_increasing : List Nat → Bool
  | [c0, c1, c2, c3] => decide (c0 < c1 ∧ c1 < c2 ∧ c2 < c3)
  | _ => false

/-- The first stored vertex index of a cell is strictly below the other three. -/
def first_smallest : List Nat → Bool
  | [c0, c1, c2, c3] => decide (c0 < c1 ∧ c0 < c2 ∧ c0 < c3)
  | _ => false

/-! ## Notions used to state the order of the collaborator calls -/

section LogNotions
variable {R : Type} [AddCommMonoid R]

/-- The events of the cell pass: a cell kernel call, a scatter-add, a buffer write. -/
def Event.is_cell_event : Event → Bool
  | .tabulate_cell _ => true
  | .add => true
  | .set_value _ => true
  | _ => false

/-- The events of the exterior-facet pass: an exterior-facet kernel call, a scatter-add. -/
def Event.is_exterior_event : Event → Bool
  | .tabulate_exterior_facet _ _ => true
  | .add => true
  | _ => false

/-- The events of the interior-facet pass: an interior-facet kernel call, a scatter-add. -/
def Event.is_interior_event : Event → Bool
  | .tabulate_interior_facet _ _ _ _ => true
  | .add => true
  | _ => false

/-- The log of `s'` is the log of `s` followed by events of the kind `P`. -/
def log_extends (P : Event → Bool) (s s' : AssemblyState R) : Prop :=
  ∃ evs, s'.log = s.log ++ evs ∧ ∀ e ∈ evs, P e = true

/-- The two events of one iteration of the cell loop, on the cell `c.1` at the position
`c.2` of its colour class: the kernel call, then the buffer write in the dual-output mode
and the scatter-add otherwise. -/
def cell_events (dual : Bool) (c : Nat × Nat) : List Event :=
  [.tabulate_cell c.1, if dual then .set_value c.2 else .add]

/-- The state `s'` is reached from `s` by iterations of the cell loop with the kernel `k`, on
the cells `cells` (each with its position in its colour class) in this order: the log grows
by the events of these iterations, the tensor by the contributions of these cells unless the
pass is in the dual-output mode, and the buffer is kept unless it is. -/
def cell_run (a : Form R) (k : CellIntegral R) (cells : List (Nat × Nat))
    (s s' : AssemblyState R) : Prop :=
  s'.log = s.log ++ cells.flatMap (cell_events (buffered a s)) ∧
    s'.A = s.A + (if buffered a s then 0
      else (cells.map (fun c => cell_contribution a k c.1)).sum) ∧
    s'.values.isSome = s.values.isSome ∧
    (buffered a s = false → s'.values = s.values) ∧
    s'.dofs = s.dofs ∧ s'.macro_dofs = s.macro_dofs

end LogNotions

/-! ## Notions used to state the soundness of a colouring and the exterior-facet loop -/

section ColouringNotions
variable {R : Type} [AddCommMonoid R]

/-- Modelled from the spec: what `mesh.color("vertex")` (not part of these sources) ensures
of the colour classes it stores, with `cell_vertices` the vertices of each cell: the classes
partition the cell indices, and no two cells of a class share a vertex. -/
def vertex_coloring (cell_vertices : Nat → List Nat) (num_cells : Nat)
    (classes : List (List Nat)) : Prop :=
  classes.flatten.Perm (List.range num_cells) ∧
    ∀ cls ∈ classes, ∀ c1 ∈ cls, ∀ c2 ∈ cls, c1 ≠ c2 →
      ∀ v ∈ cell_vertices c1, v ∉ cell_vertices c2

/-- Soundness of a colouring for a form: no two distinct cells of a colour class share a
global dof index through the dof map of any argument of the form. -/
def coloring_sound (a : Form R) (classes : List (List Nat)) : Prop :=
  ∀ cls ∈ classes, ∀ c1 ∈ cls, ∀ c2 ∈ cls, c1 ≠ c2 →
    ∀ i, i < a.rank → ∀ g ∈ (a.dofmap i).cell_dofs c1, g ∉ (a.dofmap i).cell_dofs c2

/-- The events of the exterior-facet loop on one facet: none when the facet is skipped or
has no registered kernel, and otherwise the kernel call on the adjacent cell and the local
index of the facet in it, followed by the scatter-add. -/
def exterior_facet_events (a : Form R) (domains : Option MeshFunction) (facet : Nat) :
    List Event :=
  if not_exterior a.mesh facet then []
  else
    match registered_kernel a.exterior_facet_integrals domains facet with
    | none => []
    | some _ =>
      let cell := (a.mesh.facet_cells facet).getD 0 0
      [.tabulate_exterior_facet cell (a.mesh.local_facet cell facet), .add]

end ColouringNotions

/-! ## Notions used to state the geometry of the unit cube mesh -/

/-- The index of the grid vertex `(ix, iy, iz)`. -/
def grid_index (nx ny ix iy iz : Nat) : Nat :=
  iz * (nx + 1) * (ny + 1) + iy * (nx + 1) + ix

/-- The point `(ix / nx, iy / ny, iz / nz)` of the grid, in exact rationals. -/
def grid_point (nx ny nz ix iy iz : Nat) : List ℚ :=
  [(ix : ℚ) / (nx : ℚ), (iy : ℚ) / (ny : ℚ), (iz : ℚ) / (nz : ℚ)]

/-- The vertex of index `j` of the grid: `j` is the index of the grid vertex
`(j mod (nx + 1), (j div (nx + 1)) mod (ny + 1), j div ((nx + 1) (ny + 1)))`. -/
def grid_vertex (nx ny nz j : Nat) : Nat × List ℚ :=
  (j, grid_point nx ny nz (j % (nx + 1)) (j / (nx + 1) % (ny + 1)) (j / ((nx + 1) * (ny + 1))))

/-- The coordinates given to the vertex of index `v`, empty when no vertex has it. -/
def MeshEditor.coordinates (mesh : MeshEditor) (v : Nat) : List ℚ :=
  ((mesh.vertices.find? (fun p => p.1 == v)).map Prod.snd).getD []

/-- The six cells made of the corners `v0, ..., v7` of a box (lines 100-116). -/
def cells_of_corners : List Nat → List (List Nat)
  | [v0, v1, v2, v3, v4, v5, v6, v7] =>
    [[v0, v1, v3, v7], [v0, v1, v7, v5], [v0, v5, v7, v4],
     [v0, v3, v2, v7], [v0, v6, v4, v7], [v0, v2, v6, v7]]
  | _ => []

/-- The vector from the point `p` to the point `q` of space. -/
def edge_vector (p q : List ℚ) : List ℚ :=
  [q.getD 0 0 - p.getD 0 0, q.getD 1 0 - p.getD 1 0, q.getD 2 0 - p.getD 2 0]

/-- The determinant of the matrix of rows `u`, `v`, `w`. -/
def det3 (u v w : List ℚ) : ℚ :=
  u.getD 0 0 * (v.getD 1 0 * w.getD 2 0 - v.getD 2 0 * w.getD 1 0)
    - u.getD 1 0 * (v.getD 0 0 * w.getD 2 0 - v.getD 2 0 * w.getD 0 0)
    + u.getD 2 0 * (v.getD 0 0 * w.getD 1 0 - v.getD 1 0 * w.getD 0 0)

/-- The signed volume `det [p1 - p0, p2 - p0, p3 - p0] / 6` of a tetrahedron. -/
def signed_volume (p0 p1 p2 p3 : List ℚ) : ℚ :=
  det3 (edge_vector p0 p1) (edge_vector p0 p2) (edge_vector p0 p3) / 6

/-- The signed volume of a cell of the mesh, its vertices taken in the stored order. -/
def cell_volume (mesh : MeshEditor) (cell : List Nat) : ℚ :=
  signed_volume (mesh.coordinates (cell.getD 0 0)) (mesh.coordinates (cell.getD 1 0))
    (mesh.coordinates (cell.getD 2 0)) (mesh.coordinates (cell.getD 3 0))

/-! ## Concrete inputs -/

section Examples

/-- Two triangles `(0, 1, 2)` and `(1, 2, 3)` sharing the edge `(1, 2)`, which is facet 2;
facets 0 and 1 lie on the boundary of cell 0, facets 3 and 4 on that of cell 1. Each cell is
a colour class of its own. -/
def two_triangles : Mesh :=
  { dim := 2, num_cells := 2, num_facets := 5,
    facet_cells := fun f => if f = 2 then [0, 1] else if f < 2 then [0] else [1],
    local_facet := fun c f => if c = 0 then f else 4 - f,
    adjacent_cells := fun _ _ => (0, 1),
    ordered := true,
    num_colored_cells := [1, 1],
    colored_cells := fun color => if color = 0 then some [0] else if color = 1 then some [1] else none,
    exterior_facets := none,
    facet_orientation := none,
    exterior_facet_domains := none }

/-- Six tetrahedra coloured into the two classes `[0, 2, 4]` and `[1, 3, 5]`. -/
def six_tetrahedra : Mesh :=
  { dim := 3, num_cells := 6, num_facets := 0,
    facet_cells := fun _ => [],
    local_facet := fun _ _ => 0,
    adjacent_cells := fun _ _ => (0, 0),
    ordered := true,
    num_colored_cells := [3, 3],
    colored_cells := fun color =>
      if color = 0 then some [0, 2, 4] else if color = 1 then some [1, 3, 5] else none,
    exterior_facets := none,
    facet_orientation := none,
    exterior_facet_domains := none }

/-- The dof map of piecewise linears on `two_triangles`: the vertices of each cell. -/
def vertex_dofs : GenericDofMap :=
  { cell_dofs := fun c => if c = 0 then [0, 1, 2] else [1, 2, 3] }

/-- A dof map with two dofs of its own on every cell. -/
def cellwise_dofs : GenericDofMap :=
  { cell_dofs := fun c => [2 * c, 2 * c + 1] }

/-- A rank 0 form on `two_triangles` whose cell kernel gives 1 on cell 0 and 2 on cell 1. -/
def scalar_form : Form ℤ :=
  { mesh := two_triangles, rank := 0, dofmap := fun _ => vertex_dofs,
    num_coefficients := 0, check_ok := true,
    cell_integrals := [some (fun c _ => if c = 0 then 1 else 2)],
    exterior_facet_integrals := [],
    interior_facet_integrals := [] }

/-- A rank 2 form with only a cell integral on `six_tetrahedra`. -/
def matrix_form : Form ℤ :=
  { mesh := six_tetrahedra, rank := 2, dofmap := fun _ => cellwise_dofs,
    num_coefficients := 1, check_ok := true,
    cell_integrals := [some (fun c p => (c : ℤ) + (p : ℤ) + 1)],
    exterior_facet_integrals := [],
    interior_facet_integrals := [] }

/-- The zero tensor, in the state in which the passes of `assemble` start. -/
def zero_state : AssemblyState ℤ := initial_state (fun _ => 0)

/-- The state `zero_state` with a `values` buffer of two zero entries. -/
def zero_state_with_buffer : AssemblyState ℤ := { zero_state with values := some [0, 0] }

/-- A rank 1 form on `two_triangles` with one exterior-facet integral. -/
def boundary_form : Form ℤ :=
  { mesh := two_triangles, rank := 1, dofmap := fun _ => vertex_dofs,
    num_coefficients := 0, check_ok := true,
    cell_integrals := [],
    exterior_facet_integrals := [some (fun c f p => 10 * (c : ℤ) + (f : ℤ) + (p : ℤ) + 1)],
    interior_facet_integrals := [] }

/-- Boundary markers on the facets of `two_triangles`: facets 0 and 3 are marked 0, the
others are marked 2. -/
def boundary_markers : MeshFunction :=
  { dim := 1, size := 5, values := fun f => if f = 0 ∨ f = 3 then 0 else 2 }

/-- A cell kernel: the entry `p` of the local tensor of cell `c` is `c + p + 1`. -/
def sample_cell_kernel : CellIntegral ℤ := fun c p => (c : ℤ) + (p : ℤ) + 1

/-- An interior-facet kernel: the entry `p` of every macro tensor is `p + 1`. -/
def sample_interior_kernel : InteriorFacetIntegral ℤ := fun _ _ _ _ p => (p : ℤ) + 1

/-- A rank 1 form on `two_triangles` with a cell integral and an interior-facet integral. -/
def jump_form : Form ℤ :=
  { mesh := two_triangles, rank := 1, dofmap := fun _ => vertex_dofs,
    num_coefficients := 0, check_ok := true,
    cell_integrals := [some sample_cell_kernel],
    exterior_facet_integrals := [],
    interior_facet_integrals := [some sample_interior_kernel] }

/-- The form `jump_form` on a mesh whose facet orientation is defined on vertices. -/
def misoriented_form : Form ℤ :=
  { jump_form with
    mesh := { two_triangles with
      facet_orientation := some { dim := 0, size := 4, values := fun _ => 0 } } }

/-- The form `boundary_form` on a mesh whose facet orientation is defined on vertices. -/
def misoriented_boundary_form : Form ℤ :=
  { boundary_form with mesh := misoriented_form.mesh }

/-- Two triangles `(0, 1, 2)` and `(3, 4, 5)` that share no vertex, both in the one colour
class `[0, 1]`; facets 0 to 2 bound cell 0 and facets 3 to 5 bound cell 1. -/
def separate_triangles : Mesh :=
  { dim := 2, num_cells := 2, num_facets := 6,
    facet_cells := fun f => if f < 3 then [0] else [1],
    local_facet := fun _ f => f % 3,
    adjacent_cells := fun _ _ => (0, 1),
    ordered := true,
    num_colored_cells := [2],
    colored_cells := fun color => if color = 0 then some [0, 1] else none,
    exterior_facets := none,
    facet_orientation := none,
    exterior_facet_domains := none }

/-- The vertices of the cells of `separate_triangles`. -/
def separate_triangles_vertices : Nat → List Nat :=
  fun c => if c = 0 then [0, 1, 2] else [3, 4, 5]

/-- A dof map with the global dof 0 on every cell (a multiplier common to all cells) and
one dof of its own on each cell. -/
def multiplier_dofs : GenericDofMap :=
  { cell_dofs := fun c => [0, c + 1] }

/-- A rank 1 form with only a cell integral on `separate_triangles`. -/
def multiplier_form : Form ℤ :=
  { mesh := separate_triangles, rank := 1, dofmap := fun _ => multiplier_dofs,
    num_coefficients := 0, check_ok := true,
    cell_integrals := [some sample_cell_kernel],
    exterior_facet_integrals := [],
    interior_facet_integrals := [] }

/-- Cell markers on `two_triangles`. -/
def cell_markers : MeshFunction :=
  { dim := 2, size := 2, values := fun _ => 0 }

/-- Twenty-one cells that pairwise share no vertex, all in the one colour class
`[0, ..., 20]`. -/
def scattered_cells : Mesh :=
  { dim := 2, num_cells := 21, num_facets := 0,
    facet_cells := fun _ => [],
    local_facet := fun _ _ => 0,
    adjacent_cells := fun _ _ => (0, 0),
    ordered := true,
    num_colored_cells := [21],
    colored_cells := fun color => if color = 0 then some (List.range 21) else none,
    exterior_facets := none,
    facet_orientation := none,
    exterior_facet_domains := none }

/-- The vertices of the cells of `scattered_cells`. -/
def scattered_cells_vertices : Nat → List Nat :=
  fun c => [3 * c, 3 * c + 1, 3 * c + 2]

/-- A cell kernel whose local tensor has the entry 1 everywhere. -/
def unit_kernel : CellIntegral ℤ := fun _ _ => 1

/-- A rank 0 form on `scattered_cells` whose cell kernel gives 1 on every cell. -/
def count_form : Form ℤ :=
  { mesh := scattered_cells, rank := 0, dofmap := fun _ => cellwise_dofs,
    num_coefficients := 0, check_ok := true,
    cell_integrals := [some unit_kernel],
    exterior_facet_integrals := [],
    interior_facet_integrals := [] }

/-- A rank 1 form on `scattered_cells` whose cells all carry the global dof 0. -/
def scattered_multiplier_form : Form ℤ :=
  { mesh := scattered_cells, rank := 1, dofmap := fun _ => multiplier_dofs,
    num_coefficients := 0, check_ok := true,
    cell_integrals := [some sample_cell_kernel],
    exterior_facet_integrals := [],
    interior_facet_integrals := [] }

/-- Two workers on a colour class of 21 cells: the guided schedule with chunks of at least
20 iterations hands the iterations `0, ..., 19` to worker 0 and the iteration 20 to worker 1.
Worker 1 starts its iteration and reads the entry; worker 0 runs its twenty iterations
(three steps each on a scalar); then worker 1 writes its sum back. -/
def overlapping_workers : Nat → Execution :=
  fun _ => { assignment := [List.range 20, [20]],
             steps := [1, 1] ++ List.replicate 60 0 ++ [1] }

/-- The same two workers on a form of rank 1 with two dofs per cell: worker 1 starts its
iteration and reads its first entry; worker 0 runs its twenty iterations (five steps each);
then worker 1 writes its first sum back and adds its second entry. -/
def overlapping_workers_two_dofs : Nat → Execution :=
  fun _ => { assignment := [List.range 20, [20]],
             steps := [1, 1] ++ List.replicate 100 0 ++ [1, 1, 1] }

/-- Four workers on a colour class of three cells with four entries each: the workers 0, 1
and 2 run one iteration each (nine steps), the worker 3 none, and the workers take their
steps in turn. -/
def four_workers : Nat → Execution :=
  fun _ => { assignment := [[0], [1], [2], []],
             steps := (List.range 9).flatMap (fun _ => [0, 1, 2, 3]) }

/-- A rank 1 form on `two_triangles` with one coefficient and one integral of each kind. -/
def full_form : Form ℤ :=
  { mesh := two_triangles, rank := 1, dofmap := fun _ => vertex_dofs,
    num_coefficients := 1, check_ok := true,
    cell_integrals := [some sample_cell_kernel],
    exterior_facet_integrals := [some (fun c f p => 10 * (c : ℤ) + (f : ℤ) + (p : ℤ) + 1)],
    interior_facet_integrals := [some sample_interior_kernel] }

/-- A team of one worker on a colour class of three cells with four entries each: the
worker runs the three iterations in order, nine steps each. -/
def one_worker : Nat → Execution :=
  fun _ => { assignment := [[0, 1, 2]], steps := List.replicate 27 0 }

end Examples

/-! ## Lemmas on outcomes and on the accumulator -/

theorem foldl_andThen_raised {R α : Type} (f : α → AssemblyState R → Outcome R)
    (e : AssemblyError) (s : AssemblyState R) (l : List α) :
    l.foldl (fun (o : Outcome R) x => o.andThen (f x)) (Outcome.raised e s)
      = Outcome.raised e s := by
  induction l with
  | nil => rfl
  | cons x xs ih => simpa [List.foldl_cons, Outcome.andThen] using ih

theorem foldl_andThen_error {R α : Type} (f : α → AssemblyState R → Outcome R)
    (e : AssemblyError) (l : List α) (o : Outcome R)
    (h : (l.foldl (fun (o : Outcome R) x => o.andThen (f x)) o).error = some e) :
    o.error = some e ∨ ∃ x ∈ l, ∃ s, (f x s).error = some e := by
  induction l generalizing o with
  | nil => exact Or.inl h
  | cons x xs ih =>
    rcases ih _ h with h1 | ⟨y, hy, s, hs⟩
    · cases o with
      | done s => exact Or.inr ⟨x, List.mem_cons_self _ _, s, h1⟩
      | raised e1 s => exact Or.inl h1
    · exact Or.inr ⟨y, List.mem_cons_of_mem _ hy, s, hs⟩

section CellLemmas
variable {R : Type} [AddCommMonoid R]

theorem GenericTensor.add_eq (A : GenericTensor R) (block : LocalTensor R)
    (dofs : List (List Nat)) : A.add block dofs = A + contribution block dofs := rfl

theorem contribution_rank_zero (block : LocalTensor R) (idx : List Nat) :
    contribution block [] idx = if idx = [] then block 0 else 0 := by
  by_cases h : idx = []
  · subst h
    simp [contribution, scatter, global_indices, List.enum, List.enumFrom]
  · have h' : ¬ ([] = idx) := fun e => h e.symm
    simp [contribution, scatter, global_indices, List.enum, List.enumFrom, h, h']

theorem sum_map_eq_zero {α : Type} (f : α → GenericTensor R) (l : List α)
    (h : ∀ x, f x = 0) : (l.map f).sum = 0 := by
  induction l with
  | nil => rfl
  | cons x xs ih => simp [ih, h x]

theorem list_sum_apply {α : Type} (f : α → GenericTensor R) (l : List α) (idx : List Nat) :
    (l.map f).sum idx = (l.map (fun x => f x idx)).sum := by
  induction l with
  | nil => rfl
  | cons x xs ih => simp [ih]

/-! ## The loop over the cells of one colour -/

theorem assemble_cells_body_some (a : Form R) (k : CellIntegral R) (cells : List Nat)
    (ci : Nat) (s : AssemblyState R) :
    ∃ s', assemble_cells_body a (some k) cells ci s = Outcome.done s' ∧
      s'.values.isSome = s.values.isSome ∧
      (buffered a s = false → s'.values = s.values) ∧
      s'.A = s.A + (if buffered a s then 0 else cell_contribution a k (cells.getD ci 0)) := by
  unfold assemble_cells_body buffered
  by_cases hb : (s.values.isSome && a.rank == 0) = true
  · refine ⟨_, by simp only [AssemblyState.record, hb]; rfl, ?_, ?_, ?_⟩
    · simp [AssemblyState.record]
    · intro h; rw [h] at hb; exact absurd hb (by simp)
    · simp [AssemblyState.record, hb]
  · refine ⟨_, by simp only [AssemblyState.record, hb]; rfl, ?_, ?_, ?_⟩
    · simp [AssemblyState.record]
    · intro _; simp [AssemblyState.record]
    · simp [AssemblyState.record, hb, GenericTensor.add_eq, cell_contribution, cell_dofs]

theorem assemble_cells_color_some (a : Form R) (k : CellIntegral R) (cells : List Nat)
    (order : List Nat) (s : AssemblyState R) :
    ∃ s', assemble_cells_color a (some k) cells order s = Outcome.done s' ∧
      s'.values.isSome = s.values.isSome ∧
      (buffered a s = false → s'.values = s.values) ∧
      s'.A = s.A + (if buffered a s then 0
        else (order.map (fun ci => cell_contribution a k (cells.getD ci 0))).sum) := by
  induction order generalizing s with
  | nil => exact ⟨s, rfl, rfl, fun _ => rfl, by simp⟩
  | cons ci rest ih =>
    obtain ⟨s1, h1, hv1, hk1, hA1⟩ := assemble_cells_body_some a k cells ci s
    obtain ⟨s2, h2, hv2, hk2, hA2⟩ := ih s1
    have hb : buffered a s1 = buffered a s := by simp [buffered, hv1]
    refine ⟨s2, ?_, hv2.trans hv1, ?_, ?_⟩
    · simp only [assemble_cells_color, List.foldl_cons, Outcome.andThen, h1] at h2 ⊢
      exact h2
    · intro h; rw [hk2 (hb.trans h), hk1 h]
    · rw [hA2, hA1, hb]
      by_cases h : buffered a s = true
      · simp [h]
      · simp [h, add_assoc]

theorem assemble_cells_color_none (a : Form R) (cells : List Nat) (order : List Nat)
    (s : AssemblyState R) :
    assemble_cells_color a none cells order s
      = if order = [] then Outcome.done s else Outcome.raised .null_integral s := by
  cases order with
  | nil => rfl
  | cons ci rest =>
    have h : Outcome.andThen (Outcome.done s) (assemble_cells_body a none cells ci)
        = Outcome.raised .null_integral s := rfl
    simp only [assemble_cells_color, List.foldl_cons, h]
    exact (foldl_andThen_raised (assemble_cells_body a none cells) _ s rest).trans (by simp)

end CellLemmas

/-! ## The loop over colours -/

section ColourLemmas
variable {R : Type} [AddCommMonoid R]

theorem map_getD_range (l : List Nat) :
    (List.range l.length).map (fun i => l.getD i 0) = l := by
  apply List.ext_getElem
  · simp
  · intro i h1 h2
    simp [List.getD_eq_getElem?_getD, List.getElem?_eq_getElem h2]

omit [AddCommMonoid R] in
theorem same_tensor_raised (e : AssemblyError) (s1 s2 : AssemblyState R)
    (hA : s1.A = s2.A) (hv : s1.values.isSome = s2.values.isSome) :
    same_tensor (Outcome.raised e s1) (Outcome.raised e s2) :=
  ⟨rfl, hA, hv⟩

end ColourLemmas

section CellPass
variable {R : Type} [AddCommMonoid R]

theorem assemble_cells_color_error (a : Form R) (integral : Option (CellIntegral R))
    (cells order : List Nat) (s : AssemblyState R) :
    (assemble_cells_color a integral cells order s).error = none ∨
      (assemble_cells_color a integral cells order s = Outcome.raised .null_integral s) := by
  cases integral with
  | none =>
    rw [assemble_cells_color_none]
    by_cases h : order = []
    · left; simp [h, Outcome.error]
    · right; simp [h]
  | some k =>
    obtain ⟨t, ht, _⟩ := assemble_cells_color_some a k cells order s
    left; rw [ht]; rfl

theorem assemble_cells_color_step_error (a : Form R)
    (integral : Option (CellIntegral R)) (color : Nat) (s : AssemblyState R) :
    (assemble_cells_color_step a integral color s).error = none ∨
      (assemble_cells_color_step a integral color s).error = some .assertion_failed ∨
      (assemble_cells_color_step a integral color s).error = some .null_integral := by
  unfold assemble_cells_color_step
  cases a.mesh.colored_cells color with
  | none => right; left; rfl
  | some cells =>
    rcases assemble_cells_color_error a integral cells (List.range cells.length) s with h | h
    · left; exact h
    · right; right; simp only [h, Outcome.error]

/-- The errors of the cell pass: the sub-domain error is raised in the state the pass
started in, exactly when there is a cell integral and markers are supplied; every other
error is a failed assertion or a null integral. -/
theorem assemble_cells_errors (a : Form R)
    (domains : Option MeshFunction) (s : AssemblyState R) :
    (a.cell_integrals.length ≠ 0 ∧ MeshFunction.supplied domains = true ∧
      assemble_cells a domains s
        = Outcome.raised .sub_domains_not_handled s) ∨
    (¬ (a.cell_integrals.length ≠ 0 ∧ MeshFunction.supplied domains = true) ∧
      ((assemble_cells a domains s).error = none ∨
        (assemble_cells a domains s).error = some .assertion_failed ∨
        (assemble_cells a domains s).error = some .null_integral)) := by
  unfold assemble_cells
  by_cases h0 : a.cell_integrals.length = 0
  · right
    rw [if_pos h0]
    exact ⟨fun h => h.1 h0, Or.inl rfl⟩
  · by_cases hd : MeshFunction.supplied domains = true
    · left
      rw [if_neg h0, if_pos hd]
      exact ⟨h0, hd, rfl⟩
    · right
      rw [if_neg h0, if_neg hd]
      refine ⟨fun h => hd h.2, ?_⟩
      cases he : ((List.range a.mesh.num_colored_cells.length).foldl
          (fun o color => o.andThen
            (assemble_cells_color_step a (a.cell_integrals.getD 0 none) color))
          (Outcome.done s)).error with
      | none => left; rfl
      | some e =>
        right
        rcases foldl_andThen_error _ _ _ _ he with h1 | ⟨color, _, s1, h1⟩
        · simp [Outcome.error] at h1
        · rcases assemble_cells_color_step_error a _ color s1 with h | h | h
          · rw [h] at h1; exact absurd h1 (by simp)
          · rw [h] at h1; left; exact h1.symm ▸ rfl
          · rw [h] at h1; right; exact h1.symm ▸ rfl

/-- The stored colour classes are `classes`: the sequential loop over colours adds the
contribution of every cell of every class, class after class. -/
theorem assemble_cells_classes (a : Form R) (k : CellIntegral R) (classes : List (List Nat))
    (s : AssemblyState R) (hb : buffered a s = false) :
    ∃ s', (classes.map some).foldl
        (fun (o : Outcome R) (oc : Option (List Nat)) => o.andThen (fun s1 =>
          match oc with
          | none => Outcome.raised .assertion_failed s1
          | some colored_cells =>
            assemble_cells_color a (some k) colored_cells
              (List.range colored_cells.length) s1))
        (Outcome.done s) = Outcome.done s' ∧
      s'.values = s.values ∧
      s'.A = s.A + (classes.flatten.map (cell_contribution a k)).sum := by
  induction classes generalizing s with
  | nil => exact ⟨s, rfl, rfl, by simp⟩
  | cons cells rest ih =>
    obtain ⟨s1, h1, _, hk1, hA1⟩ :=
      assemble_cells_color_some a k cells (List.range cells.length) s
    have hb1 : buffered a s1 = false := by
      have := hk1 hb
      simpa [buffered, this] using hb
    obtain ⟨s2, h2, hv2, hA2⟩ := ih s1 hb1
    refine ⟨s2, ?_, hv2.trans (hk1 hb), ?_⟩
    · simp only [List.map_cons, List.foldl_cons, Outcome.andThen, h1]
      exact h2
    · rw [hA2, hA1, hb]
      have hm : (List.range cells.length).map
          (fun ci => cell_contribution a k (cells.getD ci 0))
          = cells.map (cell_contribution a k) := by
        have := congrArg (List.map (cell_contribution a k)) (map_getD_range cells)
        simpa [List.map_map, Function.comp_def] using this
      simp only [Bool.false_eq_true, if_false]
      rw [hm]
      simp [add_assoc]

theorem assemble_cells_sequential_fold (a : Form R) (integral : Option (CellIntegral R))
    (s : AssemblyState R) :
    (List.range a.mesh.num_colored_cells.length).foldl
      (fun o color => o.andThen (assemble_cells_color_step a integral color))
      (Outcome.done s)
    = (stored_classes a.mesh).foldl
        (fun (o : Outcome R) (oc : Option (List Nat)) => o.andThen (fun s1 =>
          match oc with
          | none => Outcome.raised .assertion_failed s1
          | some colored_cells =>
            assemble_cells_color a integral colored_cells
              (List.range colored_cells.length) s1))
        (Outcome.done s) := by
  unfold stored_classes
  rw [List.foldl_map]
  rfl

end CellPass

/-! ## What a run of the cell pass leaves behind -/

/-- A fold of steps that each relate the state before to the state after, by a reflexive
and transitive relation, relates the first state to the last. -/
theorem foldl_andThen_rel {R α : Type} (Rel : AssemblyState R → AssemblyState R → Prop)
    (hrefl : ∀ s, Rel s s) (htrans : ∀ s1 s2 s3, Rel s1 s2 → Rel s2 s3 → Rel s1 s3)
    (f : α → AssemblyState R → Outcome R) (l : List α)
    (hf : ∀ x ∈ l, ∀ s, Rel s (f x s).state) (o : Outcome R) :
    Rel o.state (l.foldl (fun (o : Outcome R) x => o.andThen (f x)) o).state := by
  induction l generalizing o with
  | nil => exact hrefl _
  | cons x xs ih =>
    rw [List.foldl_cons]
    refine htrans _ _ _ ?_ (ih (fun y hy => hf y (List.mem_cons_of_mem _ hy)) _)
    cases o with
    | done s => exact hf x (List.mem_cons_self _ _) s
    | raised e s => exact hrefl _

section CellRuns
variable {R : Type} [AddCommMonoid R]

theorem cell_run_refl (a : Form R) (k : CellIntegral R) (s : AssemblyState R) :
    cell_run a k [] s s := by
  refine ⟨by simp, ?_, rfl, fun _ => rfl, rfl, rfl⟩
  by_cases h : buffered a s = true <;> simp [h]

theorem cell_run_trans (a : Form R) (k : CellIntegral R) (c1 c2 : List (Nat × Nat))
    (s1 s2 s3 : AssemblyState R) (h12 : cell_run a k c1 s1 s2) (h23 : cell_run a k c2 s2 s3) :
    cell_run a k (c1 ++ c2) s1 s3 := by
  obtain ⟨l1, a1, v1, k1, d1, m1⟩ := h12
  obtain ⟨l2, a2, v2, k2, d2, m2⟩ := h23
  have hb : buffered a s2 = buffered a s1 := by simp [buffered, v1]
  rw [hb] at l2 a2 k2
  refine ⟨?_, ?_, v2.trans v1, fun h => (k2 h).trans (k1 h), d2.trans d1, m2.trans m1⟩
  · rw [l2, l1, List.flatMap_append, List.append_assoc]
  · rw [a2, a1]
    by_cases h : buffered a s1 = true
    · simp [h]
    · simp [h, add_assoc]

theorem assemble_cells_body_run (a : Form R) (k : CellIntegral R) (cells : List Nat)
    (ci : Nat) (s : AssemblyState R) :
    ∃ s', assemble_cells_body a (some k) cells ci s = Outcome.done s' ∧
      cell_run a k [(cells.getD ci 0, ci)] s s' := by
  unfold assemble_cells_body cell_run buffered
  by_cases hb : (s.values.isSome && a.rank == 0) = true
  · refine ⟨_, by simp only [AssemblyState.record, hb]; rfl, ?_, ?_, ?_, ?_, ?_, ?_⟩
    · simp [AssemblyState.record, cell_events, hb]
    · simp [AssemblyState.record, hb]
    · simp [AssemblyState.record]
    · intro h; rw [h] at hb; exact absurd hb (by simp)
    · rfl
    · rfl
  · refine ⟨_, by simp only [AssemblyState.record, hb]; rfl, ?_, ?_, ?_, ?_, ?_, ?_⟩
    · simp [AssemblyState.record, cell_events, hb]
    · simp [AssemblyState.record, hb, GenericTensor.add_eq, cell_contribution, cell_dofs]
    · simp [AssemblyState.record]
    · intro _; simp [AssemblyState.record]
    · rfl
    · rfl

theorem assemble_cells_color_run (a : Form R) (k : CellIntegral R) (cells order : List Nat)
    (s : AssemblyState R) :
    ∃ s', assemble_cells_color a (some k) cells order s = Outcome.done s' ∧
      cell_run a k (order.map (fun ci => (cells.getD ci 0, ci))) s s' := by
  induction order generalizing s with
  | nil => exact ⟨s, rfl, cell_run_refl a k s⟩
  | cons ci rest ih =>
    obtain ⟨s1, h1, r1⟩ := assemble_cells_body_run a k cells ci s
    obtain ⟨s2, h2, r2⟩ := ih s1
    refine ⟨s2, ?_, ?_⟩
    · simp only [assemble_cells_color, List.foldl_cons, Outcome.andThen, h1] at h2 ⊢
      exact h2
    · have := cell_run_trans a k _ _ s s1 s2 r1 r2
      simpa using this

/-- However the pass ends, the state it ends in is reached from
the state it started in by iterations of the cell loop with the default kernel; with a null
default kernel the state does not change at all. -/
theorem assemble_cells_run (a : Form R)
    (domains : Option MeshFunction) (s : AssemblyState R) :
    (a.cell_integrals.getD 0 none = none ∧
      (assemble_cells a domains s).state = s) ∨
    (∃ k cells, a.cell_integrals.getD 0 none = some k ∧
      cell_run a k cells s (assemble_cells a domains s).state) := by
  have hskip : (a.cell_integrals.getD 0 none = none ∧ s = s) ∨
      (∃ k cells, a.cell_integrals.getD 0 none = some k ∧ cell_run a k cells s s) := by
    cases hk : a.cell_integrals.getD 0 none with
    | none => exact Or.inl ⟨rfl, rfl⟩
    | some k => exact Or.inr ⟨k, [], rfl, cell_run_refl a k s⟩
  unfold assemble_cells
  by_cases h0 : a.cell_integrals.length = 0
  · rw [if_pos h0]; exact hskip
  · rw [if_neg h0]
    by_cases hd : MeshFunction.supplied domains = true
    · rw [if_pos hd]; exact hskip
    · rw [if_neg hd]
      dsimp only
      cases hk : a.cell_integrals.getD 0 none with
      | none =>
        left
        refine ⟨rfl, ?_⟩
        have := foldl_andThen_rel (fun (s1 s2 : AssemblyState R) => s2 = s1) (fun _ => rfl)
          (fun _ _ _ h1 h2 => h2.trans h1) (assemble_cells_color_step a none)
          (List.range a.mesh.num_colored_cells.length)
          (fun color _ s1 => by
            unfold assemble_cells_color_step
            cases a.mesh.colored_cells color with
            | none => rfl
            | some cells =>
              dsimp only
              rw [assemble_cells_color_none]
              by_cases h : List.range cells.length = [] <;> simp [h, Outcome.state])
          (Outcome.done s)
        exact this
      | some k =>
        right
        have := foldl_andThen_rel
          (fun (s1 s2 : AssemblyState R) => ∃ cells, cell_run a k cells s1 s2)
          (fun s1 => ⟨[], cell_run_refl a k s1⟩)
          (fun s1 s2 s3 h1 h2 => by
            obtain ⟨c1, r1⟩ := h1
            obtain ⟨c2, r2⟩ := h2
            exact ⟨c1 ++ c2, cell_run_trans a k c1 c2 s1 s2 s3 r1 r2⟩)
          (assemble_cells_color_step a (some k))
          (List.range a.mesh.num_colored_cells.length)
          (fun color _ s1 => by
            unfold assemble_cells_color_step
            cases a.mesh.colored_cells color with
            | none => exact ⟨[], cell_run_refl a k s1⟩
            | some cells =>
              dsimp only
              obtain ⟨s2, h2, r2⟩ :=
                assemble_cells_color_run a k cells (List.range cells.length) s1
              rw [h2]
              exact ⟨_, r2⟩)
          (Outcome.done s)
        obtain ⟨cells, hr⟩ := this
        exact ⟨k, cells, rfl, hr⟩

end CellRuns

/-! ## A team of workers on one colour class -/

section Teams
variable {R : Type} [AddCommMonoid R]

/-- Replacing one element of a list changes the sum over the list by that element only. -/
theorem sum_map_set {α : Type} (f : α → GenericTensor R) (l : List α) (p : Nat) (w x : α)
    (h : l[p]? = some w) :
    ∃ c, (l.map f).sum = f w + c ∧ ((l.set p x).map f).sum = f x + c := by
  induction l generalizing p with
  | nil => simp at h
  | cons y ys ih =>
    cases p with
    | zero =>
      simp only [List.getElem?_cons_zero, Option.some.injEq] at h
      subst h
      exact ⟨(ys.map f).sum, by simp, by simp⟩
    | succ p =>
      simp only [List.getElem?_cons_succ] at h
      obtain ⟨c, h1, h2⟩ := ih p h
      refine ⟨f y + c, ?_, ?_⟩
      · simp only [List.map_cons, List.sum_cons, h1]
        exact add_left_comm _ _ _
      · simp only [List.set_cons_succ, List.map_cons, List.sum_cons, h2]
        exact add_left_comm _ _ _

theorem entries_tensor_cons (e : List Nat × R) (rest : List (List Nat × R)) (idx : List Nat) :
    entries_tensor (e :: rest) idx
      = (if idx = e.1 then e.2 else 0) + entries_tensor rest idx := by
  unfold entries_tensor
  by_cases h : idx = e.1
  · subst h
    simp [List.filter_cons]
  · have h' : ¬ e.1 = idx := fun x => h x.symm
    simp [List.filter_cons, h, h']

omit [AddCommMonoid R] in
theorem scatter_map_fst (block : LocalTensor R) (dofs : List (List Nat)) :
    (scatter block dofs).map Prod.fst = global_indices dofs := by
  unfold scatter
  rw [List.map_map]
  exact List.enum_map_snd _

omit [AddCommMonoid R] in
theorem values_isSome_record (s : AssemblyState R) (e : Event) :
    (s.record e).values.isSome = s.values.isSome := rfl

theorem worker_step_load (a : Form R) (k : CellIntegral R) (cells : List Nat)
    (its : List Nat) (e : List Nat × R) (rest : List (List Nat × R)) (s : AssemblyState R) :
    worker_step a k cells { iterations := its, entries := e :: rest, loaded := none } s
      = ({ iterations := its, entries := e :: rest, loaded := some (s.A e.1) }, s) := rfl

theorem worker_step_store (a : Form R) (k : CellIntegral R) (cells : List Nat)
    (its : List Nat) (e : List Nat × R) (rest : List (List Nat × R)) (r : R)
    (s : AssemblyState R) :
    worker_step a k cells { iterations := its, entries := e :: rest, loaded := some r } s
      = ({ iterations := its, entries := rest, loaded := none },
          { s with A := fun idx => if idx = e.1 then r + e.2 else s.A idx }) := rfl

theorem worker_step_start_dual (a : Form R) (k : CellIntegral R) (cells : List Nat)
    (ci : Nat) (rest : List Nat) (ld : Option R) (s : AssemblyState R)
    (h : (s.values.isSome && a.rank == 0) = true) :
    worker_step a k cells { iterations := ci :: rest, entries := [], loaded := ld } s
      = ({ iterations := rest, entries := [], loaded := none },
          { s.record (.tabulate_cell (cells.getD ci 0)) with
            values := (s.record (.tabulate_cell (cells.getD ci 0))).values.map
              (fun (v : List R) => v.set ci (k (cells.getD ci 0) 0)) }.record
            (.set_value ci)) := by
  show (if ((s.record (.tabulate_cell (cells.getD ci 0))).values.isSome && a.rank == 0) = true
    then _ else _) = _
  rw [values_isSome_record, if_pos h]

theorem worker_step_start_add (a : Form R) (k : CellIntegral R) (cells : List Nat)
    (ci : Nat) (rest : List Nat) (ld : Option R) (s : AssemblyState R)
    (h : ¬ (s.values.isSome && a.rank == 0) = true) :
    worker_step a k cells { iterations := ci :: rest, entries := [], loaded := ld } s
      = ({ iterations := rest,
           entries := scatter (k (cells.getD ci 0)) (cell_dofs a (cells.getD ci 0)),
           loaded := none },
          (s.record (.tabulate_cell (cells.getD ci 0))).record .add) := by
  show (if ((s.record (.tabulate_cell (cells.getD ci 0))).values.isSome && a.rank == 0) = true
    then _ else _) = _
  rw [values_isSome_record, if_neg h]

/-- What one step of a worker does, when the value it has read, if any, is still the value
of the entry: the tensor and what the worker has still to add together stay the same; the
worker addresses no new entry; a value it has read is the value of the entry; and the
tensor changes only at entries that the worker may address. -/
theorem worker_step_spec (a : Form R) (k : CellIntegral R) (cells : List Nat) (present : Bool)
    (w : Worker R) (s : AssemblyState R) (hv : s.values.isSome = present)
    (hl : ∀ r, w.loaded = some r → ∃ e rest, w.entries = e :: rest ∧ r = s.A e.1) :
    (worker_step a k cells w s).2.A
        + (worker_step a k cells w s).1.pending a k cells (present && a.rank == 0)
      = s.A + w.pending a k cells (present && a.rank == 0) ∧
    (∀ idx ∈ (worker_step a k cells w s).1.touched a cells, idx ∈ w.touched a cells) ∧
    (∀ x, (worker_step a k cells w s).1.loaded = some x →
      ∃ e rest, (worker_step a k cells w s).1.entries = e :: rest ∧
        x = (worker_step a k cells w s).2.A e.1) ∧
    (∀ idx, idx ∉ w.touched a cells → (worker_step a k cells w s).2.A idx = s.A idx) ∧
    (worker_step a k cells w s).2.values.isSome = present := by
  obtain ⟨its, ents, ld⟩ := w
  cases ents with
  | cons e rest =>
    cases ld with
    | none =>
      rw [worker_step_load]
      refine ⟨rfl, fun idx h => h, ?_, fun _ _ => rfl, hv⟩
      intro x hx
      refine ⟨e, rest, rfl, ?_⟩
      simp only [Option.some.injEq] at hx
      exact hx.symm
    | some r =>
      obtain ⟨e1, rest1, he, hr⟩ := hl r rfl
      simp only [List.cons.injEq] at he
      obtain ⟨he1, _⟩ := he
      subst he1
      rw [worker_step_store]
      refine ⟨?_, ?_, ?_, ?_, hv⟩
      · funext idx
        simp only [Worker.pending, Pi.add_apply, entries_tensor_cons, hr]
        by_cases h : idx = e.1
        · simp only [h, if_true]
          simp only [add_assoc]
        · simp only [h, if_false, zero_add]
      · intro idx h
        simp only [Worker.touched, List.mem_append, List.map_cons,
          List.mem_cons] at h ⊢
        rcases h with h | h
        · exact Or.inl (Or.inr h)
        · exact Or.inr h
      · intro x hx
        simp at hx
      · intro idx h
        have hne : idx ≠ e.1 := by
          intro x
          apply h
          simp [Worker.touched, x]
        simp [hne]
  | nil =>
    cases its with
    | nil =>
      refine ⟨rfl, fun idx h => h, ?_, fun _ _ => rfl, hv⟩
      intro x hx
      obtain ⟨e1, rest1, he, _⟩ := hl x hx
      simp at he
    | cons ci rest =>
      have h0 : entries_tensor ([] : List (List Nat × R)) = 0 := rfl
      by_cases hb : (present && a.rank == 0) = true
      · have hc : (s.values.isSome && a.rank == 0) = true := by rw [hv]; exact hb
        rw [worker_step_start_dual a k cells ci rest ld s hc]
        refine ⟨?_, ?_, ?_, ?_, ?_⟩
        · simp only [Worker.pending, hb, if_true, List.map_cons, List.sum_cons, zero_add]
          rfl
        · intro idx h
          simp only [Worker.touched, List.map_nil, List.nil_append,
            List.flatMap_cons, List.mem_append] at h ⊢
          exact Or.inr h
        · intro x hx
          simp at hx
        · intro idx _
          rfl
        · rw [← hv]
          simp [AssemblyState.record]
      · have hc : ¬ (s.values.isSome && a.rank == 0) = true := by rw [hv]; exact hb
        rw [worker_step_start_add a k cells ci rest ld s hc]
        refine ⟨?_, ?_, ?_, ?_, ?_⟩
        · simp only [Worker.pending, hb, List.map_cons, List.sum_cons, h0, zero_add]
          rfl
        · intro idx h
          simp only [Worker.touched, scatter_map_fst,
            List.map_nil, List.nil_append, List.flatMap_cons, List.mem_append] at h ⊢
          exact h
        · intro x hx
          simp at hx
        · intro idx _
          rfl
        · exact hv

/-- A step of the team keeps the invariant of a race-free execution. -/
theorem team_step_invariant (a : Form R) (k : CellIntegral R) (cells : List Nat)
    (present : Bool) (T : GenericTensor R) (st : List (Worker R) × AssemblyState R) (p : Nat)
    (h : team_invariant a k cells present T st) :
    team_invariant a k cells present T (team_step a k cells st p) := by
  obtain ⟨h1, h2, h3, h4⟩ := h
  unfold team_step
  cases hp : st.1[p]? with
  | none => exact ⟨h1, h2, h3, h4⟩
  | some w =>
    obtain ⟨u1, u2, u3, u4, u5⟩ :=
      worker_step_spec a k cells present w st.2 h4 (fun r hr => h2 p w r hp hr)
    have hlt : p < st.1.length := by
      by_contra hc
      rw [List.getElem?_eq_none (by omega)] at hp
      exact absurd hp (by simp)
    have hget : ∀ q x, (st.1.set p (worker_step a k cells w st.2).1)[q]? = some x →
        (q = p ∧ x = (worker_step a k cells w st.2).1) ∨ (q ≠ p ∧ st.1[q]? = some x) := by
      intro q x hx
      rw [List.getElem?_set] at hx
      by_cases hq : p = q
      · left
        rw [if_pos hq, if_pos hlt] at hx
        exact ⟨hq.symm, (Option.some.inj hx).symm⟩
      · right
        rw [if_neg hq] at hx
        exact ⟨fun e => hq e.symm, hx⟩
    refine ⟨?_, ?_, ?_, u5⟩
    · obtain ⟨c, c1, c2⟩ := sum_map_set (Worker.pending a k cells (present && a.rank == 0))
        st.1 p w (worker_step a k cells w st.2).1 hp
      show (worker_step a k cells w st.2).2.A + _ = T
      rw [c2, ← add_assoc, u1, add_assoc, ← c1]
      exact h1
    · intro q x r hx hr
      rcases hget q x hx with ⟨_, rfl⟩ | ⟨hq, hx'⟩
      · exact u3 r hr
      · obtain ⟨e, rest, he, hre⟩ := h2 q x r hx' hr
        refine ⟨e, rest, he, ?_⟩
        show r = (worker_step a k cells w st.2).2.A e.1
        rw [u4 e.1 ?_]
        · exact hre
        · have hmem : e.1 ∈ x.touched a cells := by
            simp [Worker.touched, he]
          exact h3 q p x w hq hx' hp e.1 hmem
    · intro q1 q2 w1 w2 hne hw1 hw2 idx hidx
      rcases hget q1 w1 hw1 with ⟨e1, rfl⟩ | ⟨hq1, hw1'⟩
      · rcases hget q2 w2 hw2 with ⟨e2, _⟩ | ⟨hq2, hw2'⟩
        · exact absurd (e1.trans e2.symm) hne
        · exact h3 p q2 w w2 (fun e => hq2 e.symm) hp hw2' idx (u2 idx hidx)
      · rcases hget q2 w2 hw2 with ⟨e2, rfl⟩ | ⟨hq2, hw2'⟩
        · exact fun hc => h3 q1 p w1 w hq1 hw1' hp idx hidx (u2 idx hc)
        · exact h3 q1 q2 w1 w2 hne hw1' hw2' idx hidx

theorem team_steps_invariant (a : Form R) (k : CellIntegral R) (cells : List Nat)
    (present : Bool) (T : GenericTensor R) (steps : List Nat)
    (st : List (Worker R) × AssemblyState R) (h : team_invariant a k cells present T st) :
    team_invariant a k cells present T (steps.foldl (team_step a k cells) st) := by
  induction steps generalizing st with
  | nil => exact h
  | cons p rest ih => exact ih _ (team_step_invariant a k cells present T st p h)

theorem sum_flatten_map (c : Nat → GenericTensor R) (L : List (List Nat)) :
    (L.map (fun l => (l.map c).sum)).sum = (L.flatten.map c).sum := by
  induction L with
  | nil => rfl
  | cons l rest ih => simp [ih]

/-- At the start of a race-free execution the invariant holds, with for `T` the tensor
before the loop plus the contributions of all iterations. -/
theorem team_start_invariant (a : Form R) (k : CellIntegral R) (cells : List Nat)
    (assignment : List (List Nat)) (s : AssemblyState R)
    (hperm : assignment.flatten.Perm (List.range cells.length))
    (hfree : assignment.Pairwise (fun l1 l2 =>
      ∀ i ∈ l1, ∀ j ∈ l2, ∀ idx ∈ cell_entries a (cells.getD i 0),
        idx ∉ cell_entries a (cells.getD j 0))) :
    team_invariant a k cells s.values.isSome
      (s.A + ((List.range cells.length).map
        (fun ci => if (s.values.isSome && a.rank == 0) then 0
          else cell_contribution a k (cells.getD ci 0))).sum)
      (assignment.map Worker.start, s) := by
  have hstart : ∀ (p : Nat) (w : Worker R), (assignment.map Worker.start)[p]? = some w →
      ∃ l, assignment[p]? = some l ∧ w = Worker.start l := by
    intro p w hw
    rw [List.getElem?_map] at hw
    cases hl : assignment[p]? with
    | none => rw [hl] at hw; exact absurd hw (by simp)
    | some l =>
      rw [hl] at hw
      exact ⟨l, rfl, (Option.some.inj hw).symm⟩
  have hpair : ∀ (p q : Nat) (l1 l2 : List Nat), p < q → assignment[p]? = some l1 →
      assignment[q]? = some l2 →
      ∀ i ∈ l1, ∀ j ∈ l2, ∀ idx ∈ cell_entries a (cells.getD i 0),
        idx ∉ cell_entries a (cells.getD j 0) := by
    intro p q l1 l2 hpq h1 h2
    obtain ⟨hp, e1⟩ := List.getElem?_eq_some.mp h1
    obtain ⟨hq, e2⟩ := List.getElem?_eq_some.mp h2
    have := (List.pairwise_iff_getElem.mp hfree) p q hp hq hpq
    rw [e1, e2] at this
    exact this
  refine ⟨?_, ?_, ?_, rfl⟩
  · show s.A + _ = s.A + _
    congr 1
    rw [List.map_map]
    have hfun : (Worker.pending a k cells (s.values.isSome && a.rank == 0)) ∘ Worker.start
        = fun l => (l.map (fun ci => if (s.values.isSome && a.rank == 0) then 0
          else cell_contribution a k (cells.getD ci 0))).sum := by
      funext l
      have h0 : entries_tensor ([] : List (List Nat × R)) = 0 := rfl
      simp only [Function.comp, Worker.pending, Worker.start, h0, zero_add]
    rw [hfun, sum_flatten_map]
    exact (hperm.map _).sum_eq
  · intro p w r hw hr
    obtain ⟨l, _, rfl⟩ := hstart p w hw
    simp [Worker.start] at hr
  · intro p q w1 w2 hne hw1 hw2 idx hidx
    obtain ⟨l1, hl1, rfl⟩ := hstart p w1 hw1
    obtain ⟨l2, hl2, rfl⟩ := hstart q w2 hw2
    simp only [Worker.touched, Worker.start, List.map_nil, List.nil_append,
      List.mem_flatMap] at hidx ⊢
    obtain ⟨i, hi, hidx⟩ := hidx
    rintro ⟨j, hj, hjdx⟩
    rcases Nat.lt_or_gt_of_ne hne with hlt | hgt
    · exact hpair p q l1 l2 hlt hl1 hl2 i hi j hj idx hidx hjdx
    · exact hpair q p l2 l1 hgt hl2 hl1 j hj i hi idx hjdx hidx

/-- When every worker has run its iterations to the end, the tensor is `T`. -/
theorem team_finished_tensor (a : Form R) (k : CellIntegral R) (cells : List Nat)
    (present : Bool) (T : GenericTensor R) (st : List (Worker R) × AssemblyState R)
    (h : team_invariant a k cells present T st) (hf : st.1.all Worker.finished = true) :
    st.2.A = T := by
  have hz : (st.1.map (Worker.pending a k cells (present && a.rank == 0))).sum = 0 := by
    apply List.sum_eq_zero
    intro x hx
    obtain ⟨w, hw, rfl⟩ := List.mem_map.mp hx
    have hfin := List.all_eq_true.mp hf w hw
    simp only [Worker.finished, Bool.and_eq_true, List.isEmpty_iff] at hfin
    have h0 : entries_tensor ([] : List (List Nat × R)) = 0 := rfl
    simp only [Worker.pending, hfin.1, hfin.2, h0, List.map_nil, List.sum_nil, add_zero]
  rw [← h.1, hz, add_zero]

/-- A race-free execution of the loop over one colour ends normally, with the tensor it
started with plus the contributions of all cells of the colour (none in the dual-output
mode), as the loop run by one worker does. -/
theorem assemble_cells_color_workers_some (a : Form R) (k : CellIntegral R)
    (cells : List Nat) (exec : Execution) (s : AssemblyState R) (o : Outcome R)
    (h : assemble_cells_color_workers a (some k) cells exec s = some o)
    (hfree : exec.assignment.Pairwise (fun l1 l2 =>
      ∀ i ∈ l1, ∀ j ∈ l2, ∀ idx ∈ cell_entries a (cells.getD i 0),
        idx ∉ cell_entries a (cells.getD j 0))) :
    ∃ s', o = Outcome.done s' ∧ s'.values.isSome = s.values.isSome ∧
      s'.A = s.A + (if buffered a s then 0
        else ((List.range cells.length).map
          (fun ci => cell_contribution a k (cells.getD ci 0))).sum) := by
  unfold assemble_cells_color_workers at h
  dsimp only at h
  by_cases hperm : exec.assignment.flatten.Perm (List.range cells.length)
  · rw [if_pos hperm] at h
    by_cases hfin : (exec.steps.foldl (team_step a k cells)
        (exec.assignment.map Worker.start, s)).1.all Worker.finished = true
    · rw [if_pos hfin] at h
      have hinv := team_steps_invariant a k cells _ _ exec.steps _
        (team_start_invariant a k cells exec.assignment s hperm hfree)
      refine ⟨_, (Option.some.inj h).symm, hinv.2.2.2, ?_⟩
      rw [team_finished_tensor a k cells _ _ _ hinv hfin]
      unfold buffered
      by_cases hb : (s.values.isSome && a.rank == 0) = true
      · simp only [hb, if_true]
        rw [sum_map_eq_zero _ _ (fun _ => rfl)]
      · simp only [hb, if_false]
        rfl
    · rw [if_neg hfin] at h
      exact absurd h (by simp)
  · rw [if_neg hperm] at h
    exact absurd h (by simp)

/-- One colour of a race-free run by a team ends as the same colour run by one worker. -/
theorem assemble_cells_color_step_workers_same (exec : Nat → Execution) (a : Form R)
    (integral : Option (CellIntegral R)) (hfree : race_free a exec) (color : Nat)
    (hcol : color < a.mesh.num_colored_cells.length) (op : Option (Outcome R))
    (oseq : Outcome R) (h : ∀ o1, op = some o1 → same_tensor o1 oseq) :
    ∀ o1, assemble_cells_color_step_workers exec a integral op color = some o1 →
      same_tensor o1 (oseq.andThen (assemble_cells_color_step a integral color)) := by
  intro o1 h1
  cases op with
  | none => exact absurd h1 (by simp [assemble_cells_color_step_workers])
  | some o =>
    have hs := h o rfl
    cases o with
    | raised e s1 =>
      have e1 : o1 = Outcome.raised e s1 := (Option.some.inj h1).symm
      subst e1
      cases oseq with
      | done s2 => exact absurd hs.1 (by simp [Outcome.error])
      | raised e2 s2 => exact hs
    | done s1 =>
      cases oseq with
      | raised e2 s2 => exact absurd hs.1 (by simp [Outcome.error])
      | done s2 =>
        have hA : s1.A = s2.A := hs.2.1
        have hv : s1.values.isSome = s2.values.isSome := hs.2.2
        show same_tensor o1 (assemble_cells_color_step a integral color s2)
        unfold assemble_cells_color_step
        unfold assemble_cells_color_step_workers at h1
        dsimp only at h1 ⊢
        cases hc : a.mesh.colored_cells color with
        | none =>
          rw [hc] at h1
          have e1 : o1 = Outcome.raised .assertion_failed s1 := (Option.some.inj h1).symm
          subst e1
          exact same_tensor_raised _ s1 s2 hA hv
        | some cells =>
          rw [hc] at h1
          dsimp only at h1 ⊢
          cases integral with
          | none =>
            rw [assemble_cells_color_none]
            unfold assemble_cells_color_workers at h1
            dsimp only at h1
            by_cases hperm : (exec color).assignment.flatten.Perm (List.range cells.length)
            · rw [if_pos hperm] at h1
              have e1 := (Option.some.inj h1).symm
              subst e1
              by_cases hn : cells.length = 0
              · simp only [hn, List.range_zero, if_true]
                exact ⟨rfl, hA, hv⟩
              · have hr : List.range cells.length ≠ [] := by
                  intro e
                  apply hn
                  simpa using congrArg List.length e
                simp only [hn, hr, if_false]
                exact same_tensor_raised _ s1 s2 hA hv
            · rw [if_neg hperm] at h1
              exact absurd h1 (by simp)
          | some k =>
            obtain ⟨t1, e1, hv1, hA1⟩ := assemble_cells_color_workers_some a k cells
              (exec color) s1 o1 h1 (hfree color hcol cells hc)
            obtain ⟨t2, h2, hv2, _, hA2⟩ :=
              assemble_cells_color_some a k cells (List.range cells.length) s2
            have hb : buffered a s1 = buffered a s2 := by simp [buffered, hv]
            rw [h2, e1]
            refine ⟨rfl, ?_, ?_⟩
            · show t1.A = t2.A
              rw [hA1, hA2, hA, hb]
            · show t1.values.isSome = t2.values.isSome
              rw [hv1, hv2, hv]

theorem assemble_cells_workers_fold_same (exec : Nat → Execution) (a : Form R)
    (integral : Option (CellIntegral R)) (hfree : race_free a exec) (colors : List Nat)
    (hcolors : ∀ c ∈ colors, c < a.mesh.num_colored_cells.length)
    (op : Option (Outcome R)) (oseq : Outcome R)
    (h : ∀ o1, op = some o1 → same_tensor o1 oseq) :
    ∀ o1, colors.foldl (assemble_cells_color_step_workers exec a integral) op = some o1 →
      same_tensor o1 (colors.foldl
        (fun o color => o.andThen (assemble_cells_color_step a integral color)) oseq) := by
  induction colors generalizing op oseq with
  | nil => exact h
  | cons c rest ih =>
    simp only [List.foldl_cons]
    exact ih (fun x hx => hcolors x (List.mem_cons_of_mem _ hx)) _ _
      (assemble_cells_color_step_workers_same exec a integral hfree c
        (hcolors c (List.mem_cons_self _ _)) op oseq h)

/-- A race-free run of the cell pass by a team of workers ends as the run by one worker does:
with the same error or none, and with the same global tensor. -/
theorem assemble_cells_workers_same (exec : Nat → Execution) (a : Form R)
    (domains : Option MeshFunction) (s : AssemblyState R) (o : Outcome R)
    (h : assemble_cells_workers exec a domains s = some o) (hfree : race_free a exec) :
    same_tensor o (assemble_cells a domains s) := by
  unfold assemble_cells_workers at h
  unfold assemble_cells
  by_cases h0 : a.cell_integrals.length = 0
  · rw [if_pos h0] at h ⊢
    rw [← Option.some.inj h]
    exact ⟨rfl, rfl, rfl⟩
  · rw [if_neg h0] at h ⊢
    by_cases hd : MeshFunction.supplied domains = true
    · rw [if_pos hd] at h ⊢
      rw [← Option.some.inj h]
      exact ⟨rfl, rfl, rfl⟩
    · rw [if_neg hd] at h ⊢
      exact assemble_cells_workers_fold_same exec a _ hfree _
        (fun c hc => List.mem_range.mp hc) _ _
        (fun o1 h1 => by rw [← Option.some.inj h1]; exact ⟨rfl, rfl, rfl⟩) o h

/-! ### What a team leaves alone -/

omit [AddCommMonoid R] in
theorem scatter_length (block : LocalTensor R) (dofs : List (List Nat)) :
    (scatter block dofs).length = (global_indices dofs).length := by
  rw [← scatter_map_fst block dofs, List.length_map]

/-- A step of a worker takes one off the number of steps it needs at most. -/
theorem worker_step_work (a : Form R) (k : CellIntegral R) (cells : List Nat) (w : Worker R)
    (s : AssemblyState R) :
    (worker_step a k cells w s).1.work a cells ≤ w.work a cells - 1 := by
  obtain ⟨its, ents, ld⟩ := w
  cases ents with
  | cons e rest =>
    cases ld with
    | none =>
      rw [worker_step_load]
      simp only [Worker.work, List.length_cons, Option.isSome_some, Option.isSome_none,
        if_true, Bool.false_eq_true, if_false]
      omega
    | some r =>
      rw [worker_step_store]
      simp only [Worker.work, List.length_cons, Option.isSome_some, Option.isSome_none,
        if_true, Bool.false_eq_true, if_false]
      omega
  | nil =>
    cases its with
    | nil =>
      show Worker.work a cells _ ≤ _
      simp [Worker.work, worker_step]
    | cons ci rest =>
      by_cases hb : (s.values.isSome && a.rank == 0) = true
      · rw [worker_step_start_dual a k cells ci rest ld s hb]
        simp only [Worker.work, List.length_nil, Option.isSome_none, Bool.false_eq_true,
          if_false, List.map_cons, List.sum_cons]
        omega
      · rw [worker_step_start_add a k cells ci rest ld s hb]
        have hlen : (scatter (k (cells.getD ci 0)) (cell_dofs a (cells.getD ci 0))).length
            = (cell_entries a (cells.getD ci 0)).length := scatter_length _ _
        simp only [Worker.work, List.length_nil, Option.isSome_none, Bool.false_eq_true,
          if_false, List.map_cons, List.sum_cons, hlen]
        omega

omit [AddCommMonoid R] in
theorem work_zero_finished (a : Form R) (cells : List Nat) (w : Worker R)
    (h : w.work a cells = 0) : w.finished = true := by
  obtain ⟨its, ents, ld⟩ := w
  cases its with
  | cons ci rest =>
    simp only [Worker.work, List.map_cons, List.sum_cons] at h
    omega
  | nil =>
    cases ents with
    | nil => rfl
    | cons e rest =>
      simp only [Worker.work, List.length_cons, List.map_nil, List.sum_nil] at h
      split at h <;> omega

theorem team_step_other (a : Form R) (k : CellIntegral R) (cells : List Nat)
    (st : List (Worker R) × AssemblyState R) (p q : Nat) (h : q ≠ p) :
    (team_step a k cells st p).1[q]? = st.1[q]? := by
  unfold team_step
  cases st.1[p]? with
  | none => rfl
  | some w => exact List.getElem?_set_ne (fun e => h e.symm)

theorem team_step_self (a : Form R) (k : CellIntegral R) (cells : List Nat)
    (st : List (Worker R) × AssemblyState R) (p : Nat) (w : Worker R)
    (h : st.1[p]? = some w) :
    (team_step a k cells st p).1[p]? = some (worker_step a k cells w st.2).1 := by
  have hlt : p < st.1.length := by
    by_contra hc
    rw [List.getElem?_eq_none (by omega)] at h
    exact absurd h (by simp)
  unfold team_step
  rw [h]
  show (st.1.set p _)[p]? = _
  rw [List.getElem?_set, if_pos rfl, if_pos hlt]

/-- After `n` steps of the worker `p`, this worker needs `n` steps less, and the other
workers are as they were. -/
theorem team_replicate (a : Form R) (k : CellIntegral R) (cells : List Nat) (p n : Nat)
    (st : List (Worker R) × AssemblyState R) (w : Worker R) (h : st.1[p]? = some w) :
    (∃ w', ((List.replicate n p).foldl (team_step a k cells) st).1[p]? = some w' ∧
      w'.work a cells ≤ w.work a cells - n) ∧
    ∀ q, q ≠ p → ((List.replicate n p).foldl (team_step a k cells) st).1[q]? = st.1[q]? := by
  induction n generalizing st w with
  | zero => exact ⟨⟨w, h, by omega⟩, fun _ _ => rfl⟩
  | succ n ih =>
    rw [List.replicate_succ, List.foldl_cons]
    obtain ⟨⟨w', h1, h2⟩, h3⟩ := ih (team_step a k cells st p) _
      (team_step_self a k cells st p w h)
    refine ⟨⟨w', h1, ?_⟩, fun q hq => (h3 q hq).trans (team_step_other a k cells st p q hq)⟩
    have := worker_step_work a k cells w st.2
    omega

/-- The workers run one after the other, each as many steps as it needs at most: in the
end every worker has run its iterations to the end. -/
theorem team_enough_steps (a : Form R) (k : CellIntegral R) (cells : List Nat)
    (assignment : List (List Nat)) (s : AssemblyState R) :
    ((enough_steps a cells assignment).foldl (team_step a k cells)
      (assignment.map Worker.start, s)).1.all Worker.finished = true := by
  have key : ∀ j, j ≤ assignment.length →
      (∀ q w, q < j →
        (((List.range j).flatMap (fun p => List.replicate
            ((Worker.start (assignment.getD p []) : Worker R).work a cells) p)).foldl
          (team_step a k cells) (assignment.map Worker.start, s)).1[q]? = some w →
        w.finished = true) ∧
      (∀ q, j ≤ q →
        (((List.range j).flatMap (fun p => List.replicate
            ((Worker.start (assignment.getD p []) : Worker R).work a cells) p)).foldl
          (team_step a k cells) (assignment.map Worker.start, s)).1[q]?
        = (assignment.map (Worker.start : List Nat → Worker R))[q]?) := by
    intro j
    induction j with
    | zero => intro _; exact ⟨fun q w hq => absurd hq (by omega), fun q _ => rfl⟩
    | succ j ih =>
      intro hj
      obtain ⟨i1, i2⟩ := ih (by omega)
      rw [List.range_succ, List.flatMap_append, List.foldl_append]
      simp only [List.flatMap_cons, List.flatMap_nil, List.append_nil]
      have hstart : (assignment.map (Worker.start : List Nat → Worker R))[j]?
          = some (Worker.start (assignment.getD j [])) := by
        rw [List.getElem?_map, List.getD_eq_getElem?_getD,
          List.getElem?_eq_getElem (by omega : j < assignment.length)]
        rfl
      obtain ⟨⟨w', h1, h2⟩, h3⟩ := team_replicate a k cells j
        ((Worker.start (assignment.getD j []) : Worker R).work a cells) _ _
        ((i2 j (Nat.le_refl j)).trans hstart)
      refine ⟨?_, ?_⟩
      · intro q w hq hw
        by_cases hqj : q = j
        · subst hqj
          rw [h1] at hw
          have e := Option.some.inj hw
          subst e
          exact work_zero_finished a cells _ (by omega)
        · rw [h3 q hqj] at hw
          exact i1 q w (by omega) hw
      · intro q hq
        rw [h3 q (by omega)]
        exact i2 q (by omega)
  obtain ⟨k1, k2⟩ := key assignment.length (Nat.le_refl _)
  rw [List.all_eq_true]
  intro w hw
  obtain ⟨q, hq⟩ := List.getElem?_of_mem hw
  by_cases hlt : q < assignment.length
  · exact k1 q w hlt hq
  · have := k2 q (by omega)
    unfold enough_steps at hq
    rw [this, List.getElem?_eq_none (by simp; omega)] at hq
    exact absurd hq (by simp)

/-- Every assignment that hands out each iteration of a colour once can be run to the
end. -/
theorem assemble_cells_color_workers_enough (a : Form R) (integral : Option (CellIntegral R))
    (cells : List Nat) (assignment : List (List Nat)) (s : AssemblyState R)
    (hperm : assignment.flatten.Perm (List.range cells.length)) :
    (assemble_cells_color_workers a integral cells
      { assignment := assignment, steps := enough_steps a cells assignment } s).isSome
      = true := by
  unfold assemble_cells_color_workers
  dsimp only
  rw [if_pos hperm]
  cases integral with
  | none => rfl
  | some k =>
    dsimp only
    rw [if_pos (team_enough_steps a k cells assignment s)]
    rfl

/-- Every assignment that hands out each iteration of each colour once can be run to the
end: the cell pass run by a team with this assignment, the workers of each colour one after
the other, gives a result. -/
theorem assemble_cells_workers_enough (a : Form R) (domains : Option MeshFunction)
    (s : AssemblyState R) (assign : Nat → List (List Nat))
    (hva : valid_assignment a.mesh (one_after_the_other a assign)) :
    (assemble_cells_workers (one_after_the_other a assign) a domains s).isSome = true := by
  have hfold : ∀ (colors : List Nat) (op : Option (Outcome R)),
      (∀ c ∈ colors, c < a.mesh.num_colored_cells.length) → op.isSome = true →
      (colors.foldl (assemble_cells_color_step_workers (one_after_the_other a assign) a
        (a.cell_integrals.getD 0 none)) op).isSome = true := by
    intro colors
    induction colors with
    | nil => intro op _ hop; exact hop
    | cons c rest ih =>
      intro op hc hop
      rw [List.foldl_cons]
      apply ih _ (fun x hx => hc x (List.mem_cons_of_mem _ hx))
      obtain ⟨o0, rfl⟩ := Option.isSome_iff_exists.mp hop
      cases o0 with
      | raised e s0 => rfl
      | done s0 =>
        unfold assemble_cells_color_step_workers
        dsimp only
        cases hcc : a.mesh.colored_cells c with
        | none => rfl
        | some cells =>
          dsimp only
          have hperm := hva c (hc c (List.mem_cons_self _ _)) cells hcc
          have hex : one_after_the_other a assign c
              = { assignment := assign c, steps := enough_steps a cells (assign c) } := by
            unfold one_after_the_other
            rw [hcc]
            rfl
          rw [hex]
          exact assemble_cells_color_workers_enough a _ cells (assign c) s0 hperm
  unfold assemble_cells_workers
  by_cases h0 : a.cell_integrals.length = 0
  · rw [if_pos h0]; rfl
  · rw [if_neg h0]
    by_cases hd : MeshFunction.supplied domains = true
    · rw [if_pos hd]; rfl
    · rw [if_neg hd]
      exact hfold _ _ (fun c hc => List.mem_range.mp hc) rfl

end Teams

/-! ## Lemmas on the dof buffers -/

theorem tabulate_dofs_below (dm : GenericDofMap) (buf : Nat → Nat) (offset cell j : Nat)
    (h : j < offset) : dm.tabulate_dofs buf offset cell j = buf j := by
  unfold GenericDofMap.tabulate_dofs
  rw [if_neg]
  omega

theorem tabulate_dofs_at (dm : GenericDofMap) (buf : Nat → Nat) (offset cell j : Nat)
    (h : j < dm.local_dimension cell) :
    dm.tabulate_dofs buf offset cell (offset + j) = (dm.cell_dofs cell).getD j 0 := by
  unfold GenericDofMap.tabulate_dofs
  rw [if_pos ⟨Nat.le_add_right _ _, by omega⟩, Nat.add_sub_cancel_left]

theorem map_range_eq_of_getD (l : List Nat) (f : Nat → Nat)
    (h : ∀ j, j < l.length → f j = l.getD j 0) : (List.range l.length).map f = l := by
  rw [← map_getD_range l]
  simp only [List.length_map, List.length_range]
  apply List.map_congr_left
  intro j hj
  rw [h j (List.mem_range.mp hj)]

section FacetLemmas
variable {R : Type}

theorem macro_dofs_first (a : Form R) (cell0 cell1 : Nat) (buf : Nat → Nat → Nat) (i j : Nat)
    (hi : i < a.rank) (hj : j < (a.dofmap i).local_dimension cell0) :
    tabulate_macro_dofs a cell0 cell1 buf i j = ((a.dofmap i).cell_dofs cell0).getD j 0 := by
  unfold tabulate_macro_dofs
  rw [if_pos hi]
  show (a.dofmap i).tabulate_dofs _ _ cell1 j = _
  rw [tabulate_dofs_below _ _ _ _ _ hj]
  have := tabulate_dofs_at (a.dofmap i) (buf i) 0 cell0 j hj
  simpa using this

theorem macro_dofs_second (a : Form R) (cell0 cell1 : Nat) (buf : Nat → Nat → Nat) (i j : Nat)
    (hi : i < a.rank) (hj : j < (a.dofmap i).local_dimension cell1) :
    tabulate_macro_dofs a cell0 cell1 buf i ((a.dofmap i).local_dimension cell0 + j)
      = ((a.dofmap i).cell_dofs cell1).getD j 0 := by
  unfold tabulate_macro_dofs
  rw [if_pos hi]
  exact tabulate_dofs_at (a.dofmap i) _ _ cell1 j hj

theorem macro_rows (a : Form R) (cell0 cell1 : Nat) (buf : Nat → Nat → Nat) :
    rows_of a.rank (macro_local_dimensions a cell0 cell1) (tabulate_macro_dofs a cell0 cell1 buf)
      = macro_cell_dofs a cell0 cell1 := by
  unfold rows_of macro_cell_dofs macro_local_dimensions
  apply List.map_congr_left
  intro i hi
  have hi' : i < a.rank := List.mem_range.mp hi
  rw [List.range_add, List.map_append, List.map_map]
  congr 1
  · exact map_range_eq_of_getD _ _ (fun j hj => macro_dofs_first a cell0 cell1 buf i j hi' hj)
  · exact map_range_eq_of_getD _ _ (fun j hj => macro_dofs_second a cell0 cell1 buf i j hi' hj)

theorem cell_rows (a : Form R) (cell : Nat) (buf : Nat → Nat → Nat) :
    rows_of a.rank (fun i => (a.dofmap i).local_dimension cell)
      (fun i => if i < a.rank then (a.dofmap i).tabulate_dofs (buf i) 0 cell else buf i)
      = cell_dofs a cell := by
  unfold rows_of cell_dofs
  apply List.map_congr_left
  intro i hi
  have hi' : i < a.rank := List.mem_range.mp hi
  simp only [hi', if_true]
  apply map_range_eq_of_getD
  intro j hj
  have := tabulate_dofs_at (a.dofmap i) (buf i) 0 cell j hj
  simpa using this

end FacetLemmas

/-! ## The loops over facets -/

theorem getD_none_eq_join {K : Type} (integrals : List (Option K)) (d : Nat) :
    integrals.getD d none = (integrals[d]?).join := by
  rw [List.getD_eq_getElem?_getD]
  cases integrals[d]? <;> rfl

/-- The variable `integral` is only read when no marker array is supplied, and then it
holds the default integral: the selection made by the loop is the registered kernel. -/
theorem select_integral_registered {K : Type} (integrals : List (Option K))
    (domains : Option MeshFunction) (facet : Nat) (integral : Option K)
    (hinv : MeshFunction.supplied domains = true ∨ integral = integrals.getD 0 none) :
    (select_integral integrals domains facet integral).join
      = registered_kernel integrals domains facet := by
  unfold select_integral registered_kernel marker_of
  cases domains with
  | none =>
    rcases hinv with h | h
    · simp [MeshFunction.supplied] at h
    · simp only [h, Option.join, getD_none_eq_join]
      rfl
  | some d =>
    by_cases hs : d.size > 0
    · simp only [hs, if_true]
      by_cases hlt : d.values facet < integrals.length
      · simp only [hlt, if_true, getD_none_eq_join]
        rfl
      · simp only [hlt, if_false]
        rw [List.getElem?_eq_none (Nat.le_of_not_lt hlt)]
    · rcases hinv with h | h
      · simp [MeshFunction.supplied, hs] at h
      · simp only [hs, if_false, h, getD_none_eq_join]
        rfl

/-- The variable `integral` after one iteration still holds the default integral when no
marker array is supplied. -/
theorem select_integral_keeps {K : Type} (integrals : List (Option K))
    (domains : Option MeshFunction) (facet : Nat) (integral i : Option K)
    (hinv : MeshFunction.supplied domains = true ∨ integral = integrals.getD 0 none)
    (hsel : select_integral integrals domains facet integral = some i) :
    MeshFunction.supplied domains = true ∨ i = integrals.getD 0 none := by
  rcases hinv with h | h
  · exact Or.inl h
  · by_cases hs : MeshFunction.supplied domains = true
    · exact Or.inl hs
    · right
      unfold select_integral at hsel
      cases domains with
      | none => simp at hsel; rw [← hsel, h]
      | some d =>
        have hd : ¬ d.size > 0 := by simpa [MeshFunction.supplied] using hs
        simp only [hd, if_false] at hsel
        rw [← Option.some.inj hsel, h]

section FacetLoops
variable {R : Type} [AddCommMonoid R]

omit [AddCommMonoid R] in
theorem facet_step_raised {K : Type}
    (body : Nat → Option K → AssemblyState R → Option K × Outcome R)
    (integral : Option K) (e : AssemblyError) (s : AssemblyState R) (facets : List Nat) :
    facets.foldl (facet_step body) (integral, Outcome.raised e s)
      = (integral, Outcome.raised e s) := by
  induction facets with
  | nil => rfl
  | cons f rest ih => simpa [List.foldl_cons, facet_step] using ih

theorem exterior_facet_body_adds (a : Form R) (domains : Option MeshFunction) (facet : Nat)
    (integral : Option (ExteriorFacetIntegral R)) (s : AssemblyState R)
    (hcells : (a.mesh.facet_cells facet).length = 1 ∨ (a.mesh.facet_cells facet).length = 2)
    (hinv : MeshFunction.supplied domains = true ∨
      integral = a.exterior_facet_integrals.getD 0 none) :
    ∃ integral' s', exterior_facet_body a domains facet integral s = (integral', Outcome.done s') ∧
      (MeshFunction.supplied domains = true ∨
        integral' = a.exterior_facet_integrals.getD 0 none) ∧
      s'.values = s.values ∧
      s'.A = s.A + exterior_facet_contribution a domains facet := by
  have hreg := select_integral_registered a.exterior_facet_integrals domains facet integral hinv
  unfold exterior_facet_body exterior_facet_contribution
  by_cases hne : not_exterior a.mesh facet = true
  · exact ⟨integral, s, by simp [hne], hinv, rfl, by simp [hne]⟩
  · have hlen : (a.mesh.facet_cells facet).length = 1 := by
      rcases hcells with h | h
      · exact h
      · exact absurd (by simp [not_exterior, h]) hne
    simp only [hne, if_false, Bool.false_eq_true]
    rw [← hreg]
    cases hsel : select_integral a.exterior_facet_integrals domains facet integral with
    | none => exact ⟨integral, s, rfl, hinv, rfl, by simp [Option.join]⟩
    | some i =>
      have hkeep := select_integral_keeps _ domains facet integral i hinv hsel
      cases i with
      | none => exact ⟨none, s, rfl, hkeep, rfl, by simp [Option.join]⟩
      | some k =>
        refine ⟨some k, _, by simp only [hlen, ne_eq, not_true_eq_false, if_false]; rfl, hkeep, ?_, ?_⟩
        · simp [AssemblyState.record]
        · simp only [AssemblyState.record, GenericTensor.add_eq, Option.join]
          rw [cell_rows]
          rfl

theorem exterior_facets_fold (a : Form R) (domains : Option MeshFunction) (facets : List Nat)
    (hcells : ∀ f ∈ facets,
      (a.mesh.facet_cells f).length = 1 ∨ (a.mesh.facet_cells f).length = 2)
    (integral : Option (ExteriorFacetIntegral R)) (s : AssemblyState R)
    (hinv : MeshFunction.supplied domains = true ∨
      integral = a.exterior_facet_integrals.getD 0 none) :
    ∃ integral' s', facets.foldl (facet_step (exterior_facet_body a domains))
        (integral, Outcome.done s) = (integral', Outcome.done s') ∧
      s'.values = s.values ∧
      s'.A = s.A + (facets.map (exterior_facet_contribution a domains)).sum := by
  induction facets generalizing integral s with
  | nil => exact ⟨integral, s, rfl, rfl, by simp⟩
  | cons f rest ih =>
    obtain ⟨i1, s1, h1, hinv1, hv1, hA1⟩ :=
      exterior_facet_body_adds a domains f integral s (hcells f (List.mem_cons_self _ _)) hinv
    obtain ⟨i2, s2, h2, hv2, hA2⟩ :=
      ih (fun g hg => hcells g (List.mem_cons_of_mem _ hg)) i1 s1 hinv1
    refine ⟨i2, s2, ?_, hv2.trans hv1, ?_⟩
    · simp only [List.foldl_cons, facet_step, h1]
      exact h2
    · rw [hA2, hA1]
      simp [add_assoc]

theorem interior_facet_body_adds (a : Form R) (domains : Option MeshFunction) (facet : Nat)
    (integral : Option (InteriorFacetIntegral R)) (s : AssemblyState R)
    (hinv : MeshFunction.supplied domains = true ∨
      integral = a.interior_facet_integrals.getD 0 none) :
    ∃ integral' s', interior_facet_body a domains facet integral s = (integral', Outcome.done s') ∧
      (MeshFunction.supplied domains = true ∨
        integral' = a.interior_facet_integrals.getD 0 none) ∧
      s'.values = s.values ∧
      s'.A = s.A + interior_facet_contribution a domains facet := by
  have hreg := select_integral_registered a.interior_facet_integrals domains facet integral hinv
  unfold interior_facet_body interior_facet_contribution Mesh.interior
  by_cases hne : (a.mesh.facet_cells facet).length ≠ 2
  · exact ⟨integral, s, by simp [hne], hinv, rfl, by simp [hne]⟩
  · have heq : (a.mesh.facet_cells facet).length = 2 := not_not.mp hne
    simp only [hne, heq, if_false, decide_True, Bool.not_true, Bool.false_eq_true]
    rw [← hreg]
    cases hsel : select_integral a.interior_facet_integrals domains facet integral with
    | none => exact ⟨integral, s, rfl, hinv, rfl, by simp [Option.join]⟩
    | some i =>
      have hkeep := select_integral_keeps _ domains facet integral i hinv hsel
      cases i with
      | none => exact ⟨none, s, rfl, hkeep, rfl, by simp [Option.join]⟩
      | some k =>
        refine ⟨some k, _, rfl, hkeep, ?_, ?_⟩
        · simp [AssemblyState.record]
        · simp only [AssemblyState.record, GenericTensor.add_eq, Option.join]
          rw [macro_rows]
          rfl

theorem interior_facets_fold (a : Form R) (domains : Option MeshFunction) (facets : List Nat)
    (integral : Option (InteriorFacetIntegral R)) (s : AssemblyState R)
    (hinv : MeshFunction.supplied domains = true ∨
      integral = a.interior_facet_integrals.getD 0 none) :
    ∃ integral' s', facets.foldl (facet_step (interior_facet_body a domains))
        (integral, Outcome.done s) = (integral', Outcome.done s') ∧
      s'.values = s.values ∧
      s'.A = s.A + (facets.map (interior_facet_contribution a domains)).sum := by
  induction facets generalizing integral s with
  | nil => exact ⟨integral, s, rfl, rfl, by simp⟩
  | cons f rest ih =>
    obtain ⟨i1, s1, h1, hinv1, hv1, hA1⟩ := interior_facet_body_adds a domains f integral s hinv
    obtain ⟨i2, s2, h2, hv2, hA2⟩ := ih i1 s1 hinv1
    refine ⟨i2, s2, ?_, hv2.trans hv1, ?_⟩
    · simp only [List.foldl_cons, facet_step, h1]
      exact h2
    · rw [hA2, hA1]
      simp [add_assoc]

end FacetLoops

/-! ## The errors of the facet passes -/

section FacetErrors
variable {R : Type} [AddCommMonoid R]

omit [AddCommMonoid R] in
theorem facet_fold_invariant {K : Type}
    (body : Nat → Option K → AssemblyState R → Option K × Outcome R) (P : Outcome R → Prop)
    (hbody : ∀ f i s, P (body f i s).2) (facets : List Nat) (st : Option K × Outcome R)
    (h0 : P st.2) : P (facets.foldl (facet_step body) st).2 := by
  induction facets generalizing st with
  | nil => exact h0
  | cons f rest ih =>
    rw [List.foldl_cons]
    apply ih
    unfold facet_step
    cases hst : st.2 with
    | done s => exact hbody f st.1 s
    | raised e s => rw [hst] at h0; exact h0

theorem exterior_facet_body_error (a : Form R) (domains : Option MeshFunction) (facet : Nat)
    (integral : Option (ExteriorFacetIntegral R)) (s : AssemblyState R) :
    (exterior_facet_body a domains facet integral s).2.error = none ∨
      (exterior_facet_body a domains facet integral s).2.error = some .assertion_failed := by
  unfold exterior_facet_body
  by_cases hne : not_exterior a.mesh facet = true
  · left; simp [hne, Outcome.error]
  · simp only [hne, if_false, Bool.false_eq_true]
    cases select_integral a.exterior_facet_integrals domains facet integral with
    | none => left; rfl
    | some i =>
      cases i with
      | none => left; rfl
      | some k =>
        by_cases hlen : (a.mesh.facet_cells facet).length ≠ 1
        · right; dsimp only; rw [if_pos hlen]; rfl
        · left; dsimp only; rw [if_neg hlen]; rfl

theorem interior_facet_body_error (a : Form R) (domains : Option MeshFunction) (facet : Nat)
    (integral : Option (InteriorFacetIntegral R)) (s : AssemblyState R) :
    (interior_facet_body a domains facet integral s).2.error = none := by
  unfold interior_facet_body Mesh.interior
  by_cases hne : (a.mesh.facet_cells facet).length ≠ 2
  · simp [hne, Outcome.error]
  · have heq : (a.mesh.facet_cells facet).length = 2 := not_not.mp hne
    simp only [heq, if_false, decide_True, Bool.not_true, Bool.false_eq_true]
    cases select_integral a.interior_facet_integrals domains facet integral with
    | none => rfl
    | some i =>
      cases i with
      | none => rfl
      | some k => rfl

/-- The exterior-facet pass raises nothing but a failed assertion. -/
theorem assemble_exterior_facets_errors (a : Form R) (domains : Option MeshFunction)
    (s : AssemblyState R) :
    (assemble_exterior_facets a domains s).error = none ∨
      (assemble_exterior_facets a domains s).error = some .assertion_failed := by
  unfold assemble_exterior_facets
  by_cases h0 : a.exterior_facet_integrals.length = 0
  · left; rw [if_pos h0]; rfl
  · rw [if_neg h0]
    by_cases ho : a.mesh.ordered = true
    · simp only [ho, Bool.not_true, Bool.false_eq_true, if_false]
      exact facet_fold_invariant (exterior_facet_body a domains)
        (fun o => o.error = none ∨ o.error = some .assertion_failed)
        (exterior_facet_body_error a domains) _ _ (Or.inl rfl)
    · right; simp only [ho, Bool.not_false, if_true]; rfl

/-- The errors of the interior-facet pass: the facet-orientation error is raised in the
state the pass started in, exactly when there is an interior-facet integral, the mesh is
ordered and the orientation marker is rejected; every other error is a failed assertion. -/
theorem assemble_interior_facets_errors (a : Form R) (domains : Option MeshFunction)
    (s : AssemblyState R) :
    (a.interior_facet_integrals.length ≠ 0 ∧ a.mesh.ordered = true ∧
      facet_orientation_rejected a.mesh = true ∧
      assemble_interior_facets a domains s
        = Outcome.raised .facet_orientation_dimension s) ∨
    (¬ (a.interior_facet_integrals.length ≠ 0 ∧ a.mesh.ordered = true ∧
        facet_orientation_rejected a.mesh = true) ∧
      ((assemble_interior_facets a domains s).error = none ∨
        (assemble_interior_facets a domains s).error = some .assertion_failed)) := by
  unfold assemble_interior_facets
  by_cases h0 : a.interior_facet_integrals.length = 0
  · right; rw [if_pos h0]; exact ⟨fun h => h.1 h0, Or.inl rfl⟩
  · rw [if_neg h0]
    by_cases ho : a.mesh.ordered = true
    · simp only [ho, Bool.not_true, Bool.false_eq_true, if_false]
      by_cases hr : facet_orientation_rejected a.mesh = true
      · left; rw [if_pos hr]; exact ⟨h0, trivial, hr, rfl⟩
      · right; rw [if_neg hr]
        refine ⟨fun h => hr h.2.2, Or.inl ?_⟩
        exact facet_fold_invariant (interior_facet_body a domains) (fun o => o.error = none)
          (interior_facet_body_error a domains) _ _ rfl
    · right
      simp only [ho, Bool.not_false, if_true]
      exact ⟨fun h => absurd h.2.1 (by simp), Or.inr rfl⟩

end FacetErrors

/-! ## The logs of the passes -/

theorem log_extends_refl {R : Type} (P : Event → Bool) (s : AssemblyState R) :
    log_extends P s s :=
  ⟨[], by simp, fun _ h => absurd h (List.not_mem_nil _)⟩

theorem log_extends_trans {R : Type} (P : Event → Bool) (s1 s2 s3 : AssemblyState R)
    (h12 : log_extends P s1 s2) (h23 : log_extends P s2 s3) : log_extends P s1 s3 := by
  obtain ⟨e1, l1, p1⟩ := h12
  obtain ⟨e2, l2, p2⟩ := h23
  refine ⟨e1 ++ e2, by rw [l2, l1, List.append_assoc], ?_⟩
  intro e he
  rcases List.mem_append.mp he with h | h
  · exact p1 e h
  · exact p2 e h

/-- A facet loop whose body relates the state before to the state after, by a reflexive
and transitive relation, relates the first state to the last. -/
theorem facet_fold_rel {R K : Type}
    (body : Nat → Option K → AssemblyState R → Option K × Outcome R)
    (Rel : AssemblyState R → AssemblyState R → Prop)
    (hrefl : ∀ s, Rel s s) (htrans : ∀ s1 s2 s3, Rel s1 s2 → Rel s2 s3 → Rel s1 s3)
    (hbody : ∀ f i s, Rel s (body f i s).2.state) (facets : List Nat)
    (st : Option K × Outcome R) :
    Rel st.2.state (facets.foldl (facet_step body) st).2.state := by
  induction facets generalizing st with
  | nil => exact hrefl _
  | cons f rest ih =>
    rw [List.foldl_cons]
    refine htrans _ _ _ ?_ (ih _)
    unfold facet_step
    cases hst : st.2 with
    | done s => exact hbody f st.1 s
    | raised e s => exact hrefl _

section PassLogs
variable {R : Type} [AddCommMonoid R]

theorem cell_run_log (a : Form R) (k : CellIntegral R) (cells : List (Nat × Nat))
    (s s' : AssemblyState R) (h : cell_run a k cells s s') :
    log_extends Event.is_cell_event s s' := by
  refine ⟨_, h.1, ?_⟩
  intro e he
  simp only [List.mem_flatMap, cell_events, List.mem_cons, List.mem_singleton,
    List.not_mem_nil, or_false] at he
  obtain ⟨c, _, hc | hc⟩ := he
  · rw [hc]; rfl
  · rw [hc]; by_cases hb : buffered a s = true <;> simp [hb, Event.is_cell_event]

theorem assemble_cells_log (a : Form R)
    (domains : Option MeshFunction) (s : AssemblyState R) :
    log_extends Event.is_cell_event s (assemble_cells a domains s).state := by
  rcases assemble_cells_run a domains s with ⟨_, h⟩ | ⟨k, cells, _, h⟩
  · rw [h]; exact log_extends_refl _ s
  · exact cell_run_log a k cells _ _ h

theorem exterior_facet_body_log (a : Form R) (domains : Option MeshFunction) (facet : Nat)
    (integral : Option (ExteriorFacetIntegral R)) (s : AssemblyState R) :
    log_extends Event.is_exterior_event s
      (exterior_facet_body a domains facet integral s).2.state := by
  unfold exterior_facet_body
  by_cases hne : not_exterior a.mesh facet = true
  · simp only [hne, if_true]; exact log_extends_refl _ s
  · simp only [hne, if_false, Bool.false_eq_true]
    cases select_integral a.exterior_facet_integrals domains facet integral with
    | none => exact log_extends_refl _ s
    | some i =>
      cases i with
      | none => exact log_extends_refl _ s
      | some k =>
        by_cases hlen : (a.mesh.facet_cells facet).length ≠ 1
        · dsimp only; rw [if_pos hlen]; exact log_extends_refl _ s
        · dsimp only; rw [if_neg hlen]
          refine ⟨[.tabulate_exterior_facet ((a.mesh.facet_cells facet).getD 0 0)
            (a.mesh.local_facet ((a.mesh.facet_cells facet).getD 0 0) facet), .add], ?_, ?_⟩
          · simp [Outcome.state, AssemblyState.record]
          · intro e he
            simp only [List.mem_cons, List.mem_singleton, List.not_mem_nil, or_false] at he
            rcases he with h | h <;> rw [h] <;> rfl

theorem interior_facet_body_log (a : Form R) (domains : Option MeshFunction) (facet : Nat)
    (integral : Option (InteriorFacetIntegral R)) (s : AssemblyState R) :
    log_extends Event.is_interior_event s
      (interior_facet_body a domains facet integral s).2.state := by
  unfold interior_facet_body
  by_cases hne : (!a.mesh.interior facet) = true
  · simp only [hne, if_true]; exact log_extends_refl _ s
  · simp only [hne, if_false, Bool.false_eq_true]
    cases select_integral a.interior_facet_integrals domains facet integral with
    | none => exact log_extends_refl _ s
    | some i =>
      cases i with
      | none => exact log_extends_refl _ s
      | some k =>
        refine ⟨[.tabulate_interior_facet
            (a.mesh.adjacent_cells a.mesh.facet_orientation facet).1
            (a.mesh.adjacent_cells a.mesh.facet_orientation facet).2
            (a.mesh.local_facet (a.mesh.adjacent_cells a.mesh.facet_orientation facet).1 facet)
            (a.mesh.local_facet (a.mesh.adjacent_cells a.mesh.facet_orientation facet).2 facet),
          .add], ?_, ?_⟩
        · simp [Outcome.state, AssemblyState.record]
        · intro e he
          simp only [List.mem_cons, List.mem_singleton, List.not_mem_nil, or_false] at he
          rcases he with h | h <;> rw [h] <;> rfl

theorem assemble_exterior_facets_log (a : Form R) (domains : Option MeshFunction)
    (s : AssemblyState R) :
    log_extends Event.is_exterior_event s (assemble_exterior_facets a domains s).state := by
  unfold assemble_exterior_facets
  by_cases h0 : a.exterior_facet_integrals.length = 0
  · rw [if_pos h0]; exact log_extends_refl _ s
  · rw [if_neg h0]
    dsimp only
    by_cases ho : (!a.mesh.ordered) = true
    · rw [if_pos ho]; exact log_extends_refl _ s
    · rw [if_neg ho]
      exact facet_fold_rel (exterior_facet_body a domains) (log_extends Event.is_exterior_event)
        (log_extends_refl _) (log_extends_trans _) (exterior_facet_body_log a domains) _
        (a.exterior_facet_integrals.getD 0 none, Outcome.done s)

theorem assemble_interior_facets_log (a : Form R) (domains : Option MeshFunction)
    (s : AssemblyState R) :
    log_extends Event.is_interior_event s (assemble_interior_facets a domains s).state := by
  unfold assemble_interior_facets
  by_cases h0 : a.interior_facet_integrals.length = 0
  · rw [if_pos h0]; exact log_extends_refl _ s
  · rw [if_neg h0]
    dsimp only
    by_cases ho : (!a.mesh.ordered) = true
    · rw [if_pos ho]; exact log_extends_refl _ s
    · rw [if_neg ho]
      by_cases hr : facet_orientation_rejected a.mesh = true
      · rw [if_pos hr]; exact log_extends_refl _ s
      · rw [if_neg hr]
        exact facet_fold_rel (interior_facet_body a domains)
          (log_extends Event.is_interior_event)
          (log_extends_refl _) (log_extends_trans _) (interior_facet_body_log a domains) _
          (a.interior_facet_integrals.getD 0 none, Outcome.done s)

omit [AddCommMonoid R] in
theorem gather_coefficients_log (a : Form R) (s : AssemblyState R) :
    (gather_coefficients a s).log = s.log ++ (List.range a.num_coefficients).map Event.gather ∧
      (gather_coefficients a s).A = s.A ∧ (gather_coefficients a s).values = s.values := by
  unfold gather_coefficients
  induction a.num_coefficients with
  | zero => simp
  | succ n ih =>
    rw [List.range_succ, List.foldl_append, List.map_append]
    simp only [List.foldl_cons, List.foldl_nil, List.map_cons, List.map_nil]
    refine ⟨?_, ?_, ?_⟩
    · show (List.foldl _ s (List.range n)).log ++ [Event.gather n] = _
      rw [ih.1, List.append_assoc]
    · show (List.foldl _ s (List.range n)).A = _
      exact ih.2.1
    · show (List.foldl _ s (List.range n)).values = _
      exact ih.2.2

/-- A call of `assemble` that ends without error has run the three passes one after the
other, each ending normally, and then recorded the finalization. -/
theorem assemble_done (A : GenericTensor R) (a : Form R)
    (cell_domains exterior_facet_domains interior_facet_domains : Option MeshFunction)
    (reset_sparsity add_values : Bool)
    (h : (assemble A a cell_domains exterior_facet_domains interior_facet_domains
      reset_sparsity add_values).error = none) :
    a.check_ok = true ∧ ∃ s1 s2 s3,
      assemble_cells a cell_domains (initialized_state A a reset_sparsity add_values)
        = Outcome.done s1 ∧
      assemble_exterior_facets a exterior_facet_domains s1 = Outcome.done s2 ∧
      assemble_interior_facets a interior_facet_domains s2 = Outcome.done s3 ∧
      assemble A a cell_domains exterior_facet_domains interior_facet_domains
        reset_sparsity add_values = Outcome.done (s3.record .apply) := by
  unfold assemble at h ⊢
  by_cases hc : a.check_ok = true
  · refine ⟨hc, ?_⟩
    simp only [hc, Bool.not_true, Bool.false_eq_true, if_false] at h ⊢
    cases h1 : assemble_cells a cell_domains (initialized_state A a reset_sparsity add_values) with
    | raised e s1 => rw [h1] at h; simp [Outcome.andThen, Outcome.error] at h
    | done s1 =>
      rw [h1] at h
      cases h2 : assemble_exterior_facets a exterior_facet_domains s1 with
      | raised e s2 => simp [Outcome.andThen, h2, Outcome.error] at h
      | done s2 =>
        cases h3 : assemble_interior_facets a interior_facet_domains s2 with
        | raised e s3 => simp [Outcome.andThen, h2, h3, Outcome.error] at h
        | done s3 =>
          exact ⟨s1, s2, s3, rfl, h2, h3, by simp [Outcome.andThen, h2, h3]⟩
  · simp [hc, Outcome.error] at h

end PassLogs

/-! ## Colourings and the exterior-facet loop, facet by facet -/

theorem mem_global_indices_cons (d : List Nat) (ds : List (List Nat)) (idx : List Nat)
    (h : idx ∈ global_indices (d :: ds)) :
    ∃ g t, idx = g :: t ∧ g ∈ d ∧ t ∈ global_indices ds := by
  simp only [global_indices, List.mem_flatMap, List.mem_map] at h
  obtain ⟨g, hg, t, ht, he⟩ := h
  exact ⟨g, t, he.symm, hg, ht⟩

section ColouringLemmas
variable {R : Type} [AddCommMonoid R]

omit [AddCommMonoid R] in
theorem cell_dofs_cons (a : Form R) (h : 1 ≤ a.rank) (c : Nat) :
    ∃ rest, cell_dofs a c = (a.dofmap 0).cell_dofs c :: rest := by
  unfold cell_dofs
  obtain ⟨n, hn⟩ : ∃ n, a.rank = n + 1 := ⟨a.rank - 1, by omega⟩
  rw [hn, List.range_succ_eq_map]
  exact ⟨_, rfl⟩

/-- With a default kernel and all colour classes stored, the sequential cell pass returns
normally, whatever the classes are. -/
theorem assemble_cells_classes_done (a : Form R) (k : CellIntegral R)
    (classes : List (List Nat)) (s : AssemblyState R) :
    ∃ s', (classes.map some).foldl
        (fun (o : Outcome R) (oc : Option (List Nat)) => o.andThen (fun s1 =>
          match oc with
          | none => Outcome.raised .assertion_failed s1
          | some colored_cells =>
            assemble_cells_color a (some k) colored_cells
              (List.range colored_cells.length) s1))
        (Outcome.done s) = Outcome.done s' := by
  induction classes generalizing s with
  | nil => exact ⟨s, rfl⟩
  | cons cells rest ih =>
    obtain ⟨s1, h1, _⟩ :=
      assemble_cells_color_some a k cells (List.range cells.length) s
    obtain ⟨s2, h2⟩ := ih s1
    refine ⟨s2, ?_⟩
    simp only [List.map_cons, List.foldl_cons, Outcome.andThen, h1]
    exact h2

theorem exterior_facet_body_processes (a : Form R) (domains : Option MeshFunction)
    (facet : Nat) (integral : Option (ExteriorFacetIntegral R)) (s : AssemblyState R)
    (hcells : (a.mesh.facet_cells facet).length = 1 ∨ (a.mesh.facet_cells facet).length = 2)
    (hinv : MeshFunction.supplied domains = true ∨
      integral = a.exterior_facet_integrals.getD 0 none) :
    ∃ integral' s', exterior_facet_body a domains facet integral s = (integral', Outcome.done s') ∧
      (MeshFunction.supplied domains = true ∨
        integral' = a.exterior_facet_integrals.getD 0 none) ∧
      s'.log = s.log ++ exterior_facet_events a domains facet := by
  have hreg := select_integral_registered a.exterior_facet_integrals domains facet integral hinv
  unfold exterior_facet_body exterior_facet_events
  by_cases hne : not_exterior a.mesh facet = true
  · exact ⟨integral, s, by simp [hne], hinv, by simp [hne]⟩
  · have hlen : (a.mesh.facet_cells facet).length = 1 := by
      rcases hcells with h | h
      · exact h
      · exact absurd (by simp [not_exterior, h]) hne
    simp only [hne, if_false, Bool.false_eq_true]
    rw [← hreg]
    cases hsel : select_integral a.exterior_facet_integrals domains facet integral with
    | none => exact ⟨integral, s, rfl, hinv, by simp [Option.join]⟩
    | some i =>
      have hkeep := select_integral_keeps _ domains facet integral i hinv hsel
      cases i with
      | none => exact ⟨none, s, rfl, hkeep, by simp [Option.join]⟩
      | some k =>
        refine ⟨some k, _, by simp only [hlen, ne_eq, not_true_eq_false, if_false]; rfl, hkeep, ?_⟩
        simp [AssemblyState.record, Option.join]

theorem exterior_facets_fold_log (a : Form R) (domains : Option MeshFunction)
    (facets : List Nat)
    (hcells : ∀ f ∈ facets,
      (a.mesh.facet_cells f).length = 1 ∨ (a.mesh.facet_cells f).length = 2)
    (integral : Option (ExteriorFacetIntegral R)) (s : AssemblyState R)
    (hinv : MeshFunction.supplied domains = true ∨
      integral = a.exterior_facet_integrals.getD 0 none) :
    ∃ integral' s', facets.foldl (facet_step (exterior_facet_body a domains))
        (integral, Outcome.done s) = (integral', Outcome.done s') ∧
      s'.log = s.log ++ facets.flatMap (exterior_facet_events a domains) := by
  induction facets generalizing integral s with
  | nil => exact ⟨integral, s, rfl, by simp⟩
  | cons f rest ih =>
    obtain ⟨i1, s1, h1, hinv1, hl1⟩ :=
      exterior_facet_body_processes a domains f integral s
        (hcells f (List.mem_cons_self _ _)) hinv
    obtain ⟨i2, s2, h2, hl2⟩ :=
      ih (fun g hg => hcells g (List.mem_cons_of_mem _ hg)) i1 s1 hinv1
    refine ⟨i2, s2, ?_, ?_⟩
    · simp only [List.foldl_cons, facet_step, h1]
      exact h2
    · rw [hl2, hl1, List.flatMap_cons, List.append_assoc]

end ColouringLemmas

/-! ## Sound colourings exclude races -/

section SoundTeams
variable {R : Type} [AddCommMonoid R]

omit [AddCommMonoid R] in
/-- With a form of rank at least 1 and stored colour classes that are free of repetitions
and sound for the dof maps of the form, no assignment of the cells of a class to workers
lets two workers address a common entry of the tensor. -/
theorem race_free_of_sound (a : Form R) (exec : Nat → Execution) (classes : List (List Nat))
    (hr : 1 ≤ a.rank) (hc : stored_classes a.mesh = classes.map some)
    (hs : coloring_sound a classes) (hn : ∀ cls ∈ classes, cls.Nodup)
    (hva : valid_assignment a.mesh exec) : race_free a exec := by
  intro color hcol cells hcells
  have hsome : a.mesh.colored_cells color = some cells := hcells
  have hmem : cells ∈ classes := by
    have h1 : some cells ∈ stored_classes a.mesh := by
      unfold stored_classes
      exact List.mem_map.mpr ⟨color, List.mem_range.mpr hcol, hsome⟩
    rw [hc] at h1
    obtain ⟨c, hc1, hc2⟩ := List.mem_map.mp h1
    rw [← Option.some.inj hc2]
    exact hc1
  have hperm := hva color hcol cells hcells
  have hnd : (exec color).assignment.flatten.Nodup :=
    hperm.nodup_iff.mpr (List.nodup_range _)
  have hlt : ∀ l ∈ (exec color).assignment, ∀ i ∈ l, i < cells.length := by
    intro l hl i hi
    exact List.mem_range.mp (hperm.subset (List.mem_flatten.mpr ⟨l, hl, hi⟩))
  refine List.Pairwise.imp_of_mem ?_ (List.nodup_flatten.mp hnd).2
  intro l1 l2 hl1 hl2 hdis i hi j hj idx hidx1 hidx2
  have hij : i ≠ j := fun e => hdis hi (e ▸ hj)
  have hi' := hlt l1 hl1 i hi
  have hj' := hlt l2 hl2 j hj
  have e1 : cells.getD i 0 = cells[i] := by
    rw [List.getD_eq_getElem?_getD, List.getElem?_eq_getElem hi']; rfl
  have e2 : cells.getD j 0 = cells[j] := by
    rw [List.getD_eq_getElem?_getD, List.getElem?_eq_getElem hj']; rfl
  have hne : cells.getD i 0 ≠ cells.getD j 0 := by
    rw [e1, e2]
    exact fun e => hij (((hn cells hmem).getElem_inj_iff).mp e)
  have m1 : cells.getD i 0 ∈ cells := by rw [e1]; exact List.getElem_mem _
  have m2 : cells.getD j 0 ∈ cells := by rw [e2]; exact List.getElem_mem _
  obtain ⟨r1, q1⟩ := cell_dofs_cons a hr (cells.getD i 0)
  obtain ⟨r2, q2⟩ := cell_dofs_cons a hr (cells.getD j 0)
  have hidx1' : idx ∈ global_indices (cell_dofs a (cells.getD i 0)) := hidx1
  have hidx2' : idx ∈ global_indices (cell_dofs a (cells.getD j 0)) := hidx2
  rw [q1] at hidx1'
  rw [q2] at hidx2'
  obtain ⟨g1, t1, he1, hg1, _⟩ := mem_global_indices_cons _ _ _ hidx1'
  obtain ⟨g2, t2, he2, hg2, _⟩ := mem_global_indices_cons _ _ _ hidx2'
  have hg : g1 = g2 := by
    rw [he1] at he2
    exact (List.cons.inj he2).1
  rw [← hg] at hg2
  exact hs cells hmem _ m1 _ m2 hne 0 (by omega) g1 hg1 hg2

omit [AddCommMonoid R] in
/-- A team of at most one worker has no two workers that address a common entry. -/
theorem race_free_of_one_worker (a : Form R) (exec : Nat → Execution)
    (h : ∀ color, (exec color).assignment.length ≤ 1) : race_free a exec := by
  intro color _ cells _
  have hl := h color
  cases he : (exec color).assignment with
  | nil => exact List.Pairwise.nil
  | cons l rest =>
    cases rest with
    | nil => exact List.pairwise_singleton _ _
    | cons l2 rest2 =>
      rw [he] at hl
      simp at hl

end SoundTeams

/-! ## The cell pass on the stored colour classes, cell by cell -/

section ClassRuns
variable {R : Type} [AddCommMonoid R]

end ClassRuns

/-! ## Lemmas on the loops of `UnitCubeMesh` -/

/-- A loop of `n` iterations whose body advances a counter by `w` advances it by `n * w`,
as long as the counter stays below the bound `B`. -/
theorem foldl_range_counting {σ : Type} (Inv : Nat → σ → Prop) (g : σ → Nat → σ) (w B n : Nat)
    (hg : ∀ i c st, i < n → Inv c st → c + w ≤ B → Inv (c + w) (g st i))
    (c : Nat) (st : σ) (h0 : Inv c st) (hB : c + n * w ≤ B) :
    Inv (c + n * w) ((List.range n).foldl g st) := by
  induction n with
  | zero => simpa using h0
  | succ n ih =>
    rw [List.range_succ, List.foldl_append]
    have hle : c + n * w + w ≤ B := by
      have : (n + 1) * w = n * w + w := Nat.succ_mul n w
      omega
    have h1 := ih (fun i c st hi => hg i c st (Nat.lt_succ_of_lt hi)) (by omega)
    have h2 := hg n _ _ (Nat.lt_succ_self n) h1 hle
    have he : c + (n + 1) * w = c + n * w + w := by
      rw [Nat.succ_mul]; omega
    rw [he]
    exact h2

/-- A loop whose body appends `h x` to a list of the state appends them all, in order. -/
theorem foldl_appends {σ α β : Type} (proj : σ → List β) (g : σ → α → σ) (h : α → List β)
    (hg : ∀ st x, proj (g st x) = proj st ++ h x) (l : List α) (st : σ) :
    proj (l.foldl g st) = proj st ++ l.flatMap h := by
  induction l generalizing st with
  | nil => simp
  | cons x xs ih =>
    rw [List.foldl_cons, ih, hg, List.flatMap_cons, List.append_assoc]

/-- A loop whose body keeps a component of the state keeps it. -/
theorem foldl_keeps {σ α β : Type} (proj : σ → β) (g : σ → α → σ)
    (hg : ∀ st x, proj (g st x) = proj st) (l : List α) (st : σ) :
    proj (l.foldl g st) = proj st := by
  induction l generalizing st with
  | nil => rfl
  | cons x xs ih => rw [List.foldl_cons, ih, hg]

theorem size_t_of_lt (n : Nat) (h : n < 2 ^ 64) : size_t n = n := Nat.mod_eq_of_lt h

theorem vertex_body_numbered (nx : Nat) (x1 x2 : ℚ) (i c : Nat) (st : MeshEditor × Nat)
    (h : vertices_numbered c st) (hB : c + 1 ≤ 2 ^ 64 - 1) :
    vertices_numbered (c + 1) (vertex_body nx x1 x2 st i) := by
  obtain ⟨h1, h2⟩ := h
  refine ⟨?_, ?_⟩
  · show size_t (st.2 + 1) = c + 1
    rw [h1]
    exact size_t_of_lt _ (by omega)
  · show (st.1.vertices ++ [(st.2, _)]).map Prod.fst = List.range (c + 1)
    rw [List.map_append, h2, h1, List.range_succ]
    rfl

theorem create_vertices_numbered (nx ny nz : Nat) (st : MeshEditor × Nat)
    (h : vertices_numbered 0 st) (hB : (nx + 1) * (ny + 1) * (nz + 1) < 2 ^ 64) :
    vertices_numbered ((nx + 1) * (ny + 1) * (nz + 1)) (create_vertices nx ny nz st) := by
  have key := foldl_range_counting vertices_numbered (vertex_plane nx ny nz)
    ((ny + 1) * ((nx + 1) * 1)) (2 ^ 64 - 1) (nz + 1)
    (fun iz c st1 _ h1 hB1 =>
      foldl_range_counting vertices_numbered (vertex_row nx ny _) ((nx + 1) * 1) (2 ^ 64 - 1)
        (ny + 1)
        (fun iy c2 st2 _ h2 hB2 =>
          foldl_range_counting vertices_numbered (vertex_body nx _ _) 1 (2 ^ 64 - 1) (nx + 1)
            (fun ix c3 st3 _ h3 hB3 => vertex_body_numbered nx _ _ ix c3 st3 h3 hB3)
            c2 st2 h2 hB2)
        c st1 h1 hB1)
    0 st h
    (by
      have : (nz + 1) * ((ny + 1) * ((nx + 1) * 1)) = (nx + 1) * (ny + 1) * (nz + 1) := by ring
      omega)
  have he : 0 + (nz + 1) * ((ny + 1) * ((nx + 1) * 1)) = (nx + 1) * (ny + 1) * (nz + 1) := by
    ring
  rw [he] at key
  exact key

theorem add_next_cell_numbered (c : Nat) (st : MeshEditor × Nat) (cells : List Nat)
    (h : cells_numbered c st) (hB : c + 1 ≤ 2 ^ 64 - 1) :
    cells_numbered (c + 1) (add_next_cell st cells) := by
  obtain ⟨h1, h2⟩ := h
  refine ⟨?_, ?_⟩
  · show size_t (st.2 + 1) = c + 1
    rw [h1]
    exact size_t_of_lt _ (by omega)
  · show (st.1.cells ++ [(st.2, cells)]).map Prod.fst = List.range (c + 1)
    rw [List.map_append, h2, h1, List.range_succ]
    rfl

theorem add_cells_numbered (l : List (List Nat)) (c : Nat) (st : MeshEditor × Nat)
    (h : cells_numbered c st) (hB : c + l.length ≤ 2 ^ 64 - 1) :
    cells_numbered (c + l.length) (l.foldl add_next_cell st) := by
  induction l generalizing c st with
  | nil => exact h
  | cons x xs ih =>
    rw [List.length_cons] at hB
    have h1 := add_next_cell_numbered c st x h (by omega)
    have h2 := ih (c + 1) _ h1 (by omega)
    rw [List.foldl_cons, List.length_cons]
    have he : c + (xs.length + 1) = c + 1 + xs.length := by omega
    rw [he]
    exact h2

theorem cell_body_numbered (nx ny iz iy ix c : Nat) (st : MeshEditor × Nat)
    (h : cells_numbered c st) (hB : c + 6 ≤ 2 ^ 64 - 1) :
    cells_numbered (c + 6) (cell_body nx ny iz iy st ix) := by
  have hlen : (box_cells nx ny (size_t (iz * (nx + 1) * (ny + 1) + iy * (nx + 1) + ix))).length
      = 6 := rfl
  have := add_cells_numbered
    (box_cells nx ny (size_t (iz * (nx + 1) * (ny + 1) + iy * (nx + 1) + ix))) c st h
    (by rw [hlen]; exact hB)
  rw [hlen] at this
  exact this

theorem create_cells_numbered (nx ny nz : Nat) (st : MeshEditor × Nat)
    (h : cells_numbered 0 st) (hB : 6 * nx * ny * nz < 2 ^ 64) :
    cells_numbered (6 * nx * ny * nz) (create_cells nx ny nz st) := by
  have key := foldl_range_counting cells_numbered (cell_plane nx ny)
    (ny * (nx * 6)) (2 ^ 64 - 1) nz
    (fun iz c st1 _ h1 hB1 =>
      foldl_range_counting cells_numbered (cell_row nx ny iz) (nx * 6) (2 ^ 64 - 1) ny
        (fun iy c2 st2 _ h2 hB2 =>
          foldl_range_counting cells_numbered (cell_body nx ny iz iy) 6 (2 ^ 64 - 1) nx
            (fun ix c3 st3 _ h3 hB3 => cell_body_numbered nx ny iz iy ix c3 st3 h3 hB3)
            c2 st2 h2 hB2)
        c st1 h1 hB1)
    0 st h
    (by
      have : nz * (ny * (nx * 6)) = 6 * nx * ny * nz := by ring
      omega)
  have he : 0 + nz * (ny * (nx * 6)) = 6 * nx * ny * nz := by ring
  rw [he] at key
  exact key

theorem create_vertices_keeps (nx ny nz : Nat) (st : MeshEditor × Nat) :
    vertex_frame (create_vertices nx ny nz st) = vertex_frame st :=
  foldl_keeps vertex_frame (vertex_plane nx ny nz) (fun st1 _ =>
    foldl_keeps vertex_frame (vertex_row nx ny _) (fun st2 _ =>
      foldl_keeps vertex_frame (vertex_body nx _ _) (fun _ _ => rfl) _ st2) _ st1) _ st

theorem cell_body_keeps (nx ny iz iy ix : Nat) (st : MeshEditor × Nat) :
    cell_frame (cell_body nx ny iz iy st ix) = cell_frame st :=
  foldl_keeps cell_frame add_next_cell (fun _ _ => rfl) _ st

theorem create_cells_keeps (nx ny nz : Nat) (st : MeshEditor × Nat) :
    cell_frame (create_cells nx ny nz st) = cell_frame st :=
  foldl_keeps cell_frame (cell_plane nx ny) (fun st1 iz =>
    foldl_keeps cell_frame (cell_row nx ny iz) (fun st2 iy =>
      foldl_keeps cell_frame (cell_body nx ny iz iy)
        (fun st3 ix => cell_body_keeps nx ny iz iy ix st3) _ st2) _ st1) _ st

theorem add_cells_stored (l : List (List Nat)) (st : MeshEditor × Nat) :
    (l.foldl add_next_cell st).1.cells.map Prod.snd = st.1.cells.map Prod.snd ++ l := by
  induction l generalizing st with
  | nil => simp
  | cons x xs ih =>
    rw [List.foldl_cons, ih]
    show (st.1.cells ++ [(st.2, x)]).map Prod.snd ++ xs = _
    simp

/-- The cells added, without their indices: the six cells of every box, box after box. -/
theorem create_cells_stored (nx ny nz : Nat) (st : MeshEditor × Nat) :
    (create_cells nx ny nz st).1.cells.map Prod.snd
      = st.1.cells.map Prod.snd ++
        (List.range nz).flatMap (fun iz => (List.range ny).flatMap (fun iy =>
          (List.range nx).flatMap (fun ix =>
            box_cells nx ny (size_t (iz * (nx + 1) * (ny + 1) + iy * (nx + 1) + ix))))) :=
  foldl_appends (fun (st : MeshEditor × Nat) => st.1.cells.map Prod.snd) (cell_plane nx ny) _
    (fun st1 iz =>
      foldl_appends (fun (st : MeshEditor × Nat) => st.1.cells.map Prod.snd)
        (cell_row nx ny iz) _
        (fun st2 iy =>
          foldl_appends (fun (st : MeshEditor × Nat) => st.1.cells.map Prod.snd)
            (cell_body nx ny iz iy) _
            (fun st3 _ => add_cells_stored _ st3) _ st2) _ st1) _ st

/-- The last corner of a box is a vertex of the mesh. -/
theorem box_corner_bound (nx ny nz ix iy iz : Nat) (hx : ix < nx) (hy : iy < ny)
    (hz : iz < nz) :
    iz * (nx + 1) * (ny + 1) + iy * (nx + 1) + ix + (nx + 1) * (ny + 1) + (nx + 1) + 1
      < (nx + 1) * (ny + 1) * (nz + 1) := by
  have h1 : (iz + 1) * ((nx + 1) * (ny + 1)) ≤ nz * ((nx + 1) * (ny + 1)) :=
    Nat.mul_le_mul_right _ hz
  have h2 : (iy + 1) * (nx + 1) ≤ ny * (nx + 1) := Nat.mul_le_mul_right _ hy
  have e1 : (iz + 1) * ((nx + 1) * (ny + 1))
      = iz * (nx + 1) * (ny + 1) + (nx + 1) * (ny + 1) := by ring
  have e2 : (iy + 1) * (nx + 1) = iy * (nx + 1) + (nx + 1) := by ring
  have e3 : (nx + 1) * (ny + 1) * (nz + 1)
      = nz * ((nx + 1) * (ny + 1)) + ny * (nx + 1) + nx + 1 := by ring
  rw [e1] at h1
  rw [e2] at h2
  rw [e3]
  omega

/-- The six cells of a box whose corners do not wrap, with `K = (nx + 1) * (ny + 1)`. -/
theorem box_cells_eq (nx ny v0 : Nat) (h : v0 + (nx + 1) * (ny + 1) + (nx + 1) + 1 < 2 ^ 64) :
    box_cells nx ny v0
      = [[v0, v0 + 1, v0 + 1 + (nx + 1), v0 + 1 + (nx + 1) + (nx + 1) * (ny + 1)],
         [v0, v0 + 1, v0 + 1 + (nx + 1) + (nx + 1) * (ny + 1), v0 + 1 + (nx + 1) * (ny + 1)],
         [v0, v0 + 1 + (nx + 1) * (ny + 1), v0 + 1 + (nx + 1) + (nx + 1) * (ny + 1),
           v0 + (nx + 1) * (ny + 1)],
         [v0, v0 + 1 + (nx + 1), v0 + (nx + 1), v0 + 1 + (nx + 1) + (nx + 1) * (ny + 1)],
         [v0, v0 + (nx + 1) + (nx + 1) * (ny + 1), v0 + (nx + 1) * (ny + 1),
           v0 + 1 + (nx + 1) + (nx + 1) * (ny + 1)],
         [v0, v0 + (nx + 1), v0 + (nx + 1) + (nx + 1) * (ny + 1),
           v0 + 1 + (nx + 1) + (nx + 1) * (ny + 1)]] := by
  have s1 : size_t (v0 + 1) = v0 + 1 := size_t_of_lt _ (by omega)
  have s2 : size_t (v0 + (nx + 1)) = v0 + (nx + 1) := size_t_of_lt _ (by omega)
  have s3 : size_t (v0 + 1 + (nx + 1)) = v0 + 1 + (nx + 1) := size_t_of_lt _ (by omega)
  have s4 : size_t (v0 + (nx + 1) * (ny + 1)) = v0 + (nx + 1) * (ny + 1) :=
    size_t_of_lt _ (by omega)
  have s5 : size_t (v0 + 1 + (nx + 1) * (ny + 1)) = v0 + 1 + (nx + 1) * (ny + 1) :=
    size_t_of_lt _ (by omega)
  have s6 : size_t (v0 + (nx + 1) + (nx + 1) * (ny + 1)) = v0 + (nx + 1) + (nx + 1) * (ny + 1) :=
    size_t_of_lt _ (by omega)
  have s7 : size_t (v0 + 1 + (nx + 1) + (nx + 1) * (ny + 1))
      = v0 + 1 + (nx + 1) + (nx + 1) * (ny + 1) := size_t_of_lt _ (by omega)
  unfold box_cells
  simp only [s1, s2, s3, s4, s5, s6, s7]

theorem build_mesh_counts (nx ny nz : Nat) (hv : (nx + 1) * (ny + 1) * (nz + 1) < 2 ^ 64)
    (hc : 6 * nx * ny * nz < 2 ^ 64) :
    (build_mesh nx ny nz).num_vertices = (nx + 1) * (ny + 1) * (nz + 1) ∧
      (build_mesh nx ny nz).vertices.map Prod.fst
        = List.range ((nx + 1) * (ny + 1) * (nz + 1)) ∧
      (build_mesh nx ny nz).num_cells = 6 * nx * ny * nz ∧
      (build_mesh nx ny nz).cells.map Prod.fst = List.range (6 * nx * ny * nz) := by
  unfold build_mesh
  dsimp only
  generalize hs1 : create_vertices nx ny nz
    (MeshEditor.empty.init_vertices (size_t ((nx + 1) * (ny + 1) * (nz + 1))), 0) = st1
  have hv1 := create_vertices_numbered nx ny nz
    (MeshEditor.empty.init_vertices (size_t ((nx + 1) * (ny + 1) * (nz + 1))), 0) ⟨rfl, rfl⟩ hv
  have hk1 := create_vertices_keeps nx ny nz
    (MeshEditor.empty.init_vertices (size_t ((nx + 1) * (ny + 1) * (nz + 1))), 0)
  rw [hs1] at hv1 hk1
  generalize hs2 : create_cells nx ny nz (st1.1.init_cells (size_t (6 * nx * ny * nz)), 0) = st2
  have hcells0 : st1.1.cells = [] := congrArg (fun t => t.1) hk1
  have hnv : st1.1.num_vertices = size_t ((nx + 1) * (ny + 1) * (nz + 1)) :=
    congrArg (fun t => t.2.1) hk1
  have hc2 := create_cells_numbered nx ny nz (st1.1.init_cells (size_t (6 * nx * ny * nz)), 0)
    ⟨rfl, by show (st1.1.cells).map Prod.fst = List.range 0; rw [hcells0]; rfl⟩ hc
  have hk2 := create_cells_keeps nx ny nz (st1.1.init_cells (size_t (6 * nx * ny * nz)), 0)
  rw [hs2] at hc2 hk2
  have hverts : st2.1.vertices = st1.1.vertices := congrArg (fun t => t.1) hk2
  have hnv2 : st2.1.num_vertices = st1.1.num_vertices := congrArg (fun t => t.2.1) hk2
  have hnc2 : st2.1.num_cells = size_t (6 * nx * ny * nz) := congrArg (fun t => t.2.2) hk2
  refine ⟨?_, ?_, ?_, hc2.2⟩
  · rw [hnv2, hnv, size_t_of_lt _ hv]
  · rw [hverts]; exact hv1.2
  · rw [hnc2, size_t_of_lt _ hc]

theorem unit_cube_built (nx ny nz : Nat) (is_broadcaster : Bool)
    (hx : 1 ≤ nx) (hy : 1 ≤ ny) (hz : 1 ≤ nz) :
    UnitCubeMesh nx ny nz false is_broadcaster
      = .built (build_mesh nx ny nz) is_broadcaster := by
  unfold UnitCubeMesh
  have hn : ¬ (nx < 1 ∨ ny < 1 ∨ nz < 1) := by omega
  rw [if_neg Bool.false_ne_true, if_neg hn]

/-! ## Lemmas on the vertices of the unit cube mesh -/

/-- The loop invariant rule for a counted loop. -/
theorem foldl_range_invariant {σ : Type} (P : Nat → σ → Prop) (g : σ → Nat → σ) (n : Nat)
    (st : σ) (h0 : P 0 st) (hstep : ∀ i st, i < n → P i st → P (i + 1) (g st i)) :
    P n ((List.range n).foldl g st) := by
  induction n with
  | zero => exact h0
  | succ n ih =>
    rw [List.range_succ, List.foldl_append]
    exact hstep n _ (Nat.lt_succ_self n)
      (ih (fun i st hi => hstep i st (Nat.lt_succ_of_lt hi)))

theorem grid_index_mod (nx ny ix iy iz : Nat) (hx : ix < nx + 1) :
    grid_index nx ny ix iy iz % (nx + 1) = ix := by
  have e : grid_index nx ny ix iy iz = ix + (nx + 1) * (iz * (ny + 1) + iy) := by
    unfold grid_index; ring
  rw [e, Nat.add_mul_mod_self_left, Nat.mod_eq_of_lt hx]

theorem grid_index_div (nx ny ix iy iz : Nat) (hx : ix < nx + 1) :
    grid_index nx ny ix iy iz / (nx + 1) = iz * (ny + 1) + iy := by
  have e : grid_index nx ny ix iy iz = ix + (nx + 1) * (iz * (ny + 1) + iy) := by
    unfold grid_index; ring
  rw [e, Nat.add_mul_div_left _ _ (Nat.succ_pos nx), Nat.div_eq_of_lt hx, Nat.zero_add]

theorem grid_vertex_index (nx ny nz ix iy iz : Nat) (hx : ix < nx + 1) (hy : iy < ny + 1) :
    grid_vertex nx ny nz (grid_index nx ny ix iy iz)
      = (grid_index nx ny ix iy iz, grid_point nx ny nz ix iy iz) := by
  unfold grid_vertex
  have h1 := grid_index_mod nx ny ix iy iz hx
  have h2 := grid_index_div nx ny ix iy iz hx
  have h3 : (iz * (ny + 1) + iy) % (ny + 1) = iy := by
    rw [Nat.add_comm, Nat.add_mul_mod_self_right, Nat.mod_eq_of_lt hy]
  have h4 : grid_index nx ny ix iy iz / ((nx + 1) * (ny + 1)) = iz := by
    rw [← Nat.div_div_eq_div_mul, h2, Nat.add_comm,
      Nat.add_mul_div_right _ _ (Nat.succ_pos ny), Nat.div_eq_of_lt hy, Nat.zero_add]
  rw [h1, h2, h3, h4]

theorem grid_index_lt (nx ny nz ix iy iz : Nat) (hx : ix < nx + 1) (hy : iy < ny + 1)
    (hz : iz < nz + 1) :
    grid_index nx ny ix iy iz < (nx + 1) * (ny + 1) * (nz + 1) := by
  unfold grid_index
  have h1 : (iz + 1) * ((nx + 1) * (ny + 1)) ≤ (nz + 1) * ((nx + 1) * (ny + 1)) :=
    Nat.mul_le_mul_right _ hz
  have h2 : (iy + 1) * (nx + 1) ≤ (ny + 1) * (nx + 1) := Nat.mul_le_mul_right _ hy
  have e1 : (iz + 1) * ((nx + 1) * (ny + 1))
      = iz * (nx + 1) * (ny + 1) + (nx + 1) * (ny + 1) := by ring
  have e2 : (iy + 1) * (nx + 1) = iy * (nx + 1) + (nx + 1) := by ring
  have e3 : (nx + 1) * (ny + 1) * (nz + 1) = (nz + 1) * ((nx + 1) * (ny + 1)) := by ring
  have e4 : (ny + 1) * (nx + 1) = (nx + 1) * (ny + 1) := by ring
  rw [e1] at h1
  rw [e2, e4] at h2
  rw [e3]
  omega

/-- The counter `vertex` equals `c` and the vertices added are the first `c` vertices of
the grid. -/
theorem vertex_body_grid (nx ny nz ix iy iz : Nat) (st : MeshEditor × Nat)
    (hx : ix < nx + 1) (hy : iy < ny + 1) (hz : iz < nz + 1)
    (hB : (nx + 1) * (ny + 1) * (nz + 1) < 2 ^ 64)
    (h : st.2 = grid_index nx ny ix iy iz ∧
      st.1.vertices = (List.range (grid_index nx ny ix iy iz)).map (grid_vertex nx ny nz)) :
    (vertex_body nx ((iy : ℚ) / (ny : ℚ)) ((iz : ℚ) / (nz : ℚ)) st ix).2
        = grid_index nx ny ix iy iz + 1 ∧
      (vertex_body nx ((iy : ℚ) / (ny : ℚ)) ((iz : ℚ) / (nz : ℚ)) st ix).1.vertices
        = (List.range (grid_index nx ny ix iy iz + 1)).map (grid_vertex nx ny nz) := by
  obtain ⟨h1, h2⟩ := h
  have hlt := grid_index_lt nx ny nz ix iy iz hx hy hz
  refine ⟨?_, ?_⟩
  · show size_t (st.2 + 1) = _
    rw [h1]
    exact size_t_of_lt _ (by omega)
  · show st.1.vertices ++ [(st.2, [(ix : ℚ) / (nx : ℚ), (iy : ℚ) / (ny : ℚ),
      (iz : ℚ) / (nz : ℚ)])] = _
    rw [h2, h1, List.range_succ, List.map_append, List.map_cons, List.map_nil,
      grid_vertex_index nx ny nz ix iy iz hx hy]
    rfl

theorem vertex_row_grid (nx ny nz iy iz : Nat) (st : MeshEditor × Nat)
    (hy : iy < ny + 1) (hz : iz < nz + 1) (hB : (nx + 1) * (ny + 1) * (nz + 1) < 2 ^ 64)
    (h : st.2 = grid_index nx ny 0 iy iz ∧
      st.1.vertices = (List.range (grid_index nx ny 0 iy iz)).map (grid_vertex nx ny nz)) :
    (vertex_row nx ny ((iz : ℚ) / (nz : ℚ)) st iy).2 = grid_index nx ny 0 (iy + 1) iz ∧
      (vertex_row nx ny ((iz : ℚ) / (nz : ℚ)) st iy).1.vertices
        = (List.range (grid_index nx ny 0 (iy + 1) iz)).map (grid_vertex nx ny nz) := by
  have key := foldl_range_invariant
    (fun ix (st : MeshEditor × Nat) => st.2 = grid_index nx ny ix iy iz ∧
      st.1.vertices = (List.range (grid_index nx ny ix iy iz)).map (grid_vertex nx ny nz))
    (vertex_body nx ((iy : ℚ) / (ny : ℚ)) ((iz : ℚ) / (nz : ℚ))) (nx + 1) st h
    (fun ix st1 hx h1 => vertex_body_grid nx ny nz ix iy iz st1 hx hy hz hB h1)
  have e : grid_index nx ny (nx + 1) iy iz = grid_index nx ny 0 (iy + 1) iz := by
    unfold grid_index; ring
  dsimp only at key
  rw [e] at key
  exact key

theorem vertex_plane_grid (nx ny nz iz : Nat) (st : MeshEditor × Nat)
    (hz : iz < nz + 1) (hB : (nx + 1) * (ny + 1) * (nz + 1) < 2 ^ 64)
    (h : st.2 = grid_index nx ny 0 0 iz ∧
      st.1.vertices = (List.range (grid_index nx ny 0 0 iz)).map (grid_vertex nx ny nz)) :
    (vertex_plane nx ny nz st iz).2 = grid_index nx ny 0 0 (iz + 1) ∧
      (vertex_plane nx ny nz st iz).1.vertices
        = (List.range (grid_index nx ny 0 0 (iz + 1))).map (grid_vertex nx ny nz) := by
  have key := foldl_range_invariant
    (fun iy (st : MeshEditor × Nat) => st.2 = grid_index nx ny 0 iy iz ∧
      st.1.vertices = (List.range (grid_index nx ny 0 iy iz)).map (grid_vertex nx ny nz))
    (vertex_row nx ny ((iz : ℚ) / (nz : ℚ))) (ny + 1) st h
    (fun iy st1 hy h1 => vertex_row_grid nx ny nz iy iz st1 hy hz hB h1)
  have e : grid_index nx ny 0 (ny + 1) iz = grid_index nx ny 0 0 (iz + 1) := by
    unfold grid_index; ring
  dsimp only at key
  rw [e] at key
  exact key

/-- The vertices added are the vertices of the grid, in the order of their indices. -/
theorem create_vertices_grid (nx ny nz : Nat) (e : MeshEditor)
    (he : e.vertices = []) (hB : (nx + 1) * (ny + 1) * (nz + 1) < 2 ^ 64) :
    (create_vertices nx ny nz (e, 0)).1.vertices
      = (List.range ((nx + 1) * (ny + 1) * (nz + 1))).map (grid_vertex nx ny nz) := by
  have key := foldl_range_invariant
    (fun iz (st : MeshEditor × Nat) => st.2 = grid_index nx ny 0 0 iz ∧
      st.1.vertices = (List.range (grid_index nx ny 0 0 iz)).map (grid_vertex nx ny nz))
    (vertex_plane nx ny nz) (nz + 1) (e, 0)
    ⟨by simp [grid_index], by simp [grid_index, he]⟩
    (fun iz st1 hz h1 => vertex_plane_grid nx ny nz iz st1 hz hB h1)
  have e1 : grid_index nx ny 0 0 (nz + 1) = (nx + 1) * (ny + 1) * (nz + 1) := by
    unfold grid_index; ring
  dsimp only at key
  rw [e1] at key
  exact key.2

theorem build_mesh_vertices (nx ny nz : Nat) (hB : (nx + 1) * (ny + 1) * (nz + 1) < 2 ^ 64) :
    (build_mesh nx ny nz).vertices
      = (List.range ((nx + 1) * (ny + 1) * (nz + 1))).map (grid_vertex nx ny nz) := by
  unfold build_mesh
  dsimp only
  have hk := create_cells_keeps nx ny nz
    ((create_vertices nx ny nz
      (MeshEditor.empty.init_vertices (size_t ((nx + 1) * (ny + 1) * (nz + 1))), 0)).1.init_cells
        (size_t (6 * nx * ny * nz)), 0)
  have hv : (create_cells nx ny nz
      ((create_vertices nx ny nz
        (MeshEditor.empty.init_vertices (size_t ((nx + 1) * (ny + 1) * (nz + 1))), 0)).1.init_cells
          (size_t (6 * nx * ny * nz)), 0)).1.vertices
      = (create_vertices nx ny nz
        (MeshEditor.empty.init_vertices (size_t ((nx + 1) * (ny + 1) * (nz + 1))), 0)).1.vertices :=
    congrArg (fun t => t.1) hk
  rw [hv]
  exact create_vertices_grid nx ny nz _ rfl hB

theorem build_mesh_stored (nx ny nz : Nat) :
    (build_mesh nx ny nz).cells.map Prod.snd
      = (List.range nz).flatMap (fun iz => (List.range ny).flatMap (fun iy =>
          (List.range nx).flatMap (fun ix =>
            box_cells nx ny (size_t (iz * (nx + 1) * (ny + 1) + iy * (nx + 1) + ix))))) := by
  unfold build_mesh
  dsimp only
  rw [create_cells_stored]
  have hk := create_vertices_keeps nx ny nz
    (MeshEditor.empty.init_vertices (size_t ((nx + 1) * (ny + 1) * (nz + 1))), 0)
  have h0 : (create_vertices nx ny nz
      (MeshEditor.empty.init_vertices (size_t ((nx + 1) * (ny + 1) * (nz + 1))), 0)).1.cells
      = [] := congrArg (fun t => t.1) hk
  show List.map Prod.snd (create_vertices nx ny nz _).1.cells ++ _ = _
  rw [h0]
  rfl

theorem find_grid_vertex (nx ny nz : Nat) (s n v : Nat) (h1 : s ≤ v) (h2 : v < s + n) :
    ((List.range' s n).map (grid_vertex nx ny nz)).find? (fun p => p.1 == v)
      = some (grid_vertex nx ny nz v) := by
  induction n generalizing s with
  | zero => omega
  | succ n ih =>
    rw [List.range'_succ, List.map_cons, List.find?_cons]
    by_cases hs : s = v
    · subst hs
      simp [grid_vertex]
    · have hne : ((grid_vertex nx ny nz s).1 == v) = false := by
        simp [grid_vertex, hs]
      rw [hne]
      exact ih (s + 1) (by omega) (by omega)

/-- The vertex of index `grid_index ix iy iz` has the coordinates of the grid point. -/
theorem build_mesh_coordinates (nx ny nz ix iy iz : Nat)
    (hB : (nx + 1) * (ny + 1) * (nz + 1) < 2 ^ 64)
    (hx : ix < nx + 1) (hy : iy < ny + 1) (hz : iz < nz + 1) :
    (build_mesh nx ny nz).coordinates (grid_index nx ny ix iy iz)
      = grid_point nx ny nz ix iy iz := by
  unfold MeshEditor.coordinates
  rw [build_mesh_vertices nx ny nz hB, List.range_eq_range',
    find_grid_vertex nx ny nz 0 _ _ (Nat.zero_le _)
      (by have := grid_index_lt nx ny nz ix iy iz hx hy hz; omega),
    grid_vertex_index nx ny nz ix iy iz hx hy]
  rfl

/-! ## Lemmas on the cells of the unit cube mesh -/

theorem box_cells_corners (nx ny v0 : Nat) :
    box_cells nx ny v0 = cells_of_corners (box_corners nx ny v0) := rfl

/-- Every cell added is one of the six cells of a box of the grid. -/
theorem build_mesh_cell_mem (nx ny nz : Nat) (c : Nat × List Nat)
    (hc : c ∈ (build_mesh nx ny nz).cells) :
    ∃ ix iy iz, ix < nx ∧ iy < ny ∧ iz < nz ∧
      c.2 ∈ box_cells nx ny (size_t (iz * (nx + 1) * (ny + 1) + iy * (nx + 1) + ix)) := by
  have hmem : c.2 ∈ (build_mesh nx ny nz).cells.map Prod.snd := List.mem_map_of_mem _ hc
  rw [build_mesh_stored] at hmem
  simp only [List.mem_flatMap, List.mem_range] at hmem
  obtain ⟨iz, h3, iy, h2, ix, h1, hmem⟩ := hmem
  exact ⟨ix, iy, iz, h1, h2, h3, hmem⟩

theorem box_corners_eq (nx ny v0 : Nat)
    (h : v0 + (nx + 1) * (ny + 1) + (nx + 1) + 1 < 2 ^ 64) :
    box_corners nx ny v0
      = [v0, v0 + 1, v0 + (nx + 1), v0 + 1 + (nx + 1), v0 + (nx + 1) * (ny + 1),
         v0 + 1 + (nx + 1) * (ny + 1), v0 + (nx + 1) + (nx + 1) * (ny + 1),
         v0 + 1 + (nx + 1) + (nx + 1) * (ny + 1)] := by
  have s1 : size_t (v0 + 1) = v0 + 1 := size_t_of_lt _ (by omega)
  have s2 : size_t (v0 + (nx + 1)) = v0 + (nx + 1) := size_t_of_lt _ (by omega)
  have s3 : size_t (v0 + 1 + (nx + 1)) = v0 + 1 + (nx + 1) := size_t_of_lt _ (by omega)
  have s4 : size_t (v0 + (nx + 1) * (ny + 1)) = v0 + (nx + 1) * (ny + 1) :=
    size_t_of_lt _ (by omega)
  have s5 : size_t (v0 + 1 + (nx + 1) * (ny + 1)) = v0 + 1 + (nx + 1) * (ny + 1) :=
    size_t_of_lt _ (by omega)
  have s6 : size_t (v0 + (nx + 1) + (nx + 1) * (ny + 1)) = v0 + (nx + 1) + (nx + 1) * (ny + 1) :=
    size_t_of_lt _ (by omega)
  have s7 : size_t (v0 + 1 + (nx + 1) + (nx + 1) * (ny + 1))
      = v0 + 1 + (nx + 1) + (nx + 1) * (ny + 1) := size_t_of_lt _ (by omega)
  unfold box_corners
  simp only [s1, s2, s3, s4, s5, s6, s7]

/-- The corners of a box of the grid are the eight grid vertices around it. -/
theorem box_corners_grid (nx ny nz ix iy iz : Nat) (hx : ix < nx) (hy : iy < ny)
    (hz : iz < nz) (hB : (nx + 1) * (ny + 1) * (nz + 1) < 2 ^ 64) :
    box_corners nx ny (size_t (iz * (nx + 1) * (ny + 1) + iy * (nx + 1) + ix))
      = [grid_index nx ny ix iy iz, grid_index nx ny (ix + 1) iy iz,
         grid_index nx ny ix (iy + 1) iz, grid_index nx ny (ix + 1) (iy + 1) iz,
         grid_index nx ny ix iy (iz + 1), grid_index nx ny (ix + 1) iy (iz + 1),
         grid_index nx ny ix (iy + 1) (iz + 1), grid_index nx ny (ix + 1) (iy + 1) (iz + 1)] := by
  have hb := box_corner_bound nx ny nz ix iy iz hx hy hz
  have hlt : iz * (nx + 1) * (ny + 1) + iy * (nx + 1) + ix < 2 ^ 64 := by omega
  rw [size_t_of_lt _ hlt, box_corners_eq nx ny _ (by omega)]
  have e1 : grid_index nx ny (ix + 1) iy iz = grid_index nx ny ix iy iz + 1 := by
    unfold grid_index; ring
  have e2 : grid_index nx ny ix (iy + 1) iz = grid_index nx ny ix iy iz + (nx + 1) := by
    unfold grid_index; ring
  have e3 : grid_index nx ny (ix + 1) (iy + 1) iz
      = grid_index nx ny ix iy iz + 1 + (nx + 1) := by
    unfold grid_index; ring
  have e4 : grid_index nx ny ix iy (iz + 1)
      = grid_index nx ny ix iy iz + (nx + 1) * (ny + 1) := by
    unfold grid_index; ring
  have e5 : grid_index nx ny (ix + 1) iy (iz + 1)
      = grid_index nx ny ix iy iz + 1 + (nx + 1) * (ny + 1) := by
    unfold grid_index; ring
  have e6 : grid_index nx ny ix (iy + 1) (iz + 1)
      = grid_index nx ny ix iy iz + (nx + 1) + (nx + 1) * (ny + 1) := by
    unfold grid_index; ring
  have e7 : grid_index nx ny (ix + 1) (iy + 1) (iz + 1)
      = grid_index nx ny ix iy iz + 1 + (nx + 1) + (nx + 1) * (ny + 1) := by
    unfold grid_index; ring
  rw [e1, e2, e3, e4, e5, e6, e7]
  rfl

/-- The six cells of a box of the grid, by the grid vertices they are made of. -/
theorem box_cells_grid (nx ny nz ix iy iz : Nat) (hx : ix < nx) (hy : iy < ny)
    (hz : iz < nz) (hB : (nx + 1) * (ny + 1) * (nz + 1) < 2 ^ 64) :
    box_cells nx ny (size_t (iz * (nx + 1) * (ny + 1) + iy * (nx + 1) + ix))
      = [[grid_index nx ny ix iy iz, grid_index nx ny (ix + 1) iy iz,
          grid_index nx ny (ix + 1) (iy + 1) iz, grid_index nx ny (ix + 1) (iy + 1) (iz + 1)],
         [grid_index nx ny ix iy iz, grid_index nx ny (ix + 1) iy iz,
          grid_index nx ny (ix + 1) (iy + 1) (iz + 1), grid_index nx ny (ix + 1) iy (iz + 1)],
         [grid_index nx ny ix iy iz, grid_index nx ny (ix + 1) iy (iz + 1),
          grid_index nx ny (ix + 1) (iy + 1) (iz + 1), grid_index nx ny ix iy (iz + 1)],
         [grid_index nx ny ix iy iz, grid_index nx ny (ix + 1) (iy + 1) iz,
          grid_index nx ny ix (iy + 1) iz, grid_index nx ny (ix + 1) (iy + 1) (iz + 1)],
         [grid_index nx ny ix iy iz, grid_index nx ny ix (iy + 1) (iz + 1),
          grid_index nx ny ix iy (iz + 1), grid_index nx ny (ix + 1) (iy + 1) (iz + 1)],
         [grid_index nx ny ix iy iz, grid_index nx ny ix (iy + 1) iz,
          grid_index nx ny ix (iy + 1) (iz + 1), grid_index nx ny (ix + 1) (iy + 1) (iz + 1)]] := by
  rw [box_cells_corners, box_corners_grid nx ny nz ix iy iz hx hy hz hB]
  rfl

/-- The signed volumes of the six tetrahedra of a box of the grid. -/
theorem box_volumes (nx ny nz ix iy iz : Nat) (hx : 1 ≤ nx) (hy : 1 ≤ ny) (hz : 1 ≤ nz) :
    signed_volume (grid_point nx ny nz ix iy iz) (grid_point nx ny nz (ix + 1) iy iz)
        (grid_point nx ny nz (ix + 1) (iy + 1) iz)
        (grid_point nx ny nz (ix + 1) (iy + 1) (iz + 1)) = 1 / (6 * nx * ny * nz) ∧
    signed_volume (grid_point nx ny nz ix iy iz) (grid_point nx ny nz (ix + 1) iy iz)
        (grid_point nx ny nz (ix + 1) (iy + 1) (iz + 1))
        (grid_point nx ny nz (ix + 1) iy (iz + 1)) = 1 / (6 * nx * ny * nz) ∧
    signed_volume (grid_point nx ny nz ix iy iz) (grid_point nx ny nz (ix + 1) iy (iz + 1))
        (grid_point nx ny nz (ix + 1) (iy + 1) (iz + 1))
        (grid_point nx ny nz ix iy (iz + 1)) = 1 / (6 * nx * ny * nz) ∧
    signed_volume (grid_point nx ny nz ix iy iz) (grid_point nx ny nz (ix + 1) (iy + 1) iz)
        (grid_point nx ny nz ix (iy + 1) iz)
        (grid_point nx ny nz (ix + 1) (iy + 1) (iz + 1)) = 1 / (6 * nx * ny * nz) ∧
    signed_volume (grid_point nx ny nz ix iy iz) (grid_point nx ny nz ix (iy + 1) (iz + 1))
        (grid_point nx ny nz ix iy (iz + 1))
        (grid_point nx ny nz (ix + 1) (iy + 1) (iz + 1)) = 1 / (6 * nx * ny * nz) ∧
    signed_volume (grid_point nx ny nz ix iy iz) (grid_point nx ny nz ix (iy + 1) iz)
        (grid_point nx ny nz ix (iy + 1) (iz + 1))
        (grid_point nx ny nz (ix + 1) (iy + 1) (iz + 1)) = 1 / (6 * nx * ny * nz) := by
  have hx' : (nx : ℚ) ≠ 0 := by exact_mod_cast (by omega : nx ≠ 0)
  have hy' : (ny : ℚ) ≠ 0 := by exact_mod_cast (by omega : ny ≠ 0)
  have hz' : (nz : ℚ) ≠ 0 := by exact_mod_cast (by omega : nz ≠ 0)
  refine ⟨?_, ?_, ?_, ?_, ?_, ?_⟩ <;>
  · simp only [signed_volume, det3, edge_vector, grid_point, List.getD_cons_zero,
      List.getD_cons_succ, Nat.cast_add, Nat.cast_one]
    field_simp
    ring

theorem build_mesh_vertex_indices (nx ny nz : Nat)
    (hB : (nx + 1) * (ny + 1) * (nz + 1) < 2 ^ 64) :
    (build_mesh nx ny nz).vertices.map Prod.fst
      = List.range ((nx + 1) * (ny + 1) * (nz + 1)) := by
  rw [build_mesh_vertices nx ny nz hB, List.map_map]
  have : (Prod.fst ∘ grid_vertex nx ny nz) = id := by
    funext j; rfl
  rw [this, List.map_id]

/-- Every cell added is one of the six cells of a box of the grid, by grid vertices. -/
theorem build_mesh_cell_grid (nx ny nz : Nat) (hB : (nx + 1) * (ny + 1) * (nz + 1) < 2 ^ 64)
    (c : Nat × List Nat) (hc : c ∈ (build_mesh nx ny nz).cells) :
    ∃ ix iy iz, ix < nx ∧ iy < ny ∧ iz < nz ∧
      (c.2 = [grid_index nx ny ix iy iz, grid_index nx ny (ix + 1) iy iz,
          grid_index nx ny (ix + 1) (iy + 1) iz, grid_index nx ny (ix + 1) (iy + 1) (iz + 1)] ∨
       c.2 = [grid_index nx ny ix iy iz, grid_index nx ny (ix + 1) iy iz,
          grid_index nx ny (ix + 1) (iy + 1) (iz + 1), grid_index nx ny (ix + 1) iy (iz + 1)] ∨
       c.2 = [grid_index nx ny ix iy iz, grid_index nx ny (ix + 1) iy (iz + 1),
          grid_index nx ny (ix + 1) (iy + 1) (iz + 1), grid_index nx ny ix iy (iz + 1)] ∨
       c.2 = [grid_index nx ny ix iy iz, grid_index nx ny (ix + 1) (iy + 1) iz,
          grid_index nx ny ix (iy + 1) iz, grid_index nx ny (ix + 1) (iy + 1) (iz + 1)] ∨
       c.2 = [grid_index nx ny ix iy iz, grid_index nx ny ix (iy + 1) (iz + 1),
          grid_index nx ny ix iy (iz + 1), grid_index nx ny (ix + 1) (iy + 1) (iz + 1)] ∨
       c.2 = [grid_index nx ny ix iy iz, grid_index nx ny ix (iy + 1) iz,
          grid_index nx ny ix (iy + 1) (iz + 1), grid_index nx ny (ix + 1) (iy + 1) (iz + 1)]) := by
  obtain ⟨ix, iy, iz, h1, h2, h3, hmem⟩ := build_mesh_cell_mem nx ny nz c hc
  rw [box_cells_grid nx ny nz ix iy iz h1 h2 h3 hB] at hmem
  simp only [List.mem_cons, List.mem_singleton, List.not_mem_nil, or_false] at hmem
  exact ⟨ix, iy, iz, h1, h2, h3, hmem⟩

/-- The indices of the grid vertices increase with each of the three grid coordinates. -/
theorem grid_index_steps (nx ny ix iy iz : Nat) :
    grid_index nx ny (ix + 1) iy iz = grid_index nx ny ix iy iz + 1 ∧
    grid_index nx ny ix (iy + 1) iz = grid_index nx ny ix iy iz + (nx + 1) ∧
    grid_index nx ny ix iy (iz + 1) = grid_index nx ny ix iy iz + (nx + 1) * (ny + 1) := by
  unfold grid_index
  refine ⟨by ring, by ring, by ring⟩

theorem grid_fraction_bounds (i n : Nat) (hn : 1 ≤ n) (hi : i ≤ n) :
    0 ≤ (i : ℚ) / (n : ℚ) ∧ (i : ℚ) / (n : ℚ) ≤ 1 := by
  have hpos : (0 : ℚ) < (n : ℚ) := by exact_mod_cast hn
  refine ⟨div_nonneg (Nat.cast_nonneg i) (le_of_lt hpos), ?_⟩
  rw [div_le_one hpos]
  exact_mod_cast hi

/-- The coordinates of every vertex of the grid lie between 0 and 1. -/
theorem grid_vertex_bounds (nx ny nz j : Nat) (hx : 1 ≤ nx) (hy : 1 ≤ ny) (hz : 1 ≤ nz)
    (hj : j < (nx + 1) * (ny + 1) * (nz + 1)) :
    ∀ x ∈ (grid_vertex nx ny nz j).2, 0 ≤ x ∧ x ≤ 1 := by
  intro x hxm
  simp only [grid_vertex, grid_point, List.mem_cons, List.mem_singleton, List.not_mem_nil,
    or_false] at hxm
  have h1 : j % (nx + 1) ≤ nx := Nat.lt_succ_iff.mp (Nat.mod_lt _ (Nat.succ_pos nx))
  have h2 : j / (nx + 1) % (ny + 1) ≤ ny := Nat.lt_succ_iff.mp (Nat.mod_lt _ (Nat.succ_pos ny))
  have h3 : j / ((nx + 1) * (ny + 1)) ≤ nz := by
    apply Nat.lt_succ_iff.mp
    rw [Nat.div_lt_iff_lt_mul (Nat.mul_pos (Nat.succ_pos nx) (Nat.succ_pos ny))]
    have e : (nz + 1) * ((nx + 1) * (ny + 1)) = (nx + 1) * (ny + 1) * (nz + 1) := by ring
    rw [Nat.succ_eq_add_one, e]
    exact hj
  rcases hxm with h | h | h
  · rw [h]; exact grid_fraction_bounds _ _ hx h1
  · rw [h]; exact grid_fraction_bounds _ _ hy h2
  · rw [h]; exact grid_fraction_bounds _ _ hz h3

/-! ## The cell pass: the `values` buffer, the sum over cells, workers, cell markers -/

section CellClaims
variable {R : Type} [AddCommMonoid R]

set_option maxRecDepth 100000

/-- C1, at a failing input: on two cells in two colour classes, with the kernel values 1 and 2
and a buffer of two entries, the cell pass leaves the buffer `[2, 0]`, whose entries sum to 2,
while the same pass without the buffer accumulates the scalar 3: the buffer is written at
the position of the cell in its colour class, so the second class overwrites the first. -/
theorem values_buffer_overwritten_across_colours :
    (assemble_cells scalar_form none zero_state_with_buffer).state.values = some [2, 0] ∧
      ([2, 0] : List ℤ).sum = 2 ∧
      (assemble_cells scalar_form none zero_state).state.A [] = 3 := by
  decide

/-- C2, refuted as stated: a rank 0 form with one cell integral, no markers and no buffer,
on 21 cells in one colour class, so that the colour classes partition the cells. The guided
schedule hands the iterations 0 to 19 to one worker and the iteration 20 to another; the
second worker reads the scalar, the first adds its twenty cells, and the second writes
its sum back: the pass returns normally with the tensor at 1, and not at the sum 21 of the
contributions of all cells. -/
theorem workers_lose_cell_contributions :
    count_form.cell_integrals[0]? = some (some unit_kernel) ∧
    MeshFunction.supplied none = false ∧
    zero_state.values = none ∧
    stored_classes count_form.mesh = [List.range 21].map some ∧
    [List.range 21].flatten.Perm (List.range count_form.mesh.num_cells) ∧
    (overlapping_workers 0).assignment = [List.range 20, [20]] ∧
    (assemble_cells_workers overlapping_workers count_form none zero_state).map
        (fun o => (o.error, o.state.A [])) = some (none, 1) ∧
    (zero_state.A + ((List.range count_form.mesh.num_cells).map
        (cell_contribution count_form unit_kernel)).sum) [] = 21 := by
  refine ⟨rfl, rfl, rfl, by decide, by decide, rfl, by decide, by decide⟩

/-- C2, amended: when the form has a default cell kernel `k`, no cell markers are supplied,
the rank-0 buffer is not in use, and the colour classes stored on the mesh partition the
cell indices, the cell pass run by one worker returns normally, and so does every run by a
team of workers in which no two cells of a colour class that are run by different workers
address a common entry of the tensor; either way the global tensor is its value before the
pass plus the sum over all cells `0, ..., num_cells - 1` of the local tensor of `k` on the
cell scattered through the dof arrays of the cell, one for each argument (sums of tensors
are entrywise). Every assignment that hands out each iteration of each colour once can be
run to the end, by the workers of each colour one after the other. -/
theorem assemble_cells_adds_every_cell_once (a : Form R) (domains : Option MeshFunction)
    (s : AssemblyState R) (k : CellIntegral R) (classes : List (List Nat))
    (hk : a.cell_integrals[0]? = some (some k))
    (hd : MeshFunction.supplied domains = false)
    (hb : s.values = none ∨ a.rank ≠ 0)
    (hc : stored_classes a.mesh = classes.map some)
    (hp : classes.flatten.Perm (List.range a.mesh.num_cells)) :
    (∃ s', assemble_cells a domains s = Outcome.done s' ∧
      s'.A = s.A + ((List.range a.mesh.num_cells).map (cell_contribution a k)).sum) ∧
    (∀ exec : Nat → Execution, race_free a exec →
      (assemble_cells_workers exec a domains s).isSome = true →
      ∃ s', assemble_cells_workers exec a domains s = some (Outcome.done s') ∧
        s'.A = s.A + ((List.range a.mesh.num_cells).map (cell_contribution a k)).sum) ∧
    (∀ assign : Nat → List (List Nat),
      valid_assignment a.mesh (one_after_the_other a assign) →
      (assemble_cells_workers (one_after_the_other a assign) a domains s).isSome = true) := by
  have hlen : a.cell_integrals.length ≠ 0 := by
    intro h0
    have : a.cell_integrals = [] := List.length_eq_zero.mp h0
    rw [this] at hk
    simp at hk
  have hint : a.cell_integrals.getD 0 none = some k := by
    rw [List.getD_eq_getElem?_getD, hk]; rfl
  have hbuf : buffered a s = false := by
    rcases hb with h | h
    · simp [buffered, h]
    · simp [buffered, h]
  obtain ⟨s', h1, _, hA⟩ := assemble_cells_classes a k classes s hbuf
  have hseq : assemble_cells a domains s = Outcome.done s' := by
    unfold assemble_cells
    simp only [hlen, hd, if_false, Bool.false_eq_true, hint]
    rw [assemble_cells_sequential_fold, hc]
    exact h1
  have hsum : s'.A = s.A + ((List.range a.mesh.num_cells).map (cell_contribution a k)).sum := by
    rw [hA, (hp.map _).sum_eq]
  refine ⟨⟨s', hseq, hsum⟩, ?_, fun assign hva =>
    assemble_cells_workers_enough a domains s assign hva⟩
  intro exec hfree hrun
  obtain ⟨o, ho⟩ := Option.isSome_iff_exists.mp hrun
  have hsame := assemble_cells_workers_same exec a domains s o ho hfree
  rw [hseq] at hsame
  cases o with
  | raised e t => exact absurd hsame.1 (by simp [Outcome.error])
  | done t => exact ⟨t, ho, hsame.2.1.trans hsum⟩

/-- C2, amended, on six tetrahedra in two colour classes with a form of rank 2, run by one
worker and by four: the block of cell 1 lands on the rows and columns 2 and 3. -/
theorem assemble_cells_adds_every_cell_once_witness :
    matrix_form.cell_integrals[0]? = some (some sample_cell_kernel) ∧
    MeshFunction.supplied none = false ∧
    (zero_state.values = none ∨ matrix_form.rank ≠ 0) ∧
    stored_classes matrix_form.mesh = [[0, 2, 4], [1, 3, 5]].map some ∧
    ([[0, 2, 4], [1, 3, 5]] : List (List Nat)).flatten.Perm
      (List.range matrix_form.mesh.num_cells) ∧
    race_free matrix_form four_workers ∧
    (assemble_cells_workers four_workers matrix_form none zero_state).isSome = true ∧
    (∃ s', assemble_cells matrix_form none zero_state = Outcome.done s' ∧
      s'.A = zero_state.A + ((List.range matrix_form.mesh.num_cells).map
        (cell_contribution matrix_form sample_cell_kernel)).sum) ∧
    (∃ s', assemble_cells_workers four_workers matrix_form none zero_state
        = some (Outcome.done s') ∧
      s'.A = zero_state.A + ((List.range matrix_form.mesh.num_cells).map
        (cell_contribution matrix_form sample_cell_kernel)).sum) ∧
    [[2, 2], [2, 3], [3, 2], [3, 3], [2, 4], [1, 2]].map
        (zero_state.A + ((List.range matrix_form.mesh.num_cells).map
          (cell_contribution matrix_form sample_cell_kernel)).sum)
      = [2, 3, 4, 5, 0, 0] ∧
    [[2, 2], [2, 3], [3, 2], [3, 3], [2, 4], [1, 2]].map
        (assemble_cells matrix_form none zero_state).state.A = [2, 3, 4, 5, 0, 0] ∧
    (assemble_cells_workers four_workers matrix_form none zero_state).map
        (fun o => [[2, 2], [2, 3], [3, 2], [3, 3], [2, 4], [1, 2]].map o.state.A)
      = some [2, 3, 4, 5, 0, 0] ∧
    valid_assignment matrix_form.mesh
      (one_after_the_other matrix_form (fun _ => [[0], [1, 2]])) ∧
    (assemble_cells_workers (one_after_the_other matrix_form (fun _ => [[0], [1, 2]]))
      matrix_form none zero_state).isSome = true :=
  ⟨rfl, rfl, Or.inl rfl, by decide, by decide, by unfold race_free; decide, by decide,
    (assemble_cells_adds_every_cell_once matrix_form none zero_state sample_cell_kernel
      [[0, 2, 4], [1, 3, 5]] rfl rfl (Or.inl rfl) (by decide) (by decide)).1,
    (assemble_cells_adds_every_cell_once matrix_form none zero_state sample_cell_kernel
      [[0, 2, 4], [1, 3, 5]] rfl rfl (Or.inl rfl) (by decide) (by decide)).2.1
      four_workers (by unfold race_free; decide) (by decide),
    by decide, by decide, by decide, by unfold valid_assignment; decide,
    (assemble_cells_adds_every_cell_once matrix_form none zero_state sample_cell_kernel
      [[0, 2, 4], [1, 3, 5]] rfl rfl (Or.inl rfl) (by decide) (by decide)).2.2
      (fun _ => [[0], [1, 2]]) (by unfold valid_assignment; decide)⟩

/-- C3, refuted as stated: on 21 cells in one colour class, which is a vertex colouring,
the iterations 0 to 19 go to one worker and the iteration 20 to another. For a form of rank 1
whose cells all carry the global dof 0, the second worker reads the entry 0, the first adds
its twenty cells, and the second writes its sum back: the entry 0 ends at 21, while the pass
run by one worker ends with 231. For a form of rank 0 all cells address the one scalar
entry: two workers end with 1, one worker with 21. -/
theorem workers_change_the_tensor :
    vertex_coloring scattered_cells_vertices scattered_cells.num_cells [List.range 21] ∧
    stored_classes scattered_cells = [List.range 21].map some ∧
    (overlapping_workers_two_dofs 0).assignment = [List.range 20, [20]] ∧
    (assemble_cells_workers overlapping_workers_two_dofs scattered_multiplier_form none
        zero_state).map (fun o => (o.error, o.state.A [0])) = some (none, 21) ∧
    (assemble_cells scattered_multiplier_form none zero_state).error = none ∧
    (assemble_cells scattered_multiplier_form none zero_state).state.A [0] = 231 ∧
    (assemble_cells_workers overlapping_workers count_form none zero_state).map
        (fun o => (o.error, o.state.A [])) = some (none, 1) ∧
    (assemble_cells count_form none zero_state).error = none ∧
    (assemble_cells count_form none zero_state).state.A [] = 21 := by
  refine ⟨by unfold vertex_coloring; decide, by decide, rfl, by decide, by decide, by decide,
    by decide, by decide, by decide⟩

/-- C3, amended: a run of the cell pass by a team of workers, with any assignment of the
cells of each colour class to the workers and any interleaving of their steps, in which no
two cells of a colour class that are run by different workers address a common entry of
the tensor, ends as the run by one worker does: with the same global tensor, and with the
same error or none. No two workers address a common entry when the team has one worker;
and, whatever the assignment and the number of workers, when the form has rank at least 1
and the stored colour classes are free of repetitions and sound for the dof maps of the
form. Every assignment that hands out each iteration of each colour once can be run to the
end, by the workers of each colour one after the other. -/
theorem cell_pass_independent_of_workers (exec : Nat → Execution) (a : Form R)
    (domains : Option MeshFunction) (s : AssemblyState R) :
    (race_free a exec → (assemble_cells_workers exec a domains s).isSome = true →
      ∃ o, assemble_cells_workers exec a domains s = some o ∧
        o.state.A = (assemble_cells a domains s).state.A ∧
        o.error = (assemble_cells a domains s).error) ∧
    ((∀ color, (exec color).assignment.length ≤ 1) → race_free a exec) ∧
    (∀ classes : List (List Nat), 1 ≤ a.rank → stored_classes a.mesh = classes.map some →
      coloring_sound a classes → (∀ cls ∈ classes, cls.Nodup) →
      valid_assignment a.mesh exec → race_free a exec) ∧
    (∀ assign : Nat → List (List Nat),
      valid_assignment a.mesh (one_after_the_other a assign) →
      (assemble_cells_workers (one_after_the_other a assign) a domains s).isSome = true) := by
  refine ⟨?_, race_free_of_one_worker a exec, ?_, fun assign hva =>
    assemble_cells_workers_enough a domains s assign hva⟩
  · intro hfree hrun
    obtain ⟨o, ho⟩ := Option.isSome_iff_exists.mp hrun
    have hsame := assemble_cells_workers_same exec a domains s o ho hfree
    exact ⟨o, ho, hsame.2.1, hsame.1⟩
  · intro classes hr hc hs hn hva
    exact race_free_of_sound a exec classes hr hc hs hn hva

/-- C3, amended, for a rank 2 form over six tetrahedra coloured into two classes of three
cells, whose colouring is sound, run by a team of four workers, by a team of one worker,
and single-threaded. -/
theorem cell_pass_independent_of_workers_witness :
    1 ≤ matrix_form.rank ∧
    stored_classes matrix_form.mesh = [[0, 2, 4], [1, 3, 5]].map some ∧
    coloring_sound matrix_form [[0, 2, 4], [1, 3, 5]] ∧
    (∀ cls ∈ [[0, 2, 4], [1, 3, 5]], cls.Nodup) ∧
    valid_assignment matrix_form.mesh four_workers ∧
    race_free matrix_form four_workers ∧
    (assemble_cells_workers four_workers matrix_form none zero_state).isSome = true ∧
    (∃ o, assemble_cells_workers four_workers matrix_form none zero_state = some o ∧
      o.state.A = (assemble_cells matrix_form none zero_state).state.A ∧
      o.error = (assemble_cells matrix_form none zero_state).error) ∧
    (∀ color, (one_worker color).assignment.length ≤ 1) ∧
    (assemble_cells_workers one_worker matrix_form none zero_state).isSome = true ∧
    (∃ o, assemble_cells_workers one_worker matrix_form none zero_state = some o ∧
      o.state.A = (assemble_cells matrix_form none zero_state).state.A ∧
      o.error = (assemble_cells matrix_form none zero_state).error) ∧
    (assemble_cells matrix_form none zero_state).state.A [2, 3] = 3 ∧
    (assemble_cells_workers four_workers matrix_form none zero_state).map
      (fun o => o.state.A [2, 3]) = some 3 ∧
    valid_assignment matrix_form.mesh
      (one_after_the_other matrix_form (fun _ => [[2, 0], [], [1]])) ∧
    (assemble_cells_workers (one_after_the_other matrix_form (fun _ => [[2, 0], [], [1]]))
      matrix_form none zero_state).isSome = true :=
  ⟨by decide, by decide, by unfold coloring_sound; decide, by decide,
    by unfold valid_assignment; decide,
    (cell_pass_independent_of_workers four_workers matrix_form none zero_state).2.2.1
      [[0, 2, 4], [1, 3, 5]] (by decide) (by decide) (by unfold coloring_sound; decide)
      (by decide) (by unfold valid_assignment; decide),
    by decide,
    (cell_pass_independent_of_workers four_workers matrix_form none zero_state).1
      (by unfold race_free; decide) (by decide),
    fun _ => Nat.le_refl 1, by decide,
    (cell_pass_independent_of_workers one_worker matrix_form none zero_state).1
      ((cell_pass_independent_of_workers one_worker matrix_form none zero_state).2.1
        (fun _ => Nat.le_refl 1)) (by decide),
    by decide, by decide, by unfold valid_assignment; decide,
    (cell_pass_independent_of_workers four_workers matrix_form none zero_state).2.2.2
      (fun _ => [[2, 0], [], [1]]) (by unfold valid_assignment; decide)⟩

/-- C6: the cell pass raises "Sub-domains not yet handled" exactly when the form has at
least one cell integral and a non-null cell marker array of positive size is supplied; and
when it raises, the state is the one the pass started in: no kernel was invoked, and nothing
was added to the global tensor or written to the `values` buffer. -/
theorem assemble_cells_sub_domains_error (a : Form R) (domains : Option MeshFunction)
    (s : AssemblyState R) :
    ((assemble_cells a domains s).error = some .sub_domains_not_handled ↔
        0 < a.cell_integrals.length ∧ ∃ d, domains = some d ∧ 0 < d.size) ∧
      ((assemble_cells a domains s).error = some .sub_domains_not_handled →
        assemble_cells a domains s = Outcome.raised .sub_domains_not_handled s) := by
  have hsup : MeshFunction.supplied domains = true ↔ ∃ d, domains = some d ∧ 0 < d.size := by
    cases domains with
    | none => simp [MeshFunction.supplied]
    | some d => simp [MeshFunction.supplied]
  rcases assemble_cells_errors a domains s with ⟨h0, hd, h⟩ | ⟨hn, h⟩
  · rw [h]
    exact ⟨⟨fun _ => ⟨Nat.pos_of_ne_zero h0, hsup.mp hd⟩, fun _ => rfl⟩, fun _ => rfl⟩
  · have hne : (assemble_cells a domains s).error
        ≠ some .sub_domains_not_handled := by
      rcases h with h | h | h <;> rw [h] <;> simp
    exact ⟨⟨fun he => absurd he hne,
      fun hh => absurd ⟨Nat.pos_iff_ne_zero.mp hh.1, hsup.mpr hh.2⟩ hn⟩,
      fun he => absurd he hne⟩

end CellClaims

/-! ## The facet passes: macro dofs, sub-domain markers, the facet orientation -/

theorem uint_sub_one (D : Nat) (h1 : 1 ≤ D) (h2 : D < 2 ^ 32) : uint_sub D 1 = D - 1 := by
  unfold uint_sub
  omega

section FacetClaims
variable {R : Type} [AddCommMonoid R]

/-- C4: when the interior-facet loop processes a facet (the facet is interior and a kernel
is selected), with `(cell0, cell1)` the ordered adjacent cells, then for every argument
`i` of the form the macro dof array `ufc.macro_dofs[i]` holds the dofs of `cell0` in its first
`k0` entries and the dofs of `cell1` in the `k1` entries from offset `k0` on, `k0` and `k1`
being the local dimensions on `cell0` and `cell1`; so the second write leaves the entries of
`cell0` in place. -/
theorem macro_dofs_block_layout (a : Form R) (domains : Option MeshFunction) (facet : Nat)
    (integral : Option (InteriorFacetIntegral R)) (s : AssemblyState R)
    (k : InteriorFacetIntegral R) (cell0 cell1 i : Nat)
    (hint : a.mesh.interior facet = true)
    (hsel : select_integral a.interior_facet_integrals domains facet integral = some (some k))
    (hcells : a.mesh.adjacent_cells a.mesh.facet_orientation facet = (cell0, cell1))
    (hi : i < a.rank) :
    (List.range ((a.dofmap i).local_dimension cell0)).map
        ((interior_facet_body a domains facet integral s).2.state.macro_dofs i)
      = (a.dofmap i).cell_dofs cell0 ∧
    (List.range ((a.dofmap i).local_dimension cell1)).map
        (fun j => (interior_facet_body a domains facet integral s).2.state.macro_dofs i
          ((a.dofmap i).local_dimension cell0 + j))
      = (a.dofmap i).cell_dofs cell1 := by
  have hbody : (interior_facet_body a domains facet integral s).2.state.macro_dofs
      = tabulate_macro_dofs a cell0 cell1 s.macro_dofs := by
    unfold interior_facet_body
    simp only [hint, Bool.not_true, Bool.false_eq_true, if_false, hsel, hcells]
    rfl
  rw [hbody]
  exact ⟨map_range_eq_of_getD _ _ (fun j hj => macro_dofs_first a cell0 cell1 _ i j hi hj),
    map_range_eq_of_getD _ _ (fun j hj => macro_dofs_second a cell0 cell1 _ i j hi hj)⟩

/-- C4, on the facet shared by two triangles with three dofs each. -/
theorem macro_dofs_block_layout_witness :
    jump_form.mesh.interior 2 = true ∧
    select_integral jump_form.interior_facet_integrals none 2 (some sample_interior_kernel)
      = some (some sample_interior_kernel) ∧
    jump_form.mesh.adjacent_cells jump_form.mesh.facet_orientation 2 = (0, 1) ∧
    0 < jump_form.rank ∧
    (List.range ((jump_form.dofmap 0).local_dimension 0)).map
        ((interior_facet_body jump_form none 2 (some sample_interior_kernel)
          zero_state).2.state.macro_dofs 0)
      = (jump_form.dofmap 0).cell_dofs 0 ∧
    (List.range ((jump_form.dofmap 0).local_dimension 1)).map
        (fun j => (interior_facet_body jump_form none 2 (some sample_interior_kernel)
          zero_state).2.state.macro_dofs 0 ((jump_form.dofmap 0).local_dimension 0 + j))
      = (jump_form.dofmap 0).cell_dofs 1 :=
  ⟨rfl, rfl, rfl, by decide,
    macro_dofs_block_layout jump_form none 2 (some sample_interior_kernel) zero_state
      sample_interior_kernel 0 1 0 rfl rfl rfl (by decide)⟩

/-- C5: on an ordered mesh whose facets have one or two adjacent cells and whose facet
orientation, if any, is accepted, each facet pass returns normally and adds to the global
tensor, for every facet, the contribution of the facet: nothing for a facet that is not
eligible, nothing for an eligible facet whose marker is not below the number of registered
integrals or selects a null integral, and otherwise the local tensor of the kernel
registered at its marker, or of the default kernel 0 when no marker array or an empty one is
supplied. -/
theorem facet_passes_use_registered_kernels (a : Form R) (domains : Option MeshFunction)
    (s : AssemblyState R) (hord : a.mesh.ordered = true)
    (hcells : ∀ f, f < a.mesh.num_facets →
      (a.mesh.facet_cells f).length = 1 ∨ (a.mesh.facet_cells f).length = 2)
    (hfo : facet_orientation_rejected a.mesh = false) :
    (∃ s', assemble_exterior_facets a domains s = Outcome.done s' ∧
      s'.A = s.A +
        ((List.range a.mesh.num_facets).map (exterior_facet_contribution a domains)).sum) ∧
    (∃ s', assemble_interior_facets a domains s = Outcome.done s' ∧
      s'.A = s.A +
        ((List.range a.mesh.num_facets).map (interior_facet_contribution a domains)).sum) := by
  constructor
  · unfold assemble_exterior_facets
    by_cases h0 : a.exterior_facet_integrals.length = 0
    · refine ⟨s, by rw [if_pos h0], ?_⟩
      have hz : ∀ f, exterior_facet_contribution a domains f = 0 := by
        intro f
        have hnil : a.exterior_facet_integrals = [] := List.length_eq_zero.mp h0
        unfold exterior_facet_contribution registered_kernel
        rw [hnil]
        by_cases hne : not_exterior a.mesh f = true
        · simp [hne]
        · simp [hne, Option.join]
      rw [sum_map_eq_zero _ _ hz, add_zero]
    · obtain ⟨i', s', h, _, hA⟩ := exterior_facets_fold a domains (List.range a.mesh.num_facets)
        (fun f hf => hcells f (List.mem_range.mp hf))
        (a.exterior_facet_integrals.getD 0 none) s (Or.inr rfl)
      refine ⟨s', ?_, hA⟩
      rw [if_neg h0]
      dsimp only
      simp only [hord, Bool.not_true, Bool.false_eq_true, if_false, h]
  · unfold assemble_interior_facets
    by_cases h0 : a.interior_facet_integrals.length = 0
    · refine ⟨s, by rw [if_pos h0], ?_⟩
      have hz : ∀ f, interior_facet_contribution a domains f = 0 := by
        intro f
        have hnil : a.interior_facet_integrals = [] := List.length_eq_zero.mp h0
        unfold interior_facet_contribution registered_kernel
        rw [hnil]
        by_cases hne : (a.mesh.facet_cells f).length ≠ 2
        · simp [hne]
        · simp [hne, Option.join]
      rw [sum_map_eq_zero _ _ hz, add_zero]
    · obtain ⟨i', s', h, _, hA⟩ := interior_facets_fold a domains (List.range a.mesh.num_facets)
        (a.interior_facet_integrals.getD 0 none) s (Or.inr rfl)
      refine ⟨s', ?_, hA⟩
      rw [if_neg h0]
      dsimp only
      simp only [hord, hfo, Bool.not_true, Bool.false_eq_true, if_false, h]

/-- C5, for one exterior-facet integral and boundary facets marked 0 and 2: the facets
marked 2 add nothing and the facets marked 0 add the block of the kernel. -/
theorem facet_passes_use_registered_kernels_witness :
    boundary_form.mesh.ordered = true ∧
    (∀ f, f < boundary_form.mesh.num_facets →
      (boundary_form.mesh.facet_cells f).length = 1 ∨
        (boundary_form.mesh.facet_cells f).length = 2) ∧
    facet_orientation_rejected boundary_form.mesh = false ∧
    (∃ s', assemble_exterior_facets boundary_form (some boundary_markers) zero_state
        = Outcome.done s' ∧
      s'.A = zero_state.A + ((List.range boundary_form.mesh.num_facets).map
        (exterior_facet_contribution boundary_form (some boundary_markers))).sum) ∧
    (∃ s', assemble_interior_facets boundary_form (some boundary_markers) zero_state
        = Outcome.done s' ∧
      s'.A = zero_state.A + ((List.range boundary_form.mesh.num_facets).map
        (interior_facet_contribution boundary_form (some boundary_markers))).sum) ∧
    exterior_facet_contribution boundary_form (some boundary_markers) 1 = 0 ∧
    (List.range 4).map
        (fun i => exterior_facet_contribution boundary_form (some boundary_markers) 0 [i])
      = [1, 2, 3, 0] :=
  ⟨rfl, by decide, rfl,
    (facet_passes_use_registered_kernels boundary_form (some boundary_markers) zero_state rfl
      (by decide) rfl).1,
    (facet_passes_use_registered_kernels boundary_form (some boundary_markers) zero_state rfl
      (by decide) rfl).2,
    rfl, by decide⟩

/-- C7: on an ordered mesh of topological dimension `D` with `1 ≤ D`, the interior-facet pass
raises the facet-orientation error exactly when the form has at least one interior-facet
integral and the mesh has a facet-orientation marker whose dimension is not `D - 1`; and
when it raises, the state is the one the pass started in: no kernel was invoked and nothing
was added to the global tensor. -/
theorem assemble_interior_facets_orientation_error (a : Form R)
    (domains : Option MeshFunction) (s : AssemblyState R)
    (hord : a.mesh.ordered = true) (hD : 1 ≤ a.mesh.dim) (hD32 : a.mesh.dim < 2 ^ 32) :
    ((assemble_interior_facets a domains s).error = some .facet_orientation_dimension ↔
        0 < a.interior_facet_integrals.length ∧
          ∃ fo, a.mesh.facet_orientation = some fo ∧ fo.dim ≠ a.mesh.dim - 1) ∧
      ((assemble_interior_facets a domains s).error = some .facet_orientation_dimension →
        assemble_interior_facets a domains s
          = Outcome.raised .facet_orientation_dimension s) := by
  have hrej : facet_orientation_rejected a.mesh = true ↔
      ∃ fo, a.mesh.facet_orientation = some fo ∧ fo.dim ≠ a.mesh.dim - 1 := by
    unfold facet_orientation_rejected
    rw [uint_sub_one _ hD hD32]
    cases a.mesh.facet_orientation with
    | none => simp
    | some fo => simp
  rcases assemble_interior_facets_errors a domains s with ⟨h0, _, hr, h⟩ | ⟨hn, h⟩
  · rw [h]
    exact ⟨⟨fun _ => ⟨Nat.pos_of_ne_zero h0, hrej.mp hr⟩, fun _ => rfl⟩, fun _ => rfl⟩
  · have hne : (assemble_interior_facets a domains s).error
        ≠ some .facet_orientation_dimension := by
      rcases h with h | h <;> rw [h] <;> simp
    exact ⟨⟨fun he => absurd he hne,
      fun hh => absurd ⟨Nat.pos_iff_ne_zero.mp hh.1, hord, hrej.mpr hh.2⟩ hn⟩,
      fun he => absurd he hne⟩

/-- C7, on two triangles whose facet orientation is defined on vertices. -/
theorem assemble_interior_facets_orientation_error_witness :
    misoriented_form.mesh.ordered = true ∧ 1 ≤ misoriented_form.mesh.dim ∧
    misoriented_form.mesh.dim < 2 ^ 32 ∧
    ((assemble_interior_facets misoriented_form none zero_state).error
        = some .facet_orientation_dimension ↔
      0 < misoriented_form.interior_facet_integrals.length ∧
        ∃ fo, misoriented_form.mesh.facet_orientation = some fo ∧
          fo.dim ≠ misoriented_form.mesh.dim - 1) ∧
    ((assemble_interior_facets misoriented_form none zero_state).error
        = some .facet_orientation_dimension →
      assemble_interior_facets misoriented_form none zero_state
        = Outcome.raised .facet_orientation_dimension zero_state) :=
  ⟨rfl, by decide, by decide,
    assemble_interior_facets_orientation_error misoriented_form none zero_state rfl
      (by decide) (by decide)⟩

end FacetClaims

/-! ## The top-level call: what the tensor holds when an error is raised -/

section AssembleClaims
variable {R : Type} [AddCommMonoid R]

/-- C8, refuted as stated: for a form with a cell integral and an interior-facet integral
on a mesh whose facet orientation is defined on vertices, `assemble` raises the
facet-orientation error, and the entry 1 of the tensor is then 4, the sum of what the two
cells added in the cell pass, while it was 0 after initialization. -/
theorem assemble_keeps_cell_pass_on_orientation_error :
    (assemble (fun _ => (0 : ℤ)) misoriented_form none none none true true).error
        = some .facet_orientation_dimension ∧
      (assemble (fun _ => (0 : ℤ)) misoriented_form none none none true true).state.A [1] = 4 ∧
      (initialized_state (fun _ => (0 : ℤ)) misoriented_form true true).A [1] = 0 := by
  decide

/-- C8, amended: a call of `assemble` that ends without error has run the three passes
and then finalized the tensor; a call that raises the sub-domain error, as every call on an
accepted form with a cell integral and non-empty cell markers does, ends in the state
reached after initialization; and a call that raises the facet-orientation error ends in
the state in which the cell pass and the exterior-facet pass have left the tensor, which is
not rolled back. -/
theorem assemble_state_at_error (A : GenericTensor R) (a : Form R)
    (cell_domains exterior_facet_domains interior_facet_domains : Option MeshFunction)
    (reset_sparsity add_values : Bool) :
    ((assemble A a cell_domains exterior_facet_domains interior_facet_domains
          reset_sparsity add_values).error = none →
        ∃ s1 s2 s3,
          assemble_cells a cell_domains (initialized_state A a reset_sparsity add_values)
            = Outcome.done s1 ∧
          assemble_exterior_facets a exterior_facet_domains s1 = Outcome.done s2 ∧
          assemble_interior_facets a interior_facet_domains s2 = Outcome.done s3 ∧
          assemble A a cell_domains exterior_facet_domains interior_facet_domains
            reset_sparsity add_values = Outcome.done (s3.record .apply)) ∧
    ((assemble A a cell_domains exterior_facet_domains interior_facet_domains
          reset_sparsity add_values).error = some .sub_domains_not_handled →
        (assemble A a cell_domains exterior_facet_domains interior_facet_domains
          reset_sparsity add_values).state = initialized_state A a reset_sparsity add_values) ∧
    (a.check_ok = true → a.cell_integrals.length ≠ 0 →
        MeshFunction.supplied cell_domains = true →
        assemble A a cell_domains exterior_facet_domains interior_facet_domains
            reset_sparsity add_values
          = Outcome.raised .sub_domains_not_handled
              (initialized_state A a reset_sparsity add_values)) ∧
    ((assemble A a cell_domains exterior_facet_domains interior_facet_domains
          reset_sparsity add_values).error = some .facet_orientation_dimension →
        ∃ s1 s2,
          assemble_cells a cell_domains (initialized_state A a reset_sparsity add_values)
            = Outcome.done s1 ∧
          assemble_exterior_facets a exterior_facet_domains s1 = Outcome.done s2 ∧
          (assemble A a cell_domains exterior_facet_domains interior_facet_domains
            reset_sparsity add_values).state = s2) := by
  unfold assemble
  by_cases hc : a.check_ok = true
  · simp only [hc, Bool.not_true, Bool.false_eq_true, if_false]
    have hcells := assemble_cells_errors a cell_domains
      (initialized_state A a reset_sparsity add_values)
    change _ ∨ (_ ∧ ((assemble_cells a cell_domains _).error = none ∨
      (assemble_cells a cell_domains _).error = some .assertion_failed ∨
      (assemble_cells a cell_domains _).error = some .null_integral)) at hcells
    cases h1 : assemble_cells a cell_domains (initialized_state A a reset_sparsity add_values) with
    | raised e s1 =>
      simp only [Outcome.andThen, Outcome.error, Outcome.state]
      refine ⟨fun h => absurd h (by simp), ?_, ?_, ?_⟩
      · intro he
        rcases hcells with ⟨_, _, h⟩ | ⟨_, h⟩
        · change assemble_cells a cell_domains _ = _ at h
          rw [h1] at h
          exact (Outcome.raised.inj h).2
        · rw [h1] at h
          simp only [Outcome.error] at h
          rcases h with h | h | h
          · exact absurd h (by simp)
          · rw [Option.some.inj he] at h; exact absurd h (by simp)
          · rw [Option.some.inj he] at h; exact absurd h (by simp)
      · intro _ h0 hd
        rcases hcells with ⟨_, _, h⟩ | ⟨hn, _⟩
        · change assemble_cells a cell_domains _ = _ at h
          rw [h1] at h
          exact h
        · exact absurd ⟨h0, hd⟩ hn
      · intro he
        rcases hcells with ⟨_, _, h⟩ | ⟨_, h⟩
        · change assemble_cells a cell_domains _ = _ at h
          rw [h1] at h
          rw [(Outcome.raised.inj h).1] at he
          exact absurd he (by simp)
        · rw [h1] at h
          simp only [Outcome.error] at h
          rcases h with h | h | h
          · exact absurd h (by simp)
          · rw [Option.some.inj he] at h; exact absurd h (by simp)
          · rw [Option.some.inj he] at h; exact absurd h (by simp)
    | done s1 =>
      have hnot : ¬ (a.cell_integrals.length ≠ 0 ∧ MeshFunction.supplied cell_domains = true) := by
        rcases hcells with ⟨_, _, h⟩ | ⟨hn, _⟩
        · change assemble_cells a cell_domains _ = _ at h
          rw [h1] at h
          exact absurd h (by simp)
        · exact hn
      have hext := assemble_exterior_facets_errors a exterior_facet_domains s1
      cases h2 : assemble_exterior_facets a exterior_facet_domains s1 with
      | raised e s2 =>
        rw [h2] at hext
        simp only [Outcome.error] at hext
        have he : e = .assertion_failed := by
          rcases hext with h | h
          · exact absurd h (by simp)
          · exact Option.some.inj h
        subst he
        simp only [Outcome.andThen, h2, Outcome.error, Outcome.state]
        exact ⟨fun h => absurd h (by simp), fun h => absurd h (by simp),
          fun _ h0 hd => absurd ⟨h0, hd⟩ hnot, fun h => absurd h (by simp)⟩
      | done s2 =>
        rcases assemble_interior_facets_errors a interior_facet_domains s2 with
          ⟨_, _, _, h⟩ | ⟨_, h⟩
        · simp only [Outcome.andThen, h2, h, Outcome.error, Outcome.state]
          exact ⟨fun h => absurd h (by simp), fun h => absurd h (by simp),
            fun _ h0 hd => absurd ⟨h0, hd⟩ hnot, fun _ => ⟨s1, s2, rfl, h2, rfl⟩⟩
        · cases h3 : assemble_interior_facets a interior_facet_domains s2 with
          | raised e s3 =>
            rw [h3] at h
            simp only [Outcome.error] at h
            have he : e = .assertion_failed := by
              rcases h with h | h
              · exact absurd h (by simp)
              · exact Option.some.inj h
            subst he
            simp only [Outcome.andThen, h2, h3, Outcome.error, Outcome.state]
            exact ⟨fun h => absurd h (by simp), fun h => absurd h (by simp),
              fun _ h0 hd => absurd ⟨h0, hd⟩ hnot, fun h => absurd h (by simp)⟩
          | done s3 =>
            simp only [Outcome.andThen, h2, h3, Outcome.error, Outcome.state]
            exact ⟨fun _ => ⟨s1, s2, s3, rfl, h2, h3, rfl⟩, fun h => absurd h (by simp),
              fun _ h0 hd => absurd ⟨h0, hd⟩ hnot, fun h => absurd h (by simp)⟩
  · simp only [hc, Bool.not_false, if_true, Outcome.error, Outcome.state]
    exact ⟨fun h => absurd h (by simp), fun h => absurd h (by simp),
      fun h => absurd h (by simp), fun h => absurd h (by simp)⟩

/-- C8, amended, on two triangles with cell markers: the call raises the sub-domain error in
the state reached after initialization. -/
theorem assemble_state_at_error_witness :
    jump_form.check_ok = true ∧ jump_form.cell_integrals.length ≠ 0 ∧
      MeshFunction.supplied (some cell_markers) = true ∧
      assemble (fun _ => (0 : ℤ)) jump_form (some cell_markers) none none true true
        = Outcome.raised .sub_domains_not_handled
            (initialized_state (fun _ => (0 : ℤ)) jump_form true true) :=
  ⟨rfl, by decide, rfl,
    (assemble_state_at_error (fun _ => (0 : ℤ)) jump_form (some cell_markers) none none
      true true).2.2.1 rfl (by decide) rfl⟩

end AssembleClaims

/-! ## The unit cube mesh: counts and the stored order of the vertices of a cell -/

/-- C9: for `nx, ny, nz ≥ 1` whose vertex and cell counts fit in `std::size_t`, the
constructor on a process that is not a receiver builds a mesh with the declared number
`(nx + 1) (ny + 1) (nz + 1)` of vertices and `6 nx ny nz` of cells, makes as many `add_vertex`
and `add_cell` calls as declared, and gives the vertices the indices
`0, ..., (nx + 1) (ny + 1) (nz + 1) - 1` and the cells the indices `0, ..., 6 nx ny nz - 1`,
each once and in this order. -/
theorem unit_cube_counts (nx ny nz : Nat) (is_broadcaster : Bool)
    (hx : 1 ≤ nx) (hy : 1 ≤ ny) (hz : 1 ≤ nz)
    (hv : (nx + 1) * (ny + 1) * (nz + 1) < 2 ^ 64) (hc : 6 * nx * ny * nz < 2 ^ 64) :
    ∃ mesh, UnitCubeMesh nx ny nz false is_broadcaster = .built mesh is_broadcaster ∧
      mesh.num_vertices = (nx + 1) * (ny + 1) * (nz + 1) ∧
      mesh.vertices.length = mesh.num_vertices ∧
      mesh.vertices.map Prod.fst = List.range ((nx + 1) * (ny + 1) * (nz + 1)) ∧
      mesh.num_cells = 6 * nx * ny * nz ∧
      mesh.cells.length = mesh.num_cells ∧
      mesh.cells.map Prod.fst = List.range (6 * nx * ny * nz) := by
  obtain ⟨h1, h2, h3, h4⟩ := build_mesh_counts nx ny nz hv hc
  refine ⟨build_mesh nx ny nz, ?_, h1, ?_, h2, h3, ?_, h4⟩
  · exact unit_cube_built nx ny nz is_broadcaster hx hy hz
  · have := congrArg List.length h2
    rw [List.length_map, List.length_range] at this
    rw [this, h1]
  · have := congrArg List.length h4
    rw [List.length_map, List.length_range] at this
    rw [this, h3]

/-- C9, for `nx = ny = nz = 2`: 27 vertices and 48 cells. -/
theorem unit_cube_counts_witness :
    (1 ≤ 2) ∧ (2 + 1) * (2 + 1) * (2 + 1) < 2 ^ 64 ∧ 6 * 2 * 2 * 2 < 2 ^ 64 ∧
    ∃ mesh, UnitCubeMesh 2 2 2 false false = .built mesh false ∧
      mesh.num_vertices = 27 ∧
      mesh.vertices.length = mesh.num_vertices ∧
      mesh.vertices.map Prod.fst = List.range 27 ∧
      mesh.num_cells = 48 ∧
      mesh.cells.length = mesh.num_cells ∧
      mesh.cells.map Prod.fst = List.range 48 :=
  ⟨by decide, by decide, by decide,
    unit_cube_counts 2 2 2 false (by decide) (by decide) (by decide) (by decide) (by decide)⟩

/-- C10, refuted as stated: for `nx = ny = nz = 2` the second cell added stores the vertex
indices `0, 1, 13, 10` in this order, and 13 is not below 10. -/
theorem unit_cube_second_cell_not_increasing :
    ∃ mesh, UnitCubeMesh 2 2 2 false false = .built mesh false ∧
      mesh.cells[1]? = some (1, [0, 1, 13, 10]) ∧
      stored_increasing [0, 1, 13, 10] = false ∧ ¬ (13 < 10) :=
  ⟨build_mesh 2 2 2, rfl, by decide, rfl, by decide⟩

/-- C10, amended: for `nx, ny, nz ≥ 1` whose vertex count fits in `std::size_t`, the cells
added are the six cells of every box, box after box; in every cell the first stored vertex
index is strictly below the other three; and of the six cells of a box, in the order in which
they are added, the first and the sixth store their four vertex indices in strictly
increasing order, while the second to the fifth do not. -/
theorem unit_cube_stored_order (nx ny nz : Nat) (is_broadcaster : Bool)
    (hx : 1 ≤ nx) (hy : 1 ≤ ny) (hz : 1 ≤ nz)
    (hv : (nx + 1) * (ny + 1) * (nz + 1) < 2 ^ 64) :
    ∃ mesh, UnitCubeMesh nx ny nz false is_broadcaster = .built mesh is_broadcaster ∧
      mesh.cells.map Prod.snd
        = (List.range nz).flatMap (fun iz => (List.range ny).flatMap (fun iy =>
            (List.range nx).flatMap (fun ix =>
              box_cells nx ny (size_t (iz * (nx + 1) * (ny + 1) + iy * (nx + 1) + ix))))) ∧
      (∀ c ∈ mesh.cells, first_smallest c.2 = true) ∧
      ∀ ix iy iz, ix < nx → iy < ny → iz < nz →
        (box_cells nx ny (size_t (iz * (nx + 1) * (ny + 1) + iy * (nx + 1) + ix))).map
            stored_increasing
          = [true, false, false, false, false, true] := by
  have hbuilt : UnitCubeMesh nx ny nz false is_broadcaster
      = .built (build_mesh nx ny nz) is_broadcaster :=
    unit_cube_built nx ny nz is_broadcaster hx hy hz
  have hstored : (build_mesh nx ny nz).cells.map Prod.snd
      = (List.range nz).flatMap (fun iz => (List.range ny).flatMap (fun iy =>
          (List.range nx).flatMap (fun ix =>
            box_cells nx ny (size_t (iz * (nx + 1) * (ny + 1) + iy * (nx + 1) + ix))))) := by
    unfold build_mesh
    dsimp only
    rw [create_cells_stored]
    have hk := create_vertices_keeps nx ny nz
      (MeshEditor.empty.init_vertices (size_t ((nx + 1) * (ny + 1) * (nz + 1))), 0)
    have h0 : (create_vertices nx ny nz
        (MeshEditor.empty.init_vertices (size_t ((nx + 1) * (ny + 1) * (nz + 1))), 0)).1.cells
        = [] := congrArg (fun t => t.1) hk
    show List.map Prod.snd (create_vertices nx ny nz _).1.cells ++ _ = _
    rw [h0]
    rfl
  have hbox : ∀ ix iy iz, ix < nx → iy < ny → iz < nz →
      box_cells nx ny (size_t (iz * (nx + 1) * (ny + 1) + iy * (nx + 1) + ix))
        = box_cells nx ny (iz * (nx + 1) * (ny + 1) + iy * (nx + 1) + ix) ∧
      iz * (nx + 1) * (ny + 1) + iy * (nx + 1) + ix + (nx + 1) * (ny + 1) + (nx + 1) + 1
        < 2 ^ 64 := by
    intro ix iy iz h1 h2 h3
    have hb := box_corner_bound nx ny nz ix iy iz h1 h2 h3
    have hlt : iz * (nx + 1) * (ny + 1) + iy * (nx + 1) + ix < 2 ^ 64 := by omega
    rw [size_t_of_lt _ hlt]
    exact ⟨rfl, by omega⟩
  have hK : 1 ≤ (nx + 1) * (ny + 1) := Nat.mul_pos (Nat.succ_pos _) (Nat.succ_pos _)
  refine ⟨build_mesh nx ny nz, hbuilt, hstored, ?_, ?_⟩
  · intro c hc
    have hmem : c.2 ∈ (build_mesh nx ny nz).cells.map Prod.snd := List.mem_map_of_mem _ hc
    rw [hstored] at hmem
    simp only [List.mem_flatMap, List.mem_range] at hmem
    obtain ⟨iz, h3, iy, h2, ix, h1, hmem⟩ := hmem
    obtain ⟨he, hb⟩ := hbox ix iy iz h1 h2 h3
    rw [he, box_cells_eq nx ny _ hb] at hmem
    simp only [List.mem_cons, List.mem_singleton, List.not_mem_nil, or_false] at hmem
    rcases hmem with h | h | h | h | h | h <;> rw [h] <;>
      simp only [first_smallest, decide_eq_true_eq] <;> omega
  · intro ix iy iz h1 h2 h3
    obtain ⟨he, hb⟩ := hbox ix iy iz h1 h2 h3
    rw [he, box_cells_eq nx ny _ hb]
    simp only [List.map_cons, List.map_nil, stored_increasing, List.cons.injEq, and_true,
      decide_eq_true_eq, decide_eq_false_iff_not]
    omega

/-- C10, amended, for `nx = ny = nz = 2`. -/
theorem unit_cube_stored_order_witness :
    (1 ≤ 2) ∧ (2 + 1) * (2 + 1) * (2 + 1) < 2 ^ 64 ∧
    ∃ mesh, UnitCubeMesh 2 2 2 false false = .built mesh false ∧
      mesh.cells.map Prod.snd
        = (List.range 2).flatMap (fun iz => (List.range 2).flatMap (fun iy =>
            (List.range 2).flatMap (fun ix =>
              box_cells 2 2 (size_t (iz * (2 + 1) * (2 + 1) + iy * (2 + 1) + ix))))) ∧
      (∀ c ∈ mesh.cells, first_smallest c.2 = true) ∧
      ∀ ix iy iz, ix < 2 → iy < 2 → iz < 2 →
        (box_cells 2 2 (size_t (iz * (2 + 1) * (2 + 1) + iy * (2 + 1) + ix))).map
            stored_increasing
          = [true, false, false, false, false, true] :=
  ⟨by decide, by decide,
    unit_cube_stored_order 2 2 2 false (by decide) (by decide) (by decide) (by decide)⟩

/-! ## The order of the calls, passes without integrals, the dual-output mode -/

section OrderClaims
variable {R : Type} [AddCommMonoid R]

set_option maxRecDepth 100000

/-- C11: a call of `assemble` that ends without error has run the cell pass from the
initialized state, then the exterior-facet pass from the state the cell pass ended in, then
the interior-facet pass from the state the exterior-facet pass ended in, each ending
normally, and then recorded one finalization. The log of the initialized state is the form
check, the gather of each coefficient `0, ..., n - 1`, once each, and the initialization
of the global tensor; the cell pass appends its events, each a cell kernel call followed by
its scatter-add; the exterior-facet pass appends exterior-facet kernel calls and
scatter-adds; the interior-facet pass appends interior-facet kernel calls and scatter-adds.
So every kernel call comes after all gathers, and every scatter-add after the
initialization and before the finalization. -/
theorem assemble_call_order (A : GenericTensor R) (a : Form R)
    (cell_domains exterior_facet_domains interior_facet_domains : Option MeshFunction)
    (reset_sparsity add_values : Bool)
    (h : (assemble A a cell_domains exterior_facet_domains interior_facet_domains
      reset_sparsity add_values).error = none) :
    ∃ (s1 s2 s3 : AssemblyState R) (cells : List (Nat × Nat)) (exterior interior : List Event),
      assemble_cells a cell_domains (initialized_state A a reset_sparsity add_values)
        = Outcome.done s1 ∧
      assemble_exterior_facets a exterior_facet_domains s1 = Outcome.done s2 ∧
      assemble_interior_facets a interior_facet_domains s2 = Outcome.done s3 ∧
      assemble A a cell_domains exterior_facet_domains interior_facet_domains
        reset_sparsity add_values = Outcome.done (s3.record .apply) ∧
      (initialized_state A a reset_sparsity add_values).log
        = [Event.check] ++ (List.range a.num_coefficients).map Event.gather
            ++ [Event.init_global_tensor] ∧
      s1.log = (initialized_state A a reset_sparsity add_values).log
        ++ cells.flatMap (cell_events false) ∧
      s2.log = s1.log ++ exterior ∧
      s3.log = s2.log ++ interior ∧
      (∀ e ∈ exterior, e.is_exterior_event = true) ∧
      (∀ e ∈ interior, e.is_interior_event = true) ∧
      (assemble A a cell_domains exterior_facet_domains interior_facet_domains
          reset_sparsity add_values).state.log
        = [Event.check] ++ (List.range a.num_coefficients).map Event.gather
            ++ [Event.init_global_tensor] ++ cells.flatMap (cell_events false)
            ++ exterior ++ interior ++ [Event.apply] := by
  obtain ⟨_, s1, s2, s3, h1, h2, h3, hfin⟩ := assemble_done A a cell_domains
    exterior_facet_domains interior_facet_domains reset_sparsity add_values h
  have hinit : (initialized_state A a reset_sparsity add_values).log
      = [Event.check] ++ (List.range a.num_coefficients).map Event.gather
          ++ [Event.init_global_tensor] := by
    unfold initialized_state
    simp only [AssemblyState.record]
    rw [(gather_coefficients_log a _).1]
    rfl
  have hbuf : buffered a (initialized_state A a reset_sparsity add_values) = false := by
    have hv : (initialized_state A a reset_sparsity add_values).values = none := by
      unfold initialized_state
      simp only [AssemblyState.record]
      rw [(gather_coefficients_log a _).2.2]
      rfl
    simp [buffered, hv]
  have hcells : ∃ cells : List (Nat × Nat),
      s1.log = (initialized_state A a reset_sparsity add_values).log
        ++ cells.flatMap (cell_events false) := by
    have hrun := assemble_cells_run a cell_domains
      (initialized_state A a reset_sparsity add_values)
    change (_ ∧ (assemble_cells a cell_domains _).state = _) ∨
      (∃ k cells, _ ∧ cell_run a k cells _ (assemble_cells a cell_domains _).state) at hrun
    rw [h1] at hrun
    rcases hrun with ⟨_, hs⟩ | ⟨k, cells, _, hr⟩
    · exact ⟨[], by rw [show s1 = _ from hs]; simp⟩
    · refine ⟨cells, ?_⟩
      have := hr.1
      rw [hbuf] at this
      exact this
  obtain ⟨cells, hc⟩ := hcells
  have hext := assemble_exterior_facets_log a exterior_facet_domains s1
  rw [h2] at hext
  obtain ⟨exterior, he, hpe⟩ := hext
  have hint := assemble_interior_facets_log a interior_facet_domains s2
  rw [h3] at hint
  obtain ⟨interior, hi, hpi⟩ := hint
  refine ⟨s1, s2, s3, cells, exterior, interior, h1, h2, h3, hfin, hinit, hc, he, hi, hpe, hpi,
    ?_⟩
  rw [hfin]
  show s3.log ++ [Event.apply] = _
  rw [show s3.log = s2.log ++ interior from hi, show s2.log = s1.log ++ exterior from he, hc,
    hinit]

/-- C11, for a form with one coefficient and one integral of each kind on two triangles:
the two cells, then the four boundary facets, then the interior facet. -/
theorem assemble_call_order_witness :
    (assemble (fun _ => (0 : ℤ)) full_form none none none true true).error = none ∧
    (∃ (s1 s2 s3 : AssemblyState ℤ) (cells : List (Nat × Nat))
        (exterior interior : List Event),
      assemble_cells full_form none (initialized_state (fun _ => (0 : ℤ)) full_form true true)
        = Outcome.done s1 ∧
      assemble_exterior_facets full_form none s1 = Outcome.done s2 ∧
      assemble_interior_facets full_form none s2 = Outcome.done s3 ∧
      assemble (fun _ => (0 : ℤ)) full_form none none none true true
        = Outcome.done (s3.record .apply) ∧
      (initialized_state (fun _ => (0 : ℤ)) full_form true true).log
        = [Event.check] ++ (List.range full_form.num_coefficients).map Event.gather
            ++ [Event.init_global_tensor] ∧
      s1.log = (initialized_state (fun _ => (0 : ℤ)) full_form true true).log
        ++ cells.flatMap (cell_events false) ∧
      s2.log = s1.log ++ exterior ∧
      s3.log = s2.log ++ interior ∧
      (∀ e ∈ exterior, e.is_exterior_event = true) ∧
      (∀ e ∈ interior, e.is_interior_event = true) ∧
      (assemble (fun _ => (0 : ℤ)) full_form none none none true true).state.log
        = [Event.check] ++ (List.range full_form.num_coefficients).map Event.gather
            ++ [Event.init_global_tensor] ++ cells.flatMap (cell_events false)
            ++ exterior ++ interior ++ [Event.apply]) ∧
    (assemble (fun _ => (0 : ℤ)) full_form none none none true true).state.log
      = [.check, .gather 0, .init_global_tensor,
         .tabulate_cell 0, .add, .tabulate_cell 1, .add,
         .tabulate_exterior_facet 0 0, .add, .tabulate_exterior_facet 0 1, .add,
         .tabulate_exterior_facet 1 1, .add, .tabulate_exterior_facet 1 0, .add,
         .tabulate_interior_facet 0 1 2 2, .add,
         .apply] :=
  ⟨by decide,
    assemble_call_order (fun _ => (0 : ℤ)) full_form none none none true true (by decide),
    by decide⟩

/-- C12: a pass of a form that registers no integral of its kind returns normally in
the state it started in, with the same global tensor, `values` buffer and log, whatever the
markers, the facet orientation and the mesh. -/
theorem passes_skip_without_integrals (a : Form R) (domains : Option MeshFunction)
    (s : AssemblyState R) :
    (a.cell_integrals.length = 0 → assemble_cells a domains s = Outcome.done s) ∧
    (a.exterior_facet_integrals.length = 0 →
      assemble_exterior_facets a domains s = Outcome.done s) ∧
    (a.interior_facet_integrals.length = 0 →
      assemble_interior_facets a domains s = Outcome.done s) := by
  refine ⟨fun h => ?_, fun h => ?_, fun h => ?_⟩
  · unfold assemble_cells
    rw [if_pos h]
  · unfold assemble_exterior_facets
    rw [if_pos h]
  · unfold assemble_interior_facets
    rw [if_pos h]

/-- C12, with cell markers supplied to a form without cell integral, and with a facet
orientation defined on vertices for a form without interior-facet integral. -/
theorem passes_skip_without_integrals_witness :
    boundary_form.cell_integrals.length = 0 ∧
    MeshFunction.supplied (some cell_markers) = true ∧
    assemble_cells boundary_form (some cell_markers) zero_state = Outcome.done zero_state ∧
    jump_form.exterior_facet_integrals.length = 0 ∧
    assemble_exterior_facets jump_form (some boundary_markers) zero_state
      = Outcome.done zero_state ∧
    misoriented_boundary_form.interior_facet_integrals.length = 0 ∧
    facet_orientation_rejected misoriented_boundary_form.mesh = true ∧
    assemble_interior_facets misoriented_boundary_form none zero_state
      = Outcome.done zero_state :=
  ⟨rfl, rfl,
    (passes_skip_without_integrals boundary_form (some cell_markers) zero_state).1 rfl,
    rfl,
    (passes_skip_without_integrals jump_form (some boundary_markers) zero_state).2.1 rfl,
    rfl, rfl,
    (passes_skip_without_integrals misoriented_boundary_form none zero_state).2.2 rfl⟩

end OrderClaims

/-! ## The colouring consumed by the cell pass, and the exterior-facet loop -/

section ColouringClaims
variable {R : Type} [AddCommMonoid R]

/-- C14, refuted as stated: two triangles that share no vertex are both in the one colour
class of a vertex colouring, and both carry the global dof 0; the colouring is not sound for
the form, yet the cell pass consumes it and returns normally, both cells adding to the
entry 0 of the tensor (1 + 2 = 3). And for a form of rank 0 all cells address the one entry
`[]`, whatever the colouring. -/
theorem cell_pass_consumes_unsound_coloring :
    vertex_coloring separate_triangles_vertices multiplier_form.mesh.num_cells [[0, 1]] ∧
    stored_classes multiplier_form.mesh = [[0, 1]].map some ∧
    ¬ coloring_sound multiplier_form [[0, 1]] ∧
    (assemble_cells multiplier_form none zero_state).error = none ∧
    (assemble_cells multiplier_form none zero_state).state.A [0] = 3 ∧
    global_indices (cell_dofs scalar_form 0) = [[]] ∧
    global_indices (cell_dofs scalar_form 1) = [[]] := by
  refine ⟨by unfold vertex_coloring; decide, by decide, by unfold coloring_sound; decide,
    by decide, by decide, by decide, by decide⟩

/-- C14, amended: the cell pass does not check the colouring it consumes: with a default
kernel and no markers it returns normally whatever colour classes the mesh stores; and
when the stored classes are sound for the form (no two distinct cells of a class share a
global dof index through the dof map of any argument) and the form has rank at least 1, two
distinct cells of one class address no common entry of the global tensor. -/
theorem cell_pass_does_not_check_coloring (a : Form R) (domains : Option MeshFunction)
    (s : AssemblyState R) (k : CellIntegral R) (classes : List (List Nat))
    (hk : a.cell_integrals[0]? = some (some k))
    (hd : MeshFunction.supplied domains = false)
    (hc : stored_classes a.mesh = classes.map some) :
    (∃ s', assemble_cells a domains s = Outcome.done s') ∧
    (coloring_sound a classes → 1 ≤ a.rank →
      ∀ cls ∈ classes, ∀ c1 ∈ cls, ∀ c2 ∈ cls, c1 ≠ c2 →
        ∀ idx ∈ global_indices (cell_dofs a c1), idx ∉ global_indices (cell_dofs a c2)) := by
  constructor
  · have hlen : a.cell_integrals.length ≠ 0 := by
      intro h0
      have : a.cell_integrals = [] := List.length_eq_zero.mp h0
      rw [this] at hk
      simp at hk
    have hint : a.cell_integrals.getD 0 none = some k := by
      rw [List.getD_eq_getElem?_getD, hk]; rfl
    obtain ⟨s', h1⟩ := assemble_cells_classes_done a k classes s
    refine ⟨s', ?_⟩
    unfold assemble_cells
    simp only [hlen, hd, if_false, Bool.false_eq_true, hint]
    rw [assemble_cells_sequential_fold, hc]
    exact h1
  · intro hsound hrank cls hcls c1 h1 c2 h2 hne idx hidx1 hidx2
    obtain ⟨r1, e1⟩ := cell_dofs_cons a hrank c1
    obtain ⟨r2, e2⟩ := cell_dofs_cons a hrank c2
    rw [e1] at hidx1
    rw [e2] at hidx2
    obtain ⟨g1, t1, he1, hg1, _⟩ := mem_global_indices_cons _ _ _ hidx1
    obtain ⟨g2, t2, he2, hg2, _⟩ := mem_global_indices_cons _ _ _ hidx2
    have hg : g1 = g2 := by
      rw [he1] at he2
      exact (List.cons.inj he2).1
    rw [← hg] at hg2
    exact hsound cls hcls c1 h1 c2 h2 hne 0 (by omega) g1 hg1 hg2

/-- C14, amended, on the two triangles in two colour classes, whose colouring is sound. -/
theorem cell_pass_does_not_check_coloring_witness :
    jump_form.cell_integrals[0]? = some (some sample_cell_kernel) ∧
    MeshFunction.supplied none = false ∧
    stored_classes jump_form.mesh = [[0], [1]].map some ∧
    coloring_sound jump_form [[0], [1]] ∧ 1 ≤ jump_form.rank ∧
    (∃ s', assemble_cells jump_form none zero_state = Outcome.done s') ∧
    (coloring_sound jump_form [[0], [1]] → 1 ≤ jump_form.rank →
      ∀ cls ∈ [[0], [1]], ∀ c1 ∈ cls, ∀ c2 ∈ cls, c1 ≠ c2 →
        ∀ idx ∈ global_indices (cell_dofs jump_form c1),
          idx ∉ global_indices (cell_dofs jump_form c2)) :=
  ⟨rfl, rfl, by decide, by unfold coloring_sound; decide, by decide,
    cell_pass_does_not_check_coloring jump_form none zero_state sample_cell_kernel
      [[0], [1]] rfl rfl (by decide)⟩

/-- C15: on an ordered mesh whose facets have one or two adjacent cells, the exterior-facet
pass returns normally (the assertion on the number of adjacent cells never fails), its log
grows by the events of the facets `0, ..., num_facets - 1` in order and its tensor by
their contributions; a facet with two adjacent cells, or on which an "exterior facets"
marker exists and is zero, has no event and contributes nothing; and every other facet
with a registered kernel has exactly one adjacent cell, one kernel call, on that cell and the
local index of the facet in it, followed by one scatter-add, and contributes the local
tensor of that call scattered through the dofs of that cell for each argument. -/
theorem exterior_facets_processed_once (a : Form R) (domains : Option MeshFunction)
    (s : AssemblyState R) (hord : a.mesh.ordered = true)
    (hcells : ∀ f, f < a.mesh.num_facets →
      (a.mesh.facet_cells f).length = 1 ∨ (a.mesh.facet_cells f).length = 2) :
    (∃ s', assemble_exterior_facets a domains s = Outcome.done s' ∧
      s'.log = s.log ++
        (List.range a.mesh.num_facets).flatMap (exterior_facet_events a domains) ∧
      s'.A = s.A +
        ((List.range a.mesh.num_facets).map (exterior_facet_contribution a domains)).sum) ∧
    ∀ f, f < a.mesh.num_facets →
      (((a.mesh.facet_cells f).length = 2 ∨
          ∃ ef, a.mesh.exterior_facets = some ef ∧ ef.values f = 0) →
        exterior_facet_events a domains f = [] ∧
        exterior_facet_contribution a domains f = 0) ∧
      (¬ ((a.mesh.facet_cells f).length = 2 ∨
          ∃ ef, a.mesh.exterior_facets = some ef ∧ ef.values f = 0) →
        ∀ k, registered_kernel a.exterior_facet_integrals domains f = some k →
          ∃ cell, a.mesh.facet_cells f = [cell] ∧
            exterior_facet_events a domains f
              = [.tabulate_exterior_facet cell (a.mesh.local_facet cell f), .add] ∧
            exterior_facet_contribution a domains f
              = contribution (k cell (a.mesh.local_facet cell f)) (cell_dofs a cell)) := by
  have hskip : ∀ f, not_exterior a.mesh f = true ↔
      ((a.mesh.facet_cells f).length = 2 ∨
        ∃ ef, a.mesh.exterior_facets = some ef ∧ ef.values f = 0) := by
    intro f
    unfold not_exterior
    cases a.mesh.exterior_facets with
    | none => simp
    | some ef => simp
  constructor
  · unfold assemble_exterior_facets
    by_cases h0 : a.exterior_facet_integrals.length = 0
    · refine ⟨s, by rw [if_pos h0], ?_, ?_⟩
      · have hnil : a.exterior_facet_integrals = [] := List.length_eq_zero.mp h0
        have hz : ∀ f, exterior_facet_events a domains f = [] := by
          intro f
          unfold exterior_facet_events registered_kernel
          rw [hnil]
          by_cases hne : not_exterior a.mesh f = true
          · simp [hne]
          · simp [hne, Option.join]
        simp [hz]
      · have hz : ∀ f, exterior_facet_contribution a domains f = 0 := by
          intro f
          have hnil : a.exterior_facet_integrals = [] := List.length_eq_zero.mp h0
          unfold exterior_facet_contribution registered_kernel
          rw [hnil]
          by_cases hne : not_exterior a.mesh f = true
          · simp [hne]
          · simp [hne, Option.join]
        rw [sum_map_eq_zero _ _ hz, add_zero]
    · obtain ⟨i1, s1, h1, _, hA⟩ := exterior_facets_fold a domains
        (List.range a.mesh.num_facets) (fun f hf => hcells f (List.mem_range.mp hf))
        (a.exterior_facet_integrals.getD 0 none) s (Or.inr rfl)
      obtain ⟨i2, s2, h2, hl⟩ := exterior_facets_fold_log a domains
        (List.range a.mesh.num_facets) (fun f hf => hcells f (List.mem_range.mp hf))
        (a.exterior_facet_integrals.getD 0 none) s (Or.inr rfl)
      have hs : s2 = s1 := by
        rw [h1] at h2
        exact (Outcome.done.inj (Prod.mk.inj h2).2).symm
      rw [hs] at hl
      refine ⟨s1, ?_, hl, hA⟩
      rw [if_neg h0]
      dsimp only
      simp only [hord, Bool.not_true, Bool.false_eq_true, if_false, h1]
  · intro f hf
    constructor
    · intro hsk
      have hne := (hskip f).mpr hsk
      exact ⟨by simp [exterior_facet_events, hne], by simp [exterior_facet_contribution, hne]⟩
    · intro hsk k hk
      have hne : ¬ not_exterior a.mesh f = true := fun h => hsk ((hskip f).mp h)
      have hlen : (a.mesh.facet_cells f).length = 1 := by
        rcases hcells f hf with h | h
        · exact h
        · exact absurd (Or.inl h) hsk
      obtain ⟨cell, hcell⟩ := List.length_eq_one.mp hlen
      refine ⟨cell, hcell, ?_, ?_⟩
      · simp [exterior_facet_events, hne, hk, hcell]
      · simp [exterior_facet_contribution, hne, hk, hcell]

/-- C15, for one exterior-facet integral on two triangles with boundary facets marked 0
and 2: the interior facet 2 and the facets marked 2 have no event, and the facets 0 and 3 are
processed once each. -/
theorem exterior_facets_processed_once_witness :
    boundary_form.mesh.ordered = true ∧
    (∀ f, f < boundary_form.mesh.num_facets →
      (boundary_form.mesh.facet_cells f).length = 1 ∨
        (boundary_form.mesh.facet_cells f).length = 2) ∧
    (∃ s', assemble_exterior_facets boundary_form (some boundary_markers) zero_state
        = Outcome.done s' ∧
      s'.log = zero_state.log ++ (List.range boundary_form.mesh.num_facets).flatMap
        (exterior_facet_events boundary_form (some boundary_markers)) ∧
      s'.A = zero_state.A + ((List.range boundary_form.mesh.num_facets).map
        (exterior_facet_contribution boundary_form (some boundary_markers))).sum) ∧
    (List.range boundary_form.mesh.num_facets).flatMap
        (exterior_facet_events boundary_form (some boundary_markers))
      = [.tabulate_exterior_facet 0 0, .add, .tabulate_exterior_facet 1 1, .add] :=
  ⟨rfl, by decide,
    (exterior_facets_processed_once boundary_form (some boundary_markers) zero_state rfl
      (by decide)).1,
    by decide⟩

end ColouringClaims

/-! ## The unit cube mesh: the vertices of the cells, coordinates, volumes, the input check -/

/-- C16: for `nx, ny, nz ≥ 1` whose vertex count fits in `std::size_t`, every cell added has
four vertex indices, pairwise distinct, each below the vertex count
`(nx + 1) (ny + 1) (nz + 1)` and each the index of a vertex that was added. -/
theorem unit_cube_cells_refer_to_vertices (nx ny nz : Nat) (is_broadcaster : Bool)
    (hx : 1 ≤ nx) (hy : 1 ≤ ny) (hz : 1 ≤ nz)
    (hv : (nx + 1) * (ny + 1) * (nz + 1) < 2 ^ 64) :
    ∃ mesh, UnitCubeMesh nx ny nz false is_broadcaster = .built mesh is_broadcaster ∧
      ∀ c ∈ mesh.cells, c.2.length = 4 ∧ c.2.Nodup ∧
        ∀ v ∈ c.2, v < (nx + 1) * (ny + 1) * (nz + 1) ∧ v ∈ mesh.vertices.map Prod.fst := by
  refine ⟨build_mesh nx ny nz, unit_cube_built nx ny nz is_broadcaster hx hy hz, ?_⟩
  intro c hc
  obtain ⟨ix, iy, iz, h1, h2, h3, hmem⟩ := build_mesh_cell_mem nx ny nz c hc
  have hb := box_corner_bound nx ny nz ix iy iz h1 h2 h3
  have hlt : iz * (nx + 1) * (ny + 1) + iy * (nx + 1) + ix < 2 ^ 64 := by omega
  rw [size_t_of_lt _ hlt] at hmem
  generalize iz * (nx + 1) * (ny + 1) + iy * (nx + 1) + ix = v0 at hb hmem
  rw [box_cells_eq nx ny v0 (by omega)] at hmem
  have hK : 1 ≤ (nx + 1) * (ny + 1) := Nat.mul_pos (Nat.succ_pos _) (Nat.succ_pos _)
  have hmemv : ∀ v, v < (nx + 1) * (ny + 1) * (nz + 1) →
      v ∈ (build_mesh nx ny nz).vertices.map Prod.fst := by
    intro v hvlt
    rw [build_mesh_vertex_indices nx ny nz hv]
    exact List.mem_range.mpr hvlt
  generalize (nx + 1) * (ny + 1) * (nz + 1) = N at hb hv hmemv ⊢
  generalize (nx + 1) * (ny + 1) = K at hb hK hmem
  simp only [List.mem_cons, List.mem_singleton, List.not_mem_nil, or_false] at hmem
  have hbound : ∀ v ∈ c.2, v < N := by
    intro v hvm
    rcases hmem with h | h | h | h | h | h <;> rw [h] at hvm <;>
      simp only [List.mem_cons, List.mem_singleton, List.not_mem_nil, or_false] at hvm <;>
      rcases hvm with e | e | e | e <;> omega
  refine ⟨?_, ?_, fun v hvm => ⟨hbound v hvm, ?_⟩⟩
  · rcases hmem with h | h | h | h | h | h <;> rw [h] <;> rfl
  · rcases hmem with h | h | h | h | h | h <;> rw [h] <;>
      simp only [List.nodup_cons, List.mem_cons, List.mem_singleton, List.not_mem_nil,
        List.nodup_nil, or_false, not_or, and_true, not_false_eq_true] <;> omega
  · exact hmemv v (hbound v hvm)

/-- C16, for `nx = ny = nz = 2`. -/
theorem unit_cube_cells_refer_to_vertices_witness :
    (1 ≤ 2) ∧ (2 + 1) * (2 + 1) * (2 + 1) < 2 ^ 64 ∧
    ∃ mesh, UnitCubeMesh 2 2 2 false false = .built mesh false ∧
      ∀ c ∈ mesh.cells, c.2.length = 4 ∧ c.2.Nodup ∧
        ∀ v ∈ c.2, v < (2 + 1) * (2 + 1) * (2 + 1) ∧ v ∈ mesh.vertices.map Prod.fst :=
  ⟨by decide, by decide,
    unit_cube_cells_refer_to_vertices 2 2 2 false (by decide) (by decide) (by decide)
      (by decide)⟩

/-- C17: for `nx, ny, nz ≥ 1` whose vertex count fits in `std::size_t`, the vertex added with
the index `iz (nx + 1) (ny + 1) + iy (nx + 1) + ix`, for `ix ≤ nx`, `iy ≤ ny`, `iz ≤ nz`, has the
coordinates `(ix / nx, iy / ny, iz / nz)`, and no other vertex has this index; the indices
`v0, ..., v7` computed for the box `(ix, iy, iz)`, of which its six cells are made, are the
indices of the eight grid vertices `(ix + a, iy + b, iz + c)` with `a, b, c` in `{0, 1}`; and all
coordinates lie between 0 and 1. -/
theorem unit_cube_vertex_coordinates (nx ny nz : Nat) (is_broadcaster : Bool)
    (hx : 1 ≤ nx) (hy : 1 ≤ ny) (hz : 1 ≤ nz)
    (hv : (nx + 1) * (ny + 1) * (nz + 1) < 2 ^ 64) :
    ∃ mesh, UnitCubeMesh nx ny nz false is_broadcaster = .built mesh is_broadcaster ∧
      (mesh.vertices.map Prod.fst).Nodup ∧
      (∀ ix iy iz, ix ≤ nx → iy ≤ ny → iz ≤ nz →
        (grid_index nx ny ix iy iz, grid_point nx ny nz ix iy iz) ∈ mesh.vertices ∧
        mesh.coordinates (grid_index nx ny ix iy iz) = grid_point nx ny nz ix iy iz) ∧
      (∀ ix iy iz, ix < nx → iy < ny → iz < nz →
        box_corners nx ny (size_t (iz * (nx + 1) * (ny + 1) + iy * (nx + 1) + ix))
          = [grid_index nx ny ix iy iz, grid_index nx ny (ix + 1) iy iz,
             grid_index nx ny ix (iy + 1) iz, grid_index nx ny (ix + 1) (iy + 1) iz,
             grid_index nx ny ix iy (iz + 1), grid_index nx ny (ix + 1) iy (iz + 1),
             grid_index nx ny ix (iy + 1) (iz + 1),
             grid_index nx ny (ix + 1) (iy + 1) (iz + 1)] ∧
        box_cells nx ny (size_t (iz * (nx + 1) * (ny + 1) + iy * (nx + 1) + ix))
          = cells_of_corners
              (box_corners nx ny (size_t (iz * (nx + 1) * (ny + 1) + iy * (nx + 1) + ix)))) ∧
      (∀ v ∈ mesh.vertices, ∀ x ∈ v.2, 0 ≤ x ∧ x ≤ 1) := by
  refine ⟨build_mesh nx ny nz, unit_cube_built nx ny nz is_broadcaster hx hy hz, ?_, ?_, ?_, ?_⟩
  · rw [build_mesh_vertex_indices nx ny nz hv]
    exact List.nodup_range _
  · intro ix iy iz h1 h2 h3
    refine ⟨?_, build_mesh_coordinates nx ny nz ix iy iz hv (by omega) (by omega) (by omega)⟩
    rw [build_mesh_vertices nx ny nz hv,
      ← grid_vertex_index nx ny nz ix iy iz (by omega) (by omega)]
    exact List.mem_map_of_mem _ (List.mem_range.mpr
      (grid_index_lt nx ny nz ix iy iz (by omega) (by omega) (by omega)))
  · intro ix iy iz h1 h2 h3
    exact ⟨box_corners_grid nx ny nz ix iy iz h1 h2 h3 hv, box_cells_corners nx ny _⟩
  · intro v hvm x hxm
    rw [build_mesh_vertices nx ny nz hv] at hvm
    obtain ⟨j, hj, rfl⟩ := List.mem_map.mp hvm
    exact grid_vertex_bounds nx ny nz j hx hy hz (List.mem_range.mp hj) x hxm

/-- C17, for `nx = ny = nz = 2`. -/
theorem unit_cube_vertex_coordinates_witness :
    (1 ≤ 2) ∧ (2 + 1) * (2 + 1) * (2 + 1) < 2 ^ 64 ∧
    ∃ mesh, UnitCubeMesh 2 2 2 false false = .built mesh false ∧
      (mesh.vertices.map Prod.fst).Nodup ∧
      (∀ ix iy iz, ix ≤ 2 → iy ≤ 2 → iz ≤ 2 →
        (grid_index 2 2 ix iy iz, grid_point 2 2 2 ix iy iz) ∈ mesh.vertices ∧
        mesh.coordinates (grid_index 2 2 ix iy iz) = grid_point 2 2 2 ix iy iz) ∧
      (∀ ix iy iz, ix < 2 → iy < 2 → iz < 2 →
        box_corners 2 2 (size_t (iz * (2 + 1) * (2 + 1) + iy * (2 + 1) + ix))
          = [grid_index 2 2 ix iy iz, grid_index 2 2 (ix + 1) iy iz,
             grid_index 2 2 ix (iy + 1) iz, grid_index 2 2 (ix + 1) (iy + 1) iz,
             grid_index 2 2 ix iy (iz + 1), grid_index 2 2 (ix + 1) iy (iz + 1),
             grid_index 2 2 ix (iy + 1) (iz + 1),
             grid_index 2 2 (ix + 1) (iy + 1) (iz + 1)] ∧
        box_cells 2 2 (size_t (iz * (2 + 1) * (2 + 1) + iy * (2 + 1) + ix))
          = cells_of_corners
              (box_corners 2 2 (size_t (iz * (2 + 1) * (2 + 1) + iy * (2 + 1) + ix)))) ∧
      (∀ v ∈ mesh.vertices, ∀ x ∈ v.2, 0 ≤ x ∧ x ≤ 1) :=
  ⟨by decide, by decide,
    unit_cube_vertex_coordinates 2 2 2 false (by decide) (by decide) (by decide) (by decide)⟩

/-- C18: for `nx, ny, nz ≥ 1` whose vertex and cell counts fit in `std::size_t`, every cell
added, its vertices taken in the stored order and their coordinates as exact rationals, has
the signed volume `+1 / (6 nx ny nz)`; so all cells are non-degenerate and of the same
orientation, and the volumes of the `6 nx ny nz` cells sum to 1. -/
theorem unit_cube_cell_volumes (nx ny nz : Nat) (is_broadcaster : Bool)
    (hx : 1 ≤ nx) (hy : 1 ≤ ny) (hz : 1 ≤ nz)
    (hv : (nx + 1) * (ny + 1) * (nz + 1) < 2 ^ 64) (hc : 6 * nx * ny * nz < 2 ^ 64) :
    ∃ mesh, UnitCubeMesh nx ny nz false is_broadcaster = .built mesh is_broadcaster ∧
      (∀ c ∈ mesh.cells, cell_volume mesh c.2 = 1 / (6 * nx * ny * nz)) ∧
      mesh.cells.length = 6 * nx * ny * nz ∧
      (mesh.cells.map (fun c => cell_volume mesh c.2)).sum = 1 := by
  have hvol : ∀ c ∈ (build_mesh nx ny nz).cells,
      cell_volume (build_mesh nx ny nz) c.2 = 1 / (6 * nx * ny * nz) := by
    intro c hcm
    obtain ⟨ix, iy, iz, h1, h2, h3, hcell⟩ := build_mesh_cell_grid nx ny nz hv c hcm
    have c000 := build_mesh_coordinates nx ny nz ix iy iz hv (by omega) (by omega) (by omega)
    have c100 := build_mesh_coordinates nx ny nz (ix + 1) iy iz hv (by omega) (by omega)
      (by omega)
    have c010 := build_mesh_coordinates nx ny nz ix (iy + 1) iz hv (by omega) (by omega)
      (by omega)
    have c110 := build_mesh_coordinates nx ny nz (ix + 1) (iy + 1) iz hv (by omega) (by omega)
      (by omega)
    have c001 := build_mesh_coordinates nx ny nz ix iy (iz + 1) hv (by omega) (by omega)
      (by omega)
    have c101 := build_mesh_coordinates nx ny nz (ix + 1) iy (iz + 1) hv (by omega) (by omega)
      (by omega)
    have c011 := build_mesh_coordinates nx ny nz ix (iy + 1) (iz + 1) hv (by omega) (by omega)
      (by omega)
    have c111 := build_mesh_coordinates nx ny nz (ix + 1) (iy + 1) (iz + 1) hv (by omega)
      (by omega) (by omega)
    obtain ⟨v1, v2, v3, v4, v5, v6⟩ := box_volumes nx ny nz ix iy iz hx hy hz
    rcases hcell with h | h | h | h | h | h <;> rw [h] <;>
      simp only [cell_volume, List.getD_cons_zero, List.getD_cons_succ, c000, c100, c010,
        c110, c001, c101, c011, c111]
    · exact v1
    · exact v2
    · exact v3
    · exact v4
    · exact v5
    · exact v6
  have hlen : (build_mesh nx ny nz).cells.length = 6 * nx * ny * nz := by
    have h4 := (build_mesh_counts nx ny nz hv hc).2.2.2
    have := congrArg List.length h4
    rw [List.length_map, List.length_range] at this
    exact this
  refine ⟨build_mesh nx ny nz, unit_cube_built nx ny nz is_broadcaster hx hy hz, hvol, hlen, ?_⟩
  rw [List.sum_eq_card_nsmul _ (1 / (6 * (nx : ℚ) * ny * nz))
    (by
      intro x hxm
      obtain ⟨c, hcm, rfl⟩ := List.mem_map.mp hxm
      exact hvol c hcm),
    List.length_map, hlen, nsmul_eq_mul]
  have hx' : (nx : ℚ) ≠ 0 := by exact_mod_cast (by omega : nx ≠ 0)
  have hy' : (ny : ℚ) ≠ 0 := by exact_mod_cast (by omega : ny ≠ 0)
  have hz' : (nz : ℚ) ≠ 0 := by exact_mod_cast (by omega : nz ≠ 0)
  push_cast
  field_simp

/-- C18, for `nx = ny = nz = 2`: 48 cells of volume `1 / 48`. -/
theorem unit_cube_cell_volumes_witness :
    (1 ≤ 2) ∧ (2 + 1) * (2 + 1) * (2 + 1) < 2 ^ 64 ∧ 6 * 2 * 2 * 2 < 2 ^ 64 ∧
    ∃ mesh, UnitCubeMesh 2 2 2 false false = .built mesh false ∧
      (∀ c ∈ mesh.cells, cell_volume mesh c.2 = 1 / (6 * ((2 : ℕ) : ℚ) * ((2 : ℕ) : ℚ)
        * ((2 : ℕ) : ℚ))) ∧
      mesh.cells.length = 6 * 2 * 2 * 2 ∧
      (mesh.cells.map (fun c => cell_volume mesh c.2)).sum = 1 :=
  ⟨by decide, by decide, by decide,
    unit_cube_cell_volumes 2 2 2 false (by decide) (by decide) (by decide) (by decide)
      (by decide)⟩

/-- C19: on a process that is not a receiver, the constructor raises its error exactly
when one of `nx`, `ny`, `nz` is below 1, and then the mesh has no vertex and no cell; and for
`nx, ny, nz ≥ 1` whose vertex and cell counts fit in `std::size_t` it raises no error and
builds the mesh, with all its vertices and cells. -/
theorem unit_cube_input_check (nx ny nz : Nat) (is_broadcaster : Bool) :
    ((∃ mesh, UnitCubeMesh nx ny nz false is_broadcaster = .error mesh) ↔
        (nx < 1 ∨ ny < 1 ∨ nz < 1)) ∧
    (∀ mesh, UnitCubeMesh nx ny nz false is_broadcaster = .error mesh →
        mesh.vertices = [] ∧ mesh.cells = []) ∧
    (1 ≤ nx → 1 ≤ ny → 1 ≤ nz →
      (nx + 1) * (ny + 1) * (nz + 1) < 2 ^ 64 → 6 * nx * ny * nz < 2 ^ 64 →
      ∃ mesh, UnitCubeMesh nx ny nz false is_broadcaster = .built mesh is_broadcaster ∧
        mesh.vertices.length = (nx + 1) * (ny + 1) * (nz + 1) ∧
        mesh.cells.length = 6 * nx * ny * nz) := by
  by_cases hn : nx < 1 ∨ ny < 1 ∨ nz < 1
  · have herr : UnitCubeMesh nx ny nz false is_broadcaster = .error MeshEditor.empty := by
      unfold UnitCubeMesh
      rw [if_neg Bool.false_ne_true, if_pos hn]
    refine ⟨⟨fun _ => hn, fun _ => ⟨_, herr⟩⟩, ?_, ?_⟩
    · intro mesh hm
      rw [herr] at hm
      have := UnitCubeOutcome.error.inj hm
      rw [← this]
      exact ⟨rfl, rfl⟩
    · intro h1 h2 h3
      omega
  · have hbuilt : UnitCubeMesh nx ny nz false is_broadcaster
        = .built (build_mesh nx ny nz) is_broadcaster :=
      unit_cube_built nx ny nz is_broadcaster (by omega) (by omega) (by omega)
    refine ⟨⟨fun ⟨mesh, hm⟩ => ?_, fun h => absurd h hn⟩, ?_, ?_⟩
    · rw [hbuilt] at hm
      exact absurd hm (by simp)
    · intro mesh hm
      rw [hbuilt] at hm
      exact absurd hm (by simp)
    · intro _ _ _ hv hc
      obtain ⟨_, h2, _, h4⟩ := build_mesh_counts nx ny nz hv hc
      refine ⟨build_mesh nx ny nz, hbuilt, ?_, ?_⟩
      · have := congrArg List.length h2
        rw [List.length_map, List.length_range] at this
        exact this
      · have := congrArg List.length h4
        rw [List.length_map, List.length_range] at this
        exact this

/-- C19, for `nx = 0` (an error, on the empty mesh) and for `nx = ny = nz = 2`. -/
theorem unit_cube_input_check_witness :
    UnitCubeMesh 0 2 2 false false = .error MeshEditor.empty ∧
    MeshEditor.empty.vertices = [] ∧ MeshEditor.empty.cells = [] ∧
    ((∃ mesh, UnitCubeMesh 0 2 2 false false = .error mesh) ↔ (0 < 1 ∨ 2 < 1 ∨ 2 < 1)) ∧
    ∃ mesh, UnitCubeMesh 2 2 2 false false = .built mesh false ∧
      mesh.vertices.length = (2 + 1) * (2 + 1) * (2 + 1) ∧
      mesh.cells.length = 6 * 2 * 2 * 2 :=
  ⟨rfl, rfl, rfl, (unit_cube_input_check 0 2 2 false).1,
    (unit_cube_input_check 2 2 2 false).2.2 (by decide) (by decide) (by decide) (by decide)
      (by decide)⟩

end dolfin
